import Mathlib

/-!
Backplane driver: shallow embedding of `sw/src/backplane.c`.

The driver talks to the outside world only through the GPIO calls
`gpio_direction_output`, `gpio_direction_input`, `gpio_get_value` and `ndelay`.
The embedding makes that world explicit: a peer is a state machine that observes
every call and answers every `gpio_get_value`, and every line operation is
appended to a log.  The busy-wait loops on ACK are given a polling budget
(`fuel`); when the budget is exhausted the run stops with `Res.outOfFuel` and
still carries the state and log reached so far.
-/

namespace Backplane

/-! ## Constants (backplane.c lines 43-63) -/

/-- GPIO number of the request line. -/
def REQ : Nat := 17
/-- GPIO number of the acknowledge line. -/
def ACK : Nat := 18
/-- GPIO number of the write-not-read direction line. -/
def WNR : Nat := 27

/-- GPIO number of address line 7. -/
def ADDR7 : Nat := 22
/-- GPIO number of address line 6. -/
def ADDR6 : Nat := 10
/-- GPIO number of address line 5. -/
def ADDR5 : Nat := 9
/-- GPIO number of address line 4. -/
def ADDR4 : Nat := 11
/-- GPIO number of address line 3. -/
def ADDR3 : Nat := 23
/-- GPIO number of address line 2. -/
def ADDR2 : Nat := 24
/-- GPIO number of address line 1. -/
def ADDR1 : Nat := 25
/-- GPIO number of address line 0. -/
def ADDR0 : Nat := 8

/-- GPIO number of data line 7. -/
def DATA7 : Nat := 12
/-- GPIO number of data line 6. -/
def DATA6 : Nat := 16
/-- GPIO number of data line 5. -/
def DATA5 : Nat := 20
/-- GPIO number of data line 4. -/
def DATA4 : Nat := 21
/-- GPIO number of data line 3. -/
def DATA3 : Nat := 6
/-- GPIO number of data line 2. -/
def DATA2 : Nat := 13
/-- GPIO number of data line 1. -/
def DATA1 : Nat := 19
/-- GPIO number of data line 0. -/
def DATA0 : Nat := 26

/-- Linux errno value of ENOMEM. -/
def ENOMEM : Int := 12
/-- Linux errno value of EFAULT. -/
def EFAULT : Int := 14
/-- Largest value of the C type `int` (the type of the cursor `i`). -/
def INT_MAX : Nat := 2147483647

/-- The two data models of the kernel: `size_t` is 32 or 64 bits wide. -/
inductive Arch
  | ilp32
  | lp64
  deriving DecidableEq, Repr

/-- Number of values of `size_t`. -/
def SIZE_MOD : Arch → Nat
  | .ilp32 => 4294967296
  | .lp64 => 18446744073709551616

/-- Conversion of a non-negative `int` or of a length to `size_t`. -/
def to_size_t (a : Arch) (x : Nat) : Nat := x % SIZE_MOD a

/-- The `size_t` expression `len - 1` (wraps around when `len` is 0). -/
def len_minus_1 (a : Arch) (len : Nat) : Nat :=
  (to_size_t a len + SIZE_MOD a - 1) % SIZE_MOD a

/-- The loop guard `i < (len - 1)` of line 197: `i` is converted to `size_t`
and the comparison is unsigned. -/
def loop_guard (a : Arch) (i len : Nat) : Bool :=
  decide (to_size_t a i < len_minus_1 a len)

/-- The test `i < len` of line 212, again an unsigned comparison. -/
def has_data_byte (a : Arch) (i len : Nat) : Bool :=
  decide (to_size_t a i < to_size_t a len)

/-! ## Line operations and the peer -/

/-- One operation on a GPIO line, as it appears in the log. -/
inductive Op
  | dirOut (line : Nat) (v : Nat)
  | dirIn (line : Nat)
  | get (line : Nat) (v : Nat)
  deriving DecidableEq, Repr

/-- The world outside the driver: it observes every GPIO call and the delays,
and decides what `gpio_get_value` returns. -/
structure Peer (σ : Type) where
  onOut : σ → Nat → Nat → σ
  onIn : σ → Nat → σ
  onGet : σ → Nat → Nat × σ
  onDelay : σ → σ

/-- The record `bp_inst` (lines 36-41); each field is an `unsigned char`. -/
structure backplane_instructions where
  opcode : Nat
  addr : Nat
  data : Nat
  deriving DecidableEq, Repr

/-- State of a run: the held record, the peer and the log of line operations. -/
structure State (σ : Type) where
  bp_inst : backplane_instructions
  peer : σ
  log : List Op

/-- Outcome of a piece of driver code. `ok` is normal completion with a value,
`outOfFuel` means the budget ran out while the code was still looping, and
`fault i` is an access of the staging buffer outside its bounds at index `i`. -/
inductive Res (σ : Type) (α : Type)
  | ok (val : α) (s : State σ)
  | outOfFuel (s : State σ)
  | fault (i : Nat) (s : State σ)

/-- The state carried by an outcome. -/
def Res.state {σ α : Type} : Res σ α → State σ
  | .ok _ s => s
  | .outOfFuel s => s
  | .fault _ s => s

/-- Whether an outcome is a normal completion. -/
def Res.isOk {σ α : Type} : Res σ α → Bool
  | .ok _ _ => true
  | _ => false

/-- Model of `gpio_direction_output(line, v)`. -/
def gpio_direction_output {σ : Type} (P : Peer σ) (line v : Nat) (s : State σ) : State σ :=
  { s with peer := P.onOut s.peer line v, log := s.log ++ [Op.dirOut line v] }

/-- Model of `gpio_direction_input(line)`. -/
def gpio_direction_input {σ : Type} (P : Peer σ) (line : Nat) (s : State σ) : State σ :=
  { s with peer := P.onIn s.peer line, log := s.log ++ [Op.dirIn line] }

/-- Model of `gpio_get_value(line)`: the value comes from the peer. -/
def gpio_get_value {σ : Type} (P : Peer σ) (line : Nat) (s : State σ) : Nat × State σ :=
  ((P.onGet s.peer line).1,
   { s with peer := (P.onGet s.peer line).2,
            log := s.log ++ [Op.get line (P.onGet s.peer line).1] })

/-- Model of `ndelay(10)`: time passes for the peer, no line is touched. -/
def ndelay {σ : Type} (P : Peer σ) (s : State σ) : State σ :=
  { s with peer := P.onDelay s.peer }

/-! ## The busy-wait loops -/

/-- Inner loop `while(!gpio_get_value(ACK)) ndelay(10);` (lines 232-235, 269-272). -/
def wait_high_inner {σ : Type} (P : Peer σ) : Nat → State σ → Res σ Unit
  | 0, s => .outOfFuel s
  | n + 1, s =>
    if (gpio_get_value P ACK s).1 = 0 then
      wait_high_inner P n (ndelay P (gpio_get_value P ACK s).2)
    else .ok () (gpio_get_value P ACK s).2

/-- Outer loop `while(!gpio_get_value(ACK)) ...` (lines 230-236, 267-273). -/
def wait_high {σ : Type} (P : Peer σ) : Nat → State σ → Res σ Unit
  | 0, s => .outOfFuel s
  | n + 1, s =>
    if (gpio_get_value P ACK s).1 = 0 then
      match wait_high_inner P n (gpio_get_value P ACK s).2 with
      | .ok _ s1 => wait_high P n s1
      | .outOfFuel s1 => .outOfFuel s1
      | .fault i s1 => .fault i s1
    else .ok () (gpio_get_value P ACK s).2

/-- Inner loop `while(gpio_get_value(ACK)) ndelay(10);` (lines 242-245, 296-299). -/
def wait_low_inner {σ : Type} (P : Peer σ) : Nat → State σ → Res σ Unit
  | 0, s => .outOfFuel s
  | n + 1, s =>
    if (gpio_get_value P ACK s).1 ≠ 0 then
      wait_low_inner P n (ndelay P (gpio_get_value P ACK s).2)
    else .ok () (gpio_get_value P ACK s).2

/-- Outer loop `while(gpio_get_value(ACK)) ...` (lines 240-246, 294-300). -/
def wait_low {σ : Type} (P : Peer σ) : Nat → State σ → Res σ Unit
  | 0, s => .outOfFuel s
  | n + 1, s =>
    if (gpio_get_value P ACK s).1 ≠ 0 then
      match wait_low_inner P n (gpio_get_value P ACK s).2 with
      | .ok _ s1 => wait_low P n s1
      | .outOfFuel s1 => .outOfFuel s1
      | .fault i s1 => .fault i s1
    else .ok () (gpio_get_value P ACK s).2

/-! ## The body of the decode loop -/

/-- Lines 199-200: `bp_inst.opcode = data[i++] & 0x01;` and the drive of WNR. -/
def drive_opcode {σ : Type} (P : Peer σ) (b : Nat) (s : State σ) : State σ :=
  gpio_direction_output P WNR (b &&& 1)
    { s with bp_inst := { s.bp_inst with opcode := b &&& 1 } }

/-- Lines 202-210: `bp_inst.addr = data[i++];` and the drive of the address bus. -/
def drive_addr {σ : Type} (P : Peer σ) (b : Nat) (s : State σ) : State σ :=
  let s0 : State σ := { s with bp_inst := { s.bp_inst with addr := b % 256 } }
  let s1 := gpio_direction_output P ADDR7 ((s0.bp_inst.addr >>> 7) &&& 1) s0
  let s2 := gpio_direction_output P ADDR6 ((s0.bp_inst.addr >>> 6) &&& 1) s1
  let s3 := gpio_direction_output P ADDR5 ((s0.bp_inst.addr >>> 5) &&& 1) s2
  let s4 := gpio_direction_output P ADDR4 ((s0.bp_inst.addr >>> 4) &&& 1) s3
  let s5 := gpio_direction_output P ADDR3 ((s0.bp_inst.addr >>> 3) &&& 1) s4
  let s6 := gpio_direction_output P ADDR2 ((s0.bp_inst.addr >>> 2) &&& 1) s5
  let s7 := gpio_direction_output P ADDR1 ((s0.bp_inst.addr >>> 1) &&& 1) s6
  gpio_direction_output P ADDR0 (s0.bp_inst.addr &&& 1) s7

/-- Lines 214-222: `bp_inst.data = data[i++];` and the drive of the data bus. -/
def drive_data {σ : Type} (P : Peer σ) (b : Nat) (s : State σ) : State σ :=
  let s0 : State σ := { s with bp_inst := { s.bp_inst with data := b % 256 } }
  let s1 := gpio_direction_output P DATA7 ((s0.bp_inst.data >>> 7) &&& 1) s0
  let s2 := gpio_direction_output P DATA6 ((s0.bp_inst.data >>> 6) &&& 1) s1
  let s3 := gpio_direction_output P DATA5 ((s0.bp_inst.data >>> 5) &&& 1) s2
  let s4 := gpio_direction_output P DATA4 ((s0.bp_inst.data >>> 4) &&& 1) s3
  let s5 := gpio_direction_output P DATA3 ((s0.bp_inst.data >>> 3) &&& 1) s4
  let s6 := gpio_direction_output P DATA2 ((s0.bp_inst.data >>> 2) &&& 1) s5
  let s7 := gpio_direction_output P DATA1 ((s0.bp_inst.data >>> 1) &&& 1) s6
  gpio_direction_output P DATA0 (s0.bp_inst.data &&& 1) s7

/-- Lines 228-246: the request/acknowledge handshake of a write cycle. -/
def write_handshake {σ : Type} (P : Peer σ) (fuel : Nat) (s : State σ) : Res σ Unit :=
  match wait_high P fuel (gpio_direction_output P REQ 1 s) with
  | .ok _ s1 => wait_low P fuel (gpio_direction_output P REQ 0 s1)
  | .outOfFuel s1 => .outOfFuel s1
  | .fault i s1 => .fault i s1

/-- Lines 214-248: the write branch, entered with the data byte `b = data[i]`. -/
def write_cycle {σ : Type} (P : Peer σ) (fuel : Nat) (b : Nat) (s : State σ) : Res σ Unit :=
  write_handshake P fuel (drive_data P b s)

/-- Lines 253-260: the eight data lines are made inputs. -/
def release_data {σ : Type} (P : Peer σ) (s : State σ) : State σ :=
  let s1 := gpio_direction_input P DATA7 s
  let s2 := gpio_direction_input P DATA6 s1
  let s3 := gpio_direction_input P DATA5 s2
  let s4 := gpio_direction_input P DATA4 s3
  let s5 := gpio_direction_input P DATA3 s4
  let s6 := gpio_direction_input P DATA2 s5
  let s7 := gpio_direction_input P DATA1 s6
  gpio_direction_input P DATA0 s7

/-- The statement `bp_inst.data += v;` on an `unsigned char`. -/
def add_u8 (d v : Nat) : Nat := (d + v) % 256

/-- The statement `bp_inst.data <<= 1;` on an `unsigned char`. -/
def shl1_u8 (d : Nat) : Nat := (d <<< 1) % 256

/-- The byte computed by lines 275-290 from the eight sampled levels. -/
def sample_byte (d7 d6 d5 d4 d3 d2 d1 d0 : Nat) : Nat :=
  add_u8 (shl1_u8 (add_u8 (shl1_u8 (add_u8 (shl1_u8 (add_u8 (shl1_u8
    (add_u8 (shl1_u8 (add_u8 (shl1_u8 (add_u8 (shl1_u8 (add_u8 0 d7)) d6)) d5)) d4))
      d3)) d2)) d1)) d0

/-- Lines 275-290: the data lines are sampled, DATA7 first, into `bp_inst.data`. -/
def sample_data {σ : Type} (P : Peer σ) (s : State σ) : State σ :=
  let r7 := gpio_get_value P DATA7 s
  let r6 := gpio_get_value P DATA6 r7.2
  let r5 := gpio_get_value P DATA5 r6.2
  let r4 := gpio_get_value P DATA4 r5.2
  let r3 := gpio_get_value P DATA3 r4.2
  let r2 := gpio_get_value P DATA2 r3.2
  let r1 := gpio_get_value P DATA1 r2.2
  let r0 := gpio_get_value P DATA0 r1.2
  { r0.2 with bp_inst :=
      { r0.2.bp_inst with data := sample_byte r7.1 r6.1 r5.1 r4.1 r3.1 r2.1 r1.1 r0.1 } }

/-- Lines 253-303: the read branch. -/
def read_cycle {σ : Type} (P : Peer σ) (fuel : Nat) (s : State σ) : Res σ Unit :=
  match wait_high P fuel (gpio_direction_output P REQ 1 (release_data P s)) with
  | .ok _ s1 => wait_low P fuel (gpio_direction_output P REQ 0 (sample_data P s1))
  | .outOfFuel s1 => .outOfFuel s1
  | .fault i s1 => .fault i s1

/-- Lines 212-304: the branch taken after opcode and address have been driven;
`i` is the cursor after the two increments and the value is the new cursor. -/
def dispatch {σ : Type} (P : Peer σ) (a : Arch) (fuel : Nat) (data : List Nat) (i : Nat)
    (s : State σ) : Res σ Nat :=
  if s.bp_inst.opcode ≠ 0 ∧ has_data_byte a i data.length = true then
    match data[i]? with
    | none => .fault i s
    | some b2 =>
      match write_cycle P fuel b2 s with
      | .ok _ s1 => .ok (i + 1) s1
      | .outOfFuel s1 => .outOfFuel s1
      | .fault j s1 => .fault j s1
  else if s.bp_inst.opcode = 0 then
    match read_cycle P fuel s with
    | .ok _ s1 => .ok i s1
    | .outOfFuel s1 => .outOfFuel s1
    | .fault j s1 => .fault j s1
  else .ok i s

/-- Lines 199-304: one iteration of the decode loop at cursor `i`; the value is
the cursor after the iteration. A read of `data` outside the buffer is a fault. -/
def loop_body {σ : Type} (P : Peer σ) (a : Arch) (fuel : Nat) (data : List Nat) (i : Nat)
    (s : State σ) : Res σ Nat :=
  match data[i]? with
  | none => .fault i s
  | some b0 =>
    match data[i + 1]? with
    | none => .fault (i + 1) (drive_opcode P b0 s)
    | some b1 => dispatch P a fuel data (i + 2) (drive_addr P b1 (drive_opcode P b0 s))

/-- Lines 197-305: the decode loop `while(i < (len - 1))`, with `n` bounding the
number of iterations. -/
def decode_loop {σ : Type} (P : Peer σ) (a : Arch) (fuel : Nat) (data : List Nat) :
    Nat → Nat → State σ → Res σ Nat
  | 0, i, s => if loop_guard a i data.length = true then .outOfFuel s else .ok i s
  | n + 1, i, s =>
    if loop_guard a i data.length = true then
      match loop_body P a fuel data i s with
      | .ok j s1 => decode_loop P a fuel data n j s1
      | .outOfFuel s1 => .outOfFuel s1
      | .fault j s1 => .fault j s1
    else .ok i s

/-- Model of `backplane_write` (lines 180-309). `kmallocOk` says whether
`kmalloc(len)` returned a buffer, `copyOk` whether `copy_from_user` copied all
bytes; `buf` is the caller's stream and `len` its length. The value is the
`ssize_t` result. The decode loop gets `len + 1` iterations, more than it uses. -/
def backplane_write {σ : Type} (P : Peer σ) (a : Arch) (fuel : Nat) (kmallocOk copyOk : Bool)
    (buf : List Nat) (s : State σ) : Res σ Int :=
  if kmallocOk = false then .ok (-ENOMEM) s
  else if copyOk = false then .ok (-EFAULT) s
  else
    match decode_loop P a fuel buf (buf.length + 1) 0 s with
    | .ok _ s1 => .ok (buf.length : Int) s1
    | .outOfFuel s1 => .outOfFuel s1
    | .fault j s1 => .fault j s1

/-- Model of `backplane_read` (lines 160-178). `kmalloc` is the result of
`kmalloc(len)`: `none` for NULL, otherwise a buffer of `len` bytes with whatever
content the allocator left in it. The store `data[0] = bp_inst.data` comes before
the NULL test, so it faults on NULL and on a buffer of length 0. The value is the
`ssize_t` result and the bytes copied to the caller, if any. -/
def backplane_read {σ : Type} (kmalloc : Option (List Nat)) (copyOk : Bool)
    (s : State σ) : Res σ (Int × Option (List Nat)) :=
  match kmalloc with
  | none => .fault 0 s
  | some [] => .fault 0 s
  | some (_ :: rest) =>
    if copyOk = false then .ok (-EFAULT, none) s
    else .ok (((s.bp_inst.data :: rest).length : Int), some (s.bp_inst.data :: rest)) s

/-! ## A simulated peer: latch on write, echo on read -/

/-- State of the simulated peer: the levels driven by the host, the latched
bytes by address, the level it is bringing ACK to, the byte it drives on the
data lines, its latency `lat` (the number of reads of ACK that still see the
old level after REQ changed) and the number of such reads still `pending`. -/
structure EchoState where
  level : Nat → Nat
  mem : Nat → Nat
  ack : Nat
  dout : Nat
  lat : Nat
  pending : Nat

/-- The byte on eight lines with levels read through `lv`, first line is bit 7. -/
def bus_byte (lv : Nat → Nat) (l7 l6 l5 l4 l3 l2 l1 l0 : Nat) : Nat :=
  lv l7 * 128 + lv l6 * 64 + lv l5 * 32 + lv l4 * 16 + lv l3 * 8 + lv l2 * 4 + lv l1 * 2 + lv l0

/-- The address on the address lines. -/
def bus_addr (lv : Nat → Nat) : Nat :=
  bus_byte lv ADDR7 ADDR6 ADDR5 ADDR4 ADDR3 ADDR2 ADDR1 ADDR0

/-- The byte on the data lines. -/
def bus_data (lv : Nat → Nat) : Nat :=
  bus_byte lv DATA7 DATA6 DATA5 DATA4 DATA3 DATA2 DATA1 DATA0

/-- A level function after one line is driven. -/
def set_level (lv : Nat → Nat) (line v : Nat) : Nat → Nat :=
  fun l => if l = line then v else lv l

/-- Bit of the echoed byte that the peer puts on a data line. -/
def echo_bit (d line : Nat) : Nat :=
  if line = DATA7 then (d >>> 7) &&& 1
  else if line = DATA6 then (d >>> 6) &&& 1
  else if line = DATA5 then (d >>> 5) &&& 1
  else if line = DATA4 then (d >>> 4) &&& 1
  else if line = DATA3 then (d >>> 3) &&& 1
  else if line = DATA2 then (d >>> 2) &&& 1
  else if line = DATA1 then (d >>> 1) &&& 1
  else d &&& 1

/-- The latch-and-echo peer. When REQ rises with WNR high it latches the data
lines at the addressed slot; when REQ rises with WNR low it drives the data
lines with the latched byte; in both cases it raises ACK. When REQ falls it
lowers ACK. A change of ACK is seen by the host after `lat` further reads. -/
def echoPeer : Peer EchoState where
  onOut st line v :=
    if line = REQ then
      if v ≠ 0 then
        if st.level WNR ≠ 0 then
          { st with level := set_level st.level line v,
                    mem := set_level st.mem (bus_addr st.level) (bus_data st.level),
                    ack := 1, pending := st.lat }
        else
          { st with level := set_level st.level line v,
                    dout := st.mem (bus_addr st.level), ack := 1, pending := st.lat }
      else { st with level := set_level st.level line v, ack := 0, pending := st.lat }
    else { st with level := set_level st.level line v }
  onIn st _ := st
  onGet st line :=
    if line = ACK then
      if st.pending = 0 then (st.ack, st)
      else (1 - st.ack, { st with pending := st.pending - 1 })
    else (echo_bit st.dout line, st)
  onDelay st := st

/-- An idle latch-and-echo peer with latency `lat` and latched bytes `mem`. -/
def echoInit (lat : Nat) (mem : Nat → Nat) : EchoState :=
  { level := fun _ => 0, mem := mem, ack := 0, dout := 0, lat := lat, pending := 0 }

/-- Initial state of a run against the latch-and-echo peer: `held` is the byte
in `bp_inst.data` before the run. -/
def echoStart (lat : Nat) (held : Nat) (mem : Nat → Nat) : State EchoState :=
  { bp_inst := { opcode := 0, addr := 0, data := held }, peer := echoInit lat mem, log := [] }

/-! ## Vocabulary for statements about the log -/

/-- Bit `k` of `x`. -/
def bit_of (x k : Nat) : Nat := (x / 2 ^ k) % 2

/-- The drive of the address bus to the bits of `x`, ADDR7 first. -/
def addr_ops (x : Nat) : List Op :=
  [Op.dirOut ADDR7 (bit_of x 7), Op.dirOut ADDR6 (bit_of x 6), Op.dirOut ADDR5 (bit_of x 5),
   Op.dirOut ADDR4 (bit_of x 4), Op.dirOut ADDR3 (bit_of x 3), Op.dirOut ADDR2 (bit_of x 2),
   Op.dirOut ADDR1 (bit_of x 1), Op.dirOut ADDR0 (bit_of x 0)]

/-- The data lines configured as outputs driven to the bits of `x`, DATA7 first. -/
def data_out_ops (x : Nat) : List Op :=
  [Op.dirOut DATA7 (bit_of x 7), Op.dirOut DATA6 (bit_of x 6), Op.dirOut DATA5 (bit_of x 5),
   Op.dirOut DATA4 (bit_of x 4), Op.dirOut DATA3 (bit_of x 3), Op.dirOut DATA2 (bit_of x 2),
   Op.dirOut DATA1 (bit_of x 1), Op.dirOut DATA0 (bit_of x 0)]

/-- The data lines configured as inputs, DATA7 first. -/
def data_in_ops : List Op :=
  [Op.dirIn DATA7, Op.dirIn DATA6, Op.dirIn DATA5, Op.dirIn DATA4,
   Op.dirIn DATA3, Op.dirIn DATA2, Op.dirIn DATA1, Op.dirIn DATA0]

/-- The data lines sampled, DATA7 first, with the levels that were read. -/
def data_get_ops (d7 d6 d5 d4 d3 d2 d1 d0 : Nat) : List Op :=
  [Op.get DATA7 d7, Op.get DATA6 d6, Op.get DATA5 d5, Op.get DATA4 d4,
   Op.get DATA3 d3, Op.get DATA2 d2, Op.get DATA1 d1, Op.get DATA0 d0]

/-- Whether an operation is a read of ACK. -/
def is_ack_read : Op → Bool
  | .get l _ => decide (l = ACK)
  | _ => false

/-- Whether a piece of log consists of reads of ACK only. -/
def ack_reads (p : List Op) : Bool := p.all is_ack_read

/-- Whether an operation is a read that returned a non-zero level. -/
def reads_high : Op → Bool
  | .get _ v => decide (v ≠ 0)
  | _ => false

/-- Whether an operation is a read that returned level 0. -/
def reads_low : Op → Bool
  | .get _ v => decide (v = 0)
  | _ => false

/-- A completed poll for ACK high: reads of ACK only, and the last one, on which
the host goes on, returned a non-zero level. -/
def polls_high (p : List Op) : Bool :=
  ack_reads p && (p.getLast?.map reads_high).getD false

/-- A completed poll for ACK low: reads of ACK only, and the last one, on which
the host goes on, returned level 0. -/
def polls_low (p : List Op) : Bool :=
  ack_reads p && (p.getLast?.map reads_low).getD false

/-- Forgets the value of an outcome. -/
def Res.void {σ α : Type} : Res σ α → Res σ Unit
  | .ok _ s => .ok () s
  | .outOfFuel s => .outOfFuel s
  | .fault i s => .fault i s

/-- The decode loop written over the bytes that remain instead of over a cursor:
two bytes are an opcode and an address; a write takes a third byte if there is
one. It runs the same blocks of the driver as `loop_body` does. -/
def exec_stream {σ : Type} (P : Peer σ) (fuel : Nat) : List Nat → State σ → Res σ Unit
  | [], s => .ok () s
  | [_], s => .ok () s
  | [o, ad], s =>
    if o &&& 1 ≠ 0 then .ok () (drive_addr P ad (drive_opcode P o s))
    else read_cycle P fuel (drive_addr P ad (drive_opcode P o s))
  | o :: ad :: d :: rest, s =>
    if o &&& 1 ≠ 0 then
      match write_cycle P fuel d (drive_addr P ad (drive_opcode P o s)) with
      | .ok _ s1 => exec_stream P fuel rest s1
      | .outOfFuel s1 => .outOfFuel s1
      | .fault i s1 => .fault i s1
    else
      match read_cycle P fuel (drive_addr P ad (drive_opcode P o s)) with
      | .ok _ s1 => exec_stream P fuel (d :: rest) s1
      | .outOfFuel s1 => .outOfFuel s1
      | .fault i s1 => .fault i s1

/-- Whether a stream consists of complete instructions only: an even opcode and
an address, or an odd opcode, an address and a data byte. -/
def whole : List Nat → Bool
  | [] => true
  | [_] => false
  | [o, _] => decide (o % 2 = 0)
  | o :: _ :: d :: rest => if o % 2 = 0 then whole (d :: rest) else whole rest

/-- What a busy-wait started in `s` may end in: the log has grown by reads of
ACK only, the held record is as it was, the outcome is no fault, and if the wait
completed the reads form a completed poll for the level waited for. -/
def WaitSpec {σ : Type} (high : Bool) (s : State σ) (r : Res σ Unit) : Prop :=
  ∃ p, ack_reads p = true ∧ r.state.log = s.log ++ p ∧ r.state.bp_inst = s.bp_inst ∧
    (r.isOk = true → (if high then polls_high p else polls_low p) = true) ∧
    (∀ i s1, r ≠ .fault i s1)

/-- Replaces the value of an outcome. -/
def Res.setVal {σ α β : Type} (r : Res σ α) (v : β) : Res σ β :=
  match r with
  | .ok _ s => .ok v s
  | .outOfFuel s => .outOfFuel s
  | .fault i s => .fault i s

/-- The value of an outcome, if it is a normal completion. -/
def Res.val? {σ α : Type} : Res σ α → Option α
  | .ok v _ => some v
  | _ => none

/-- Sequencing of two pieces of driver code. -/
def Res.andThen {σ : Type} (r : Res σ Unit) (f : State σ → Res σ Unit) : Res σ Unit :=
  match r with
  | .ok _ s => f s
  | .outOfFuel s => .outOfFuel s
  | .fault i s => .fault i s

/-! ## Handshake phase ordering, as a monitor over the log -/

/-- The eight data lines. -/
def data_lines : List Nat := [DATA7, DATA6, DATA5, DATA4, DATA3, DATA2, DATA1, DATA0]

/-- What the monitor remembers of the log read so far. -/
structure Mon where
  /-- REQ is asserted. -/
  req : Bool
  /-- ACK has been read non-zero since REQ was asserted. -/
  acked : Bool
  /-- The level last driven on WNR: non-zero in a Write cycle, 0 in a Read cycle. -/
  wnr : Nat
  /-- The data lines driven as outputs since REQ was last deasserted and not made
  inputs since. -/
  driven : List Nat
  /-- The data lines sampled since REQ was asserted. -/
  sampled : List Nat
  deriving DecidableEq, Repr

/-- The monitor before the first operation: REQ is low (`backplane_init` drives
it to 0) and nothing has been driven or sampled. -/
def mon_init : Mon := { req := false, acked := false, wnr := 0, driven := [], sampled := [] }

/-- One step of the monitor; `none` is a violation of the phase ordering.
A data line may be sampled only while REQ is asserted and after ACK was read
non-zero. REQ may be deasserted only after all eight data lines were sampled
(Read cycle, WNR low) or after all eight were driven (Write cycle, WNR high). -/
def mon_step (m : Mon) : Op → Option Mon
  | .dirOut l v =>
    if l = REQ then
      if v ≠ 0 then some { m with req := true, acked := false, sampled := [] }
      else if m.req = false then some m
      else if (m.wnr = 0 ∧ data_lines.all (fun x => decide (x ∈ m.sampled)) = true) ∨
          (m.wnr ≠ 0 ∧ data_lines.all (fun x => decide (x ∈ m.driven)) = true) then
        some { m with req := false, acked := false, driven := [], sampled := [] }
      else none
    else if l = WNR then some { m with wnr := v }
    else if l ∈ data_lines then some { m with driven := l :: m.driven }
    else some m
  | .dirIn l => some { m with driven := m.driven.filter (fun x => decide (x ≠ l)) }
  | .get l v =>
    if l = ACK then some (if m.req = true ∧ v ≠ 0 then { m with acked := true } else m)
    else if l ∈ data_lines then
      if m.req = true ∧ m.acked = true then some { m with sampled := l :: m.sampled } else none
    else some m

/-- The monitor run over a piece of log. -/
def mon_run : Mon → List Op → Option Mon
  | m, [] => some m
  | m, op :: ops =>
    match mon_step m op with
    | some m1 => mon_run m1 ops
    | none => none

/-- The monitor between two cycles: REQ low, nothing driven or sampled. -/
def mon_idle (m : Mon) : Bool :=
  m.req == false && m.acked == false && m.driven == [] && m.sampled == []

/-- A piece of log is accepted by the monitor from every idle state, and if
`ok` holds it leaves the monitor idle. -/
def Accepts (ops : List Op) (ok : Bool) : Prop :=
  ∀ m, mon_idle m = true → ∃ m1, mon_run m ops = some m1 ∧ (ok = true → mon_idle m1 = true)

/-! ## The transactions on the bus and the reference decode -/

/-- A bus transaction. -/
inductive Txn
  | read (addr : Nat)
  | write (addr : Nat) (data : Nat)
  deriving DecidableEq, Repr

/-- The reference decode of a stream: fewer than 2 bytes remaining, stop; an
opcode with bit 0 clear and an address, a Read, continue after 2 bytes; an
opcode with bit 0 set, an address and a data byte, a Write, continue after 3
bytes; an opcode with bit 0 set, an address and nothing after, no transaction. -/
def ref_decode : List Nat → List Txn
  | [] => []
  | [_] => []
  | [o, ad] => if o % 2 = 0 then [Txn.read ad] else []
  | o :: ad :: d :: rest =>
    if o % 2 = 0 then Txn.read ad :: ref_decode (d :: rest)
    else Txn.write ad d :: ref_decode rest

/-- The transactions a log shows on the bus, read off the lines as the peer sees
them: each time REQ is driven to a non-zero level there is a transaction, a
Write if the level last driven on WNR is non-zero and a Read otherwise, with the
address and the data that the levels last driven on the address and data lines
spell. `lv` gives the levels before the log. -/
def bus_txns : (Nat → Nat) → List Op → List Txn
  | _, [] => []
  | lv, Op.dirOut l v :: ops =>
    if l = REQ ∧ v ≠ 0 then
      (if lv WNR ≠ 0 then Txn.write (bus_addr lv) (bus_data lv) else Txn.read (bus_addr lv))
        :: bus_txns (set_level lv l v) ops
    else bus_txns (set_level lv l v) ops
  | lv, Op.dirIn _ :: ops => bus_txns lv ops
  | lv, Op.get _ _ :: ops => bus_txns lv ops

/-- The levels last driven on the lines after a piece of log. -/
def levels_after : (Nat → Nat) → List Op → (Nat → Nat)
  | lv, [] => lv
  | lv, Op.dirOut l v :: ops => levels_after (set_level lv l v) ops
  | lv, Op.dirIn _ :: ops => levels_after lv ops
  | lv, Op.get _ _ :: ops => levels_after lv ops

/-- The stream with bits 1..7 of every opcode byte cleared; the opcode bytes
are found as the reference decode finds them. -/
def mask_opcodes : List Nat → List Nat
  | [] => []
  | [x] => [x]
  | [o, ad] => [o % 2, ad]
  | o :: ad :: d :: rest =>
    if o % 2 = 0 then (o % 2) :: ad :: mask_opcodes (d :: rest)
    else (o % 2) :: ad :: d :: mask_opcodes rest

/-! ## The session lock (backplane.c lines 25, 29, 139-158) -/

/-- The macro `SUCCESS`. -/
def SUCCESS : Int := 0

/-- Linux errno value of EBUSY. -/
def EBUSY : Int := 16

/-- Model of `mutex_trylock` on a mutex that is held or not: it returns 1 and
takes the mutex if it was free, and returns 0 and changes nothing if it was held. -/
def mutex_trylock (held : Bool) : Nat × Bool :=
  if held = true then (0, true) else (1, true)

/-- Model of `mutex_unlock`: the mutex is free afterwards. -/
def mutex_unlock (_held : Bool) : Bool := false

/-- Model of `backplane_open` (lines 139-150) on the state of `backplaneMutex`:
the value returned and the state of the mutex afterwards. -/
def backplane_open (held : Bool) : Int × Bool :=
  if (mutex_trylock held).1 = 0 then (-EBUSY, (mutex_trylock held).2)
  else (SUCCESS, (mutex_trylock held).2)

/-- Model of `backplane_release` (lines 152-158). -/
def backplane_release (held : Bool) : Int × Bool :=
  (SUCCESS, mutex_unlock held)

/-- A call at the session boundary. -/
inductive Call
  | acquire
  | release
  deriving DecidableEq, Repr

/-- The mutex together with the number of Sessions that are active: opens that
succeeded and have not been released. -/
structure Sessions where
  mutex : Bool
  active : Nat
  deriving DecidableEq, Repr

/-- The state after module initialisation: the mutex free, no Session. -/
def sessions_init : Sessions := { mutex := false, active := 0 }

/-- The effect of one call: an open that returns `SUCCESS` starts a Session, a
release ends one. -/
def call_step (st : Sessions) : Call → Sessions
  | .acquire =>
    { mutex := (backplane_open st.mutex).2,
      active := if (backplane_open st.mutex).1 = SUCCESS then st.active + 1 else st.active }
  | .release =>
    { mutex := (backplane_release st.mutex).2, active := st.active - 1 }

/-- The state after a sequence of calls. -/
def run_calls : Sessions → List Call → Sessions
  | st, [] => st
  | st, c :: cs => run_calls (call_step st c) cs

/-- Whether in a sequence of calls every release is made by a holder, that is
while a Session is active. -/
def calls_ok : Sessions → List Call → Bool
  | _, [] => true
  | st, .acquire :: cs => calls_ok (call_step st .acquire) cs
  | st, .release :: cs => decide (1 ≤ st.active) && calls_ok (call_step st .release) cs

/-- The shift-and-add of lines 275-290 computed in unbounded arithmetic, without
the truncation to `unsigned char`. -/
def sample_wide (d7 d6 d5 d4 d3 d2 d1 d0 : Nat) : Nat :=
  (((((((0 + d7) * 2 + d6) * 2 + d5) * 2 + d4) * 2 + d3) * 2 + d2) * 2 + d1) * 2 + d0

/-- Whether a piece of log contains no sample of a data line. -/
def no_data_sample (ops : List Op) : Bool :=
  ops.all (fun op => match op with
    | .get l _ => decide (l ∉ data_lines)
    | _ => true)

/-! ## The shape of every log -/

/-- The operations that one iteration of the decode loop can append to the log.
The flag tells whether the iteration completed; the other shapes are an
iteration that is still waiting for ACK, or that stopped on a fault. -/
inductive IterOps : Bool → List Op → Prop
  | write (ad d : Nat) (p1 p2 : List Op) (h1 : polls_high p1 = true)
      (h2 : polls_low p2 = true) :
      IterOps true (Op.dirOut WNR 1 :: (addr_ops ad ++ (data_out_ops d ++
        Op.dirOut REQ 1 :: (p1 ++ Op.dirOut REQ 0 :: p2))))
  | read (ad : Nat) (p1 : List Op) (d7 d6 d5 d4 d3 d2 d1 d0 : Nat) (p2 : List Op)
      (h1 : polls_high p1 = true) (h2 : polls_low p2 = true) :
      IterOps true (Op.dirOut WNR 0 :: (addr_ops ad ++ (data_in_ops ++
        Op.dirOut REQ 1 :: (p1 ++ (data_get_ops d7 d6 d5 d4 d3 d2 d1 d0 ++
          Op.dirOut REQ 0 :: p2)))))
  | skip (b ad : Nat) : IterOps true (Op.dirOut WNR b :: addr_ops ad)
  | write_wait_high (ad d : Nat) (p1 : List Op) (h1 : ack_reads p1 = true) :
      IterOps false (Op.dirOut WNR 1 :: (addr_ops ad ++ (data_out_ops d ++
        Op.dirOut REQ 1 :: p1)))
  | write_wait_low (ad d : Nat) (p1 p2 : List Op) (h1 : polls_high p1 = true)
      (h2 : ack_reads p2 = true) :
      IterOps false (Op.dirOut WNR 1 :: (addr_ops ad ++ (data_out_ops d ++
        Op.dirOut REQ 1 :: (p1 ++ Op.dirOut REQ 0 :: p2))))
  | read_wait_high (ad : Nat) (p1 : List Op) (h1 : ack_reads p1 = true) :
      IterOps false (Op.dirOut WNR 0 :: (addr_ops ad ++ (data_in_ops ++
        Op.dirOut REQ 1 :: p1)))
  | read_wait_low (ad : Nat) (p1 : List Op) (d7 d6 d5 d4 d3 d2 d1 d0 : Nat) (p2 : List Op)
      (h1 : polls_high p1 = true) (h2 : ack_reads p2 = true) :
      IterOps false (Op.dirOut WNR 0 :: (addr_ops ad ++ (data_in_ops ++
        Op.dirOut REQ 1 :: (p1 ++ (data_get_ops d7 d6 d5 d4 d3 d2 d1 d0 ++
          Op.dirOut REQ 0 :: p2)))))
  | fault_opcode : IterOps false []
  | fault_addr (b : Nat) : IterOps false [Op.dirOut WNR b]
  | fault_data (b ad : Nat) : IterOps false (Op.dirOut WNR b :: addr_ops ad)

/-- The operations that the decode loop can append to the log: completed
iterations, followed, when the flag is false, by one that did not complete or
by the exhaustion of the iteration budget. -/
inductive Trace : Bool → List Op → Prop
  | done : Trace true []
  | stop : Trace false []
  | iter (ops rest : List Op) (ok : Bool) (h : IterOps true ops) (t : Trace ok rest) :
      Trace ok (ops ++ rest)
  | last (ops : List Op) (h : IterOps false ops) : Trace false ops

/-- A monitor with states `μ` run over a piece of log; `none` is a violation. -/
def run_mon {μ : Type} (step : μ → Op → Option μ) : μ → List Op → Option μ
  | m, [] => some m
  | m, op :: ops =>
    match step m op with
    | some m1 => run_mon step m1 ops
    | none => none

/-- The line operations of `backplane_init` (lines 80-86): REQ is made an output
at level 0 and ACK an input; `gpio_request` configures no direction. -/
def backplane_init {σ : Type} (P : Peer σ) (s : State σ) : State σ :=
  gpio_direction_input P ACK (gpio_direction_output P REQ 0 s)

/-! ## Bus stability during a handshake, as a monitor over the log -/

/-- What the stability monitor remembers: the level last driven on REQ, and
whether a handshake is in progress, that is whether REQ was set to 1 and ACK has
not yet been read 0 after REQ was set back to 0. -/
structure Stab where
  req : Nat
  busy : Bool
  deriving DecidableEq, Repr

/-- The stability monitor before the first operation: REQ low, no handshake. -/
def stab_init : Stab := { req := 0, busy := false }

/-- One step of the stability monitor; `none` is a violation. While a handshake
is in progress no line other than REQ may be driven or given a direction, and
REQ may not be asserted a second time. The handshake is over when ACK is read 0
while REQ is low. -/
def stab_step (m : Stab) : Op → Option Stab
  | .dirOut l v =>
    if l = REQ then
      if v ≠ 0 then (if m.busy = true then none else some { req := v, busy := true })
      else some { m with req := 0 }
    else if m.busy = true then none else some m
  | .dirIn _ => if m.busy = true then none else some m
  | .get l v =>
    if l = ACK ∧ v = 0 ∧ m.req = 0 then some { m with busy := false } else some m

/-! ## Direction discipline, as a monitor over the log -/

/-- The eight address lines. -/
def addr_lines : List Nat := [ADDR7, ADDR6, ADDR5, ADDR4, ADDR3, ADDR2, ADDR1, ADDR0]

/-- The direction a line was last given in a list of configurations, the most
recent first: `true` for output, `false` for input, `none` if never configured. -/
def line_dir : List (Nat × Bool) → Nat → Option Bool
  | [], _ => none
  | (l, d) :: rest, x => if x = l then some d else line_dir rest x

/-- Whether all eight data lines were last given the direction `d`. -/
def data_dir_is (conf : List (Nat × Bool)) (d : Bool) : Bool :=
  data_lines.all (fun x => line_dir conf x == some d)

/-- What the direction monitor remembers: the level last driven on REQ and on
WNR, whether a cycle is in progress (REQ was set to 1 and ACK has not yet been
read 0 after REQ was set back to 0), whether that cycle is a Write cycle (WNR
was high when REQ was asserted), and the configurations of the data lines. -/
structure DirMon where
  req : Nat
  busy : Bool
  kind : Bool
  wnr : Nat
  conf : List (Nat × Bool)
  deriving DecidableEq, Repr

/-- The direction monitor before the first operation. -/
def dir_init : DirMon := { req := 0, busy := false, kind := false, wnr := 0, conf := [] }

/-- One step of the direction monitor; `none` is a violation. ACK is never made
an output; REQ, WNR and the address lines are never made inputs. REQ may be
asserted only when all data lines are outputs (WNR high, a Write cycle) or all
are inputs (WNR low, a Read cycle); during a Write cycle no data line is made an
input and during a Read cycle no data line is made an output. -/
def dir_step (m : DirMon) : Op → Option DirMon
  | .dirOut l v =>
    if l = ACK then none
    else if l = REQ then
      if v ≠ 0 then
        if (m.wnr ≠ 0 ∧ data_dir_is m.conf true = true) ∨
            (m.wnr = 0 ∧ data_dir_is m.conf false = true) then
          some { m with req := v, busy := true, kind := decide (m.wnr ≠ 0) }
        else none
      else some { m with req := 0 }
    else if l = WNR then some { m with wnr := v }
    else if l ∈ data_lines then
      if m.busy = true ∧ m.kind = false then none
      else some { m with conf := (l, true) :: m.conf }
    else some m
  | .dirIn l =>
    if l = REQ ∨ l = WNR ∨ l ∈ addr_lines then none
    else if l ∈ data_lines then
      if m.busy = true ∧ m.kind = true then none
      else some { m with conf := (l, false) :: m.conf }
    else some m
  | .get l v =>
    if l = ACK ∧ v = 0 ∧ m.req = 0 then some { m with busy := false } else some m

end Backplane

/-! ## Theorems -/

namespace Backplane

variable {σ : Type}

/-! ### The unsigned comparisons -/

theorem loop_guard_eq (a : Arch) (i len : Nat) (hlen : len ≤ INT_MAX) (h1 : 1 ≤ len)
    (hi : i ≤ INT_MAX) : loop_guard a i len = decide (i + 1 < len) := by
  cases a <;>
    simp only [loop_guard, len_minus_1, to_size_t, SIZE_MOD, INT_MAX] at * <;>
    congr 1 <;> apply propext <;> omega

theorem has_data_byte_eq (a : Arch) (i len : Nat) (hlen : len ≤ INT_MAX)
    (hi : i ≤ INT_MAX) : has_data_byte a i len = decide (i < len) := by
  cases a <;>
    simp only [has_data_byte, to_size_t, SIZE_MOD, INT_MAX] at * <;>
    congr 1 <;> apply propext <;> omega

theorem loop_guard_zero_len (a : Arch) : loop_guard a 0 0 = true := by
  cases a <;> decide

/-! ### Bits -/

theorem bit_of_mod_256 (x k : Nat) (hk : k < 8) : bit_of (x % 256) k = bit_of x k := by
  have h : k = 0 ∨ k = 1 ∨ k = 2 ∨ k = 3 ∨ k = 4 ∨ k = 5 ∨ k = 6 ∨ k = 7 := by omega
  rcases h with h | h | h | h | h | h | h | h <;> subst h <;> simp [bit_of] <;> omega

theorem byte_bit (x k : Nat) (hk : k < 8) : ((x % 256) >>> k) &&& 1 = bit_of x k := by
  rw [← bit_of_mod_256 x k hk]
  simp [bit_of, Nat.shiftRight_eq_div_pow, Nat.and_one_is_mod]

theorem byte_bit0 (x : Nat) : (x % 256) &&& 1 = bit_of x 0 := by
  rw [← bit_of_mod_256 x 0 (by decide)]
  simp [bit_of, Nat.and_one_is_mod]

theorem and_one_eq (x : Nat) : x &&& 1 = bit_of x 0 := by
  simp [bit_of, Nat.and_one_is_mod]

/-! ### Basic facts -/

theorem state_ok {α : Type} (v : α) (s : State σ) : (Res.ok v s : Res σ α).state = s := rfl

theorem state_outOfFuel {α : Type} (s : State σ) : (Res.outOfFuel s : Res σ α).state = s := rfl

theorem state_fault {α : Type} (i : Nat) (s : State σ) :
    (Res.fault i s : Res σ α).state = s := rfl

theorem out_log (P : Peer σ) (l v : Nat) (s : State σ) :
    (gpio_direction_output P l v s).log = s.log ++ [Op.dirOut l v] := rfl

theorem out_inst (P : Peer σ) (l v : Nat) (s : State σ) :
    (gpio_direction_output P l v s).bp_inst = s.bp_inst := rfl

/-! ### The busy-wait loops -/

theorem ack_reads_append (p q : List Op) :
    ack_reads (p ++ q) = (ack_reads p && ack_reads q) := by
  simp [ack_reads]

theorem polls_high_append (p q : List Op) (hp : ack_reads p = true)
    (hq : polls_high q = true) : polls_high (p ++ q) = true := by
  simp only [polls_high, Bool.and_eq_true] at hq ⊢
  refine ⟨by simp [ack_reads_append, hp, hq.1], ?_⟩
  cases h : q.getLast? with
  | none => simp [h] at hq
  | some x => simpa [List.getLast?_append, h] using hq.2

theorem polls_low_append (p q : List Op) (hp : ack_reads p = true)
    (hq : polls_low q = true) : polls_low (p ++ q) = true := by
  simp only [polls_low, Bool.and_eq_true] at hq ⊢
  refine ⟨by simp [ack_reads_append, hp, hq.1], ?_⟩
  cases h : q.getLast? with
  | none => simp [h] at hq
  | some x => simpa [List.getLast?_append, h] using hq.2

theorem WaitSpec.after_reads {high : Bool} {s s1 : State σ} {r : Res σ Unit} (q : List Op)
    (hq : ack_reads q = true) (hlog : s1.log = s.log ++ q) (hinst : s1.bp_inst = s.bp_inst)
    (h : WaitSpec high s1 r) : WaitSpec high s r := by
  obtain ⟨p, hp, hl, hi, hok, hf⟩ := h
  refine ⟨q ++ p, by simp [ack_reads_append, hq, hp], by simp [hl, hlog], by simp [hi, hinst],
    ?_, hf⟩
  intro h
  have := hok h
  cases high
  · simpa using polls_low_append q p hq (by simpa using this)
  · simpa using polls_high_append q p hq (by simpa using this)

theorem wait_high_inner_spec (P : Peer σ) (n : Nat) (s : State σ) :
    WaitSpec true s (wait_high_inner P n s) := by
  induction n generalizing s with
  | zero => exact ⟨[], by simp [ack_reads], by simp [wait_high_inner, Res.state],
      by simp [wait_high_inner, Res.state], by simp [wait_high_inner, Res.isOk],
      by simp [wait_high_inner]⟩
  | succ n ih =>
    by_cases h : (gpio_get_value P ACK s).1 = 0
    · have e : wait_high_inner P (n + 1) s
          = wait_high_inner P n (ndelay P (gpio_get_value P ACK s).2) := by
        simp [wait_high_inner, h]
      rw [e]
      exact WaitSpec.after_reads [Op.get ACK (P.onGet s.peer ACK).1]
        (by simp [ack_reads, is_ack_read]) (by simp [ndelay, gpio_get_value])
        (by simp [ndelay, gpio_get_value]) (ih _)
    · have e : wait_high_inner P (n + 1) s = .ok () (gpio_get_value P ACK s).2 := by
        simp [wait_high_inner, h]
      rw [e]
      refine ⟨[Op.get ACK (P.onGet s.peer ACK).1], by simp [ack_reads, is_ack_read],
        by simp [Res.state, gpio_get_value], by simp [Res.state, gpio_get_value], ?_, by simp⟩
      intro _
      have h1 : (P.onGet s.peer ACK).1 ≠ 0 := by simpa [gpio_get_value] using h
      simp [polls_high, ack_reads, is_ack_read, reads_high, h1]

theorem wait_high_spec (P : Peer σ) (n : Nat) (s : State σ) :
    WaitSpec true s (wait_high P n s) := by
  induction n generalizing s with
  | zero => exact ⟨[], by simp [ack_reads], by simp [wait_high, Res.state],
      by simp [wait_high, Res.state], by simp [wait_high, Res.isOk], by simp [wait_high]⟩
  | succ n ih =>
    by_cases h : (gpio_get_value P ACK s).1 = 0
    · have hin := wait_high_inner_spec P n (gpio_get_value P ACK s).2
      have hq : ack_reads [Op.get ACK (P.onGet s.peer ACK).1] = true := by
        simp [ack_reads, is_ack_read]
      cases e : wait_high_inner P n (gpio_get_value P ACK s).2 with
      | ok u s1 =>
        have e2 : wait_high P (n + 1) s = wait_high P n s1 := by simp [wait_high, h, e]
        rw [e2]
        rw [e] at hin
        obtain ⟨p, hp, hl, hi, -, -⟩ := hin
        refine WaitSpec.after_reads (Op.get ACK (P.onGet s.peer ACK).1 :: p)
          (by simpa [ack_reads, is_ack_read] using hp) ?_ ?_ (ih s1)
        · simpa [Res.state, gpio_get_value] using hl
        · simpa [Res.state, gpio_get_value] using hi
      | outOfFuel s1 =>
        have e2 : wait_high P (n + 1) s = .outOfFuel s1 := by simp [wait_high, h, e]
        rw [e2]
        rw [e] at hin
        exact @WaitSpec.after_reads σ true s (gpio_get_value P ACK s).2 _ _ hq
          (by simp [gpio_get_value]) (by simp [gpio_get_value]) hin
      | fault i s1 =>
        rw [e] at hin
        obtain ⟨p, -, -, -, -, hf⟩ := hin
        exact absurd rfl (hf i s1)
    · have e : wait_high P (n + 1) s = .ok () (gpio_get_value P ACK s).2 := by
        simp [wait_high, h]
      rw [e]
      refine ⟨[Op.get ACK (P.onGet s.peer ACK).1], by simp [ack_reads, is_ack_read],
        by simp [Res.state, gpio_get_value], by simp [Res.state, gpio_get_value], ?_, by simp⟩
      intro _
      have h1 : (P.onGet s.peer ACK).1 ≠ 0 := by simpa [gpio_get_value] using h
      simp [polls_high, ack_reads, is_ack_read, reads_high, h1]

theorem wait_low_inner_spec (P : Peer σ) (n : Nat) (s : State σ) :
    WaitSpec false s (wait_low_inner P n s) := by
  induction n generalizing s with
  | zero => exact ⟨[], by simp [ack_reads], by simp [wait_low_inner, Res.state],
      by simp [wait_low_inner, Res.state], by simp [wait_low_inner, Res.isOk],
      by simp [wait_low_inner]⟩
  | succ n ih =>
    by_cases h : (gpio_get_value P ACK s).1 ≠ 0
    · have e : wait_low_inner P (n + 1) s
          = wait_low_inner P n (ndelay P (gpio_get_value P ACK s).2) := by
        simp [wait_low_inner, h]
      rw [e]
      exact WaitSpec.after_reads [Op.get ACK (P.onGet s.peer ACK).1]
        (by simp [ack_reads, is_ack_read]) (by simp [ndelay, gpio_get_value])
        (by simp [ndelay, gpio_get_value]) (ih _)
    · have e : wait_low_inner P (n + 1) s = .ok () (gpio_get_value P ACK s).2 := by
        simp [wait_low_inner, h]
      rw [e]
      refine ⟨[Op.get ACK (P.onGet s.peer ACK).1], by simp [ack_reads, is_ack_read],
        by simp [Res.state, gpio_get_value], by simp [Res.state, gpio_get_value], ?_, by simp⟩
      intro _
      have h1 : (P.onGet s.peer ACK).1 = 0 := by simpa [gpio_get_value] using h
      simp [polls_low, ack_reads, is_ack_read, reads_low, h1]

theorem wait_low_spec (P : Peer σ) (n : Nat) (s : State σ) :
    WaitSpec false s (wait_low P n s) := by
  induction n generalizing s with
  | zero => exact ⟨[], by simp [ack_reads], by simp [wait_low, Res.state],
      by simp [wait_low, Res.state], by simp [wait_low, Res.isOk], by simp [wait_low]⟩
  | succ n ih =>
    by_cases h : (gpio_get_value P ACK s).1 ≠ 0
    · have hin := wait_low_inner_spec P n (gpio_get_value P ACK s).2
      have hq : ack_reads [Op.get ACK (P.onGet s.peer ACK).1] = true := by
        simp [ack_reads, is_ack_read]
      cases e : wait_low_inner P n (gpio_get_value P ACK s).2 with
      | ok u s1 =>
        have e2 : wait_low P (n + 1) s = wait_low P n s1 := by simp [wait_low, h, e]
        rw [e2]
        rw [e] at hin
        obtain ⟨p, hp, hl, hi, -, -⟩ := hin
        refine WaitSpec.after_reads (Op.get ACK (P.onGet s.peer ACK).1 :: p)
          (by simpa [ack_reads, is_ack_read] using hp) ?_ ?_ (ih s1)
        · simpa [Res.state, gpio_get_value] using hl
        · simpa [Res.state, gpio_get_value] using hi
      | outOfFuel s1 =>
        have e2 : wait_low P (n + 1) s = .outOfFuel s1 := by simp [wait_low, h, e]
        rw [e2]
        rw [e] at hin
        exact @WaitSpec.after_reads σ false s (gpio_get_value P ACK s).2 _ _ hq
          (by simp [gpio_get_value]) (by simp [gpio_get_value]) hin
      | fault i s1 =>
        rw [e] at hin
        obtain ⟨p, -, -, -, -, hf⟩ := hin
        exact absurd rfl (hf i s1)
    · have e : wait_low P (n + 1) s = .ok () (gpio_get_value P ACK s).2 := by
        simp [wait_low, h]
      rw [e]
      refine ⟨[Op.get ACK (P.onGet s.peer ACK).1], by simp [ack_reads, is_ack_read],
        by simp [Res.state, gpio_get_value], by simp [Res.state, gpio_get_value], ?_, by simp⟩
      intro _
      have h1 : (P.onGet s.peer ACK).1 = 0 := by simpa [gpio_get_value] using h
      simp [polls_low, ack_reads, is_ack_read, reads_low, h1]

/-! ### The straight-line blocks -/

theorem drive_opcode_log (P : Peer σ) (b : Nat) (s : State σ) :
    (drive_opcode P b s).log = s.log ++ [Op.dirOut WNR (bit_of b 0)] := by
  simp only [drive_opcode, gpio_direction_output, and_one_eq]

theorem drive_opcode_inst (P : Peer σ) (b : Nat) (s : State σ) :
    (drive_opcode P b s).bp_inst = { s.bp_inst with opcode := bit_of b 0 } := by
  simp only [drive_opcode, gpio_direction_output, and_one_eq]

theorem drive_addr_log (P : Peer σ) (b : Nat) (s : State σ) :
    (drive_addr P b s).log = s.log ++ addr_ops b := by
  simp only [drive_addr, gpio_direction_output, addr_ops, byte_bit0, byte_bit b 7 (by decide),
    byte_bit b 6 (by decide), byte_bit b 5 (by decide), byte_bit b 4 (by decide),
    byte_bit b 3 (by decide), byte_bit b 2 (by decide), byte_bit b 1 (by decide),
    List.append_assoc, List.singleton_append,
    List.cons_append, List.nil_append]

theorem drive_addr_inst (P : Peer σ) (b : Nat) (s : State σ) :
    (drive_addr P b s).bp_inst = { s.bp_inst with addr := b % 256 } := by
  simp only [drive_addr, gpio_direction_output]

theorem drive_data_log (P : Peer σ) (b : Nat) (s : State σ) :
    (drive_data P b s).log = s.log ++ data_out_ops b := by
  simp only [drive_data, gpio_direction_output, data_out_ops, byte_bit0,
    byte_bit b 7 (by decide), byte_bit b 6 (by decide), byte_bit b 5 (by decide),
    byte_bit b 4 (by decide), byte_bit b 3 (by decide), byte_bit b 2 (by decide),
    byte_bit b 1 (by decide), List.append_assoc, List.singleton_append,
    List.cons_append, List.nil_append]

theorem drive_data_inst (P : Peer σ) (b : Nat) (s : State σ) :
    (drive_data P b s).bp_inst = { s.bp_inst with data := b % 256 } := by
  simp only [drive_data, gpio_direction_output]

theorem release_data_log (P : Peer σ) (s : State σ) :
    (release_data P s).log = s.log ++ data_in_ops := by
  simp only [release_data, gpio_direction_input, data_in_ops, List.append_assoc,
    List.singleton_append, List.cons_append, List.nil_append]

theorem release_data_inst (P : Peer σ) (s : State σ) :
    (release_data P s).bp_inst = s.bp_inst := by
  simp only [release_data, gpio_direction_input]

theorem sample_data_spec (P : Peer σ) (s : State σ) :
    ∃ d7 d6 d5 d4 d3 d2 d1 d0,
      (sample_data P s).log = s.log ++ data_get_ops d7 d6 d5 d4 d3 d2 d1 d0 ∧
      (sample_data P s).bp_inst
        = { s.bp_inst with data := sample_byte d7 d6 d5 d4 d3 d2 d1 d0 } := by
  refine ⟨_, _, _, _, _, _, _, _, ?_, rfl⟩
  simp only [sample_data, gpio_get_value, data_get_ops, List.append_assoc,
    List.singleton_append, List.cons_append, List.nil_append]

/-- Every outcome of the write handshake: it never faults, leaves the held
record alone, and its log is REQ raised and reads of ACK, followed, once a read
returned a non-zero level, by REQ lowered and reads of ACK. -/
theorem write_handshake_spec (P : Peer σ) (fuel : Nat) (s : State σ) :
    (write_handshake P fuel s).state.bp_inst = s.bp_inst ∧
    (∀ i s1, write_handshake P fuel s ≠ .fault i s1) ∧
    ∃ p1, ack_reads p1 = true ∧
      (((write_handshake P fuel s).isOk = false ∧
        (write_handshake P fuel s).state.log = s.log ++ Op.dirOut REQ 1 :: p1) ∨
       (polls_high p1 = true ∧ ∃ p2, ack_reads p2 = true ∧
        (write_handshake P fuel s).state.log
          = s.log ++ Op.dirOut REQ 1 :: (p1 ++ Op.dirOut REQ 0 :: p2) ∧
        ((write_handshake P fuel s).isOk = true → polls_low p2 = true))) := by
  have h1 := wait_high_spec P fuel (gpio_direction_output P REQ 1 s)
  cases e : wait_high P fuel (gpio_direction_output P REQ 1 s) with
  | ok u s1 =>
    rw [e] at h1
    obtain ⟨p1, hp1, hl1, hi1, hok1, -⟩ := h1
    have h2 := wait_low_spec P fuel (gpio_direction_output P REQ 0 s1)
    obtain ⟨p2, hp2, hl2, hi2, hok2, hf2⟩ := h2
    have ew : write_handshake P fuel s = wait_low P fuel (gpio_direction_output P REQ 0 s1) := by
      simp [write_handshake, e]
    rw [ew]
    refine ⟨?_, hf2, p1, hp1, Or.inr ⟨by simpa using hok1 rfl, p2, hp2, ?_, by simpa using hok2⟩⟩
    · simpa only [out_inst, state_ok] using hi2.trans hi1
    · simp only [state_ok, out_log] at hl1
      simp only [hl2, out_log, hl1, List.append_assoc, List.singleton_append, List.cons_append,
        List.nil_append]
  | outOfFuel s1 =>
    rw [e] at h1
    obtain ⟨p1, hp1, hl1, hi1, -, -⟩ := h1
    have ew : write_handshake P fuel s = .outOfFuel s1 := by simp [write_handshake, e]
    rw [ew]
    refine ⟨by simpa only [out_inst, state_outOfFuel] using hi1, by simp, p1, hp1,
      Or.inl ⟨rfl, ?_⟩⟩
    simpa only [out_log, state_outOfFuel, List.append_assoc, List.singleton_append] using hl1
  | fault i s1 =>
    rw [e] at h1
    obtain ⟨p1, -, -, -, -, hf⟩ := h1
    exact absurd rfl (hf i s1)

theorem release_out_log (P : Peer σ) (s : State σ) :
    (gpio_direction_output P REQ 1 (release_data P s)).log
      = s.log ++ (data_in_ops ++ [Op.dirOut REQ 1]) := by
  simp only [out_log, release_data_log, List.append_assoc]

/-- Every outcome of the read branch: it never faults; its log is the data
lines made inputs, REQ raised and reads of ACK, followed, once a read returned a
non-zero level, by the eight samples, REQ lowered and reads of ACK; the held data
byte is rewritten only in the second case. -/
theorem read_cycle_spec (P : Peer σ) (fuel : Nat) (s : State σ) :
    (∀ i s1, read_cycle P fuel s ≠ .fault i s1) ∧
    ∃ p1, ack_reads p1 = true ∧
      (((read_cycle P fuel s).isOk = false ∧
        (read_cycle P fuel s).state.bp_inst = s.bp_inst ∧
        (read_cycle P fuel s).state.log = s.log ++ (data_in_ops ++ Op.dirOut REQ 1 :: p1)) ∨
       (polls_high p1 = true ∧ ∃ d7 d6 d5 d4 d3 d2 d1 d0 p2, ack_reads p2 = true ∧
        (read_cycle P fuel s).state.log
          = s.log ++ (data_in_ops ++ Op.dirOut REQ 1 ::
              (p1 ++ (data_get_ops d7 d6 d5 d4 d3 d2 d1 d0 ++ Op.dirOut REQ 0 :: p2))) ∧
        (read_cycle P fuel s).state.bp_inst
          = { s.bp_inst with data := sample_byte d7 d6 d5 d4 d3 d2 d1 d0 } ∧
        ((read_cycle P fuel s).isOk = true → polls_low p2 = true))) := by
  have h1 := wait_high_spec P fuel (gpio_direction_output P REQ 1 (release_data P s))
  cases e : wait_high P fuel (gpio_direction_output P REQ 1 (release_data P s)) with
  | ok u s1 =>
    rw [e] at h1
    obtain ⟨p1, hp1, hl1, hi1, hok1, -⟩ := h1
    obtain ⟨d7, d6, d5, d4, d3, d2, d1, d0, hsl, hsi⟩ := sample_data_spec P s1
    have h2 := wait_low_spec P fuel (gpio_direction_output P REQ 0 (sample_data P s1))
    obtain ⟨p2, hp2, hl2, hi2, hok2, hf2⟩ := h2
    have ew : read_cycle P fuel s
        = wait_low P fuel (gpio_direction_output P REQ 0 (sample_data P s1)) := by
      simp [read_cycle, e]
    rw [ew]
    simp only [state_ok, release_out_log, out_inst, release_data_inst] at hl1 hi1
    refine ⟨hf2, p1, hp1, Or.inr ⟨by simpa using hok1 rfl, d7, d6, d5, d4, d3, d2, d1, d0, p2,
      hp2, ?_, ?_, by simpa using hok2⟩⟩
    · simp only [hl2, out_log, hsl, hl1, List.append_assoc, List.singleton_append,
        List.cons_append, List.nil_append]
    · simp only [hi2, out_inst, hsi, hi1]
  | outOfFuel s1 =>
    rw [e] at h1
    obtain ⟨p1, hp1, hl1, hi1, -, -⟩ := h1
    have ew : read_cycle P fuel s = .outOfFuel s1 := by simp [read_cycle, e]
    rw [ew]
    simp only [state_outOfFuel, release_out_log, out_inst, release_data_inst] at hl1 hi1
    refine ⟨by simp, p1, hp1, Or.inl ⟨rfl, hi1, ?_⟩⟩
    simp only [state_outOfFuel, hl1, List.append_assoc, List.singleton_append]
  | fault i s1 =>
    rw [e] at h1
    obtain ⟨p1, -, -, -, -, hf⟩ := h1
    exact absurd rfl (hf i s1)

/-- Every outcome of the write branch entered with data byte `b`. -/
theorem write_cycle_spec (P : Peer σ) (fuel : Nat) (b : Nat) (s : State σ) :
    (write_cycle P fuel b s).state.bp_inst = { s.bp_inst with data := b % 256 } ∧
    (∀ i s1, write_cycle P fuel b s ≠ .fault i s1) ∧
    ∃ p1, ack_reads p1 = true ∧
      (((write_cycle P fuel b s).isOk = false ∧
        (write_cycle P fuel b s).state.log
          = s.log ++ (data_out_ops b ++ Op.dirOut REQ 1 :: p1)) ∨
       (polls_high p1 = true ∧ ∃ p2, ack_reads p2 = true ∧
        (write_cycle P fuel b s).state.log
          = s.log ++ (data_out_ops b ++ Op.dirOut REQ 1 :: (p1 ++ Op.dirOut REQ 0 :: p2)) ∧
        ((write_cycle P fuel b s).isOk = true → polls_low p2 = true))) := by
  obtain ⟨hi, hf, p1, hp1, h⟩ := write_handshake_spec P fuel (drive_data P b s)
  refine ⟨by simpa only [write_cycle, drive_data_inst] using hi, hf, p1, hp1, ?_⟩
  rcases h with ⟨hno, hl⟩ | ⟨hh, p2, hp2, hl, hok⟩
  · exact Or.inl ⟨hno, by simpa only [write_cycle, drive_data_log, List.append_assoc] using hl⟩
  · exact Or.inr ⟨hh, p2, hp2,
      by simpa only [write_cycle, drive_data_log, List.append_assoc] using hl, hok⟩

/-! ### One iteration of the decode loop -/

theorem setVal_state {α β : Type} (r : Res σ α) (v : β) : (r.setVal v).state = r.state := by
  cases r <;> rfl

theorem setVal_isOk {α β : Type} (r : Res σ α) (v : β) : (r.setVal v).isOk = r.isOk := by
  cases r <;> rfl

theorem setVal_eq_ok {α β : Type} (r : Res σ α) (v w : β) (s1 : State σ)
    (h : r.setVal v = .ok w s1) : w = v ∧ ∃ u, r = .ok u s1 := by
  cases r <;> simp [Res.setVal] at h
  exact ⟨h.1.symm, _, by rw [h.2]⟩

theorem opcode_after_drive (P : Peer σ) (o ad : Nat) (s : State σ) :
    (drive_addr P ad (drive_opcode P o s)).bp_inst.opcode = o % 2 := by
  simp [drive_addr_inst, drive_opcode_inst, bit_of]

/-- The iteration at a complete write instruction runs the write branch. -/
theorem loop_body_write (P : Peer σ) (a : Arch) (fuel : Nat) (data : List Nat) (i o ad d : Nat)
    (s : State σ) (hlen : data.length ≤ INT_MAX) (h0 : data[i]? = some o)
    (h1 : data[i + 1]? = some ad) (h2 : data[i + 2]? = some d) (ho : o % 2 = 1) :
    loop_body P a fuel data i s
      = (write_cycle P fuel d (drive_addr P ad (drive_opcode P o s))).setVal (i + 3) := by
  have hi : i + 2 < data.length := (List.getElem?_eq_some.mp h2).1
  have hg : has_data_byte a (i + 2) data.length = true := by
    rw [has_data_byte_eq a _ _ hlen (by omega)]; simpa using hi
  simp only [loop_body, h0, h1, dispatch, opcode_after_drive, ho, hg, h2]
  cases write_cycle P fuel d (drive_addr P ad (drive_opcode P o s)) <;> simp [Res.setVal]

/-- The iteration at a read instruction runs the read branch. -/
theorem loop_body_read (P : Peer σ) (a : Arch) (fuel : Nat) (data : List Nat) (i o ad : Nat)
    (s : State σ) (h0 : data[i]? = some o) (h1 : data[i + 1]? = some ad) (ho : o % 2 = 0) :
    loop_body P a fuel data i s
      = (read_cycle P fuel (drive_addr P ad (drive_opcode P o s))).setVal (i + 2) := by
  simp only [loop_body, h0, h1, dispatch, opcode_after_drive, ho]
  cases read_cycle P fuel (drive_addr P ad (drive_opcode P o s)) <;> simp [Res.setVal]

/-- The iteration at a write opcode and address that end the stream runs
neither branch. -/
theorem loop_body_trunc (P : Peer σ) (a : Arch) (fuel : Nat) (data : List Nat) (i o ad : Nat)
    (s : State σ) (hlen : data.length ≤ INT_MAX) (h0 : data[i]? = some o)
    (h1 : data[i + 1]? = some ad) (h2 : i + 2 = data.length) (ho : o % 2 = 1) :
    loop_body P a fuel data i s = .ok (i + 2) (drive_addr P ad (drive_opcode P o s)) := by
  have hg : has_data_byte a (i + 2) data.length = false := by
    rw [has_data_byte_eq a _ _ hlen (by omega)]; simp [h2]
  simp [loop_body, h0, h1, dispatch, opcode_after_drive, ho, hg]

/-! ### Sampling -/

theorem sample_byte_lt (d7 d6 d5 d4 d3 d2 d1 d0 : Nat) :
    sample_byte d7 d6 d5 d4 d3 d2 d1 d0 < 256 := by
  unfold sample_byte
  exact Nat.mod_lt _ (by decide)

theorem sample_byte_eq (d7 d6 d5 d4 d3 d2 d1 d0 : Nat) (h7 : d7 ≤ 1) (h6 : d6 ≤ 1)
    (h5 : d5 ≤ 1) (h4 : d4 ≤ 1) (h3 : d3 ≤ 1) (h2 : d2 ≤ 1) (h1 : d1 ≤ 1) (h0 : d0 ≤ 1) :
    sample_byte d7 d6 d5 d4 d3 d2 d1 d0
      = d7 * 128 + d6 * 64 + d5 * 32 + d4 * 16 + d3 * 8 + d2 * 4 + d1 * 2 + d0 := by
  simp only [sample_byte, add_u8, shl1_u8, Nat.shiftLeft_eq, pow_one]
  omega

theorem sample_byte_bits (d7 d6 d5 d4 d3 d2 d1 d0 : Nat) (h7 : d7 ≤ 1) (h6 : d6 ≤ 1)
    (h5 : d5 ≤ 1) (h4 : d4 ≤ 1) (h3 : d3 ≤ 1) (h2 : d2 ≤ 1) (h1 : d1 ≤ 1) (h0 : d0 ≤ 1) :
    bit_of (sample_byte d7 d6 d5 d4 d3 d2 d1 d0) 7 = d7 ∧
    bit_of (sample_byte d7 d6 d5 d4 d3 d2 d1 d0) 6 = d6 ∧
    bit_of (sample_byte d7 d6 d5 d4 d3 d2 d1 d0) 5 = d5 ∧
    bit_of (sample_byte d7 d6 d5 d4 d3 d2 d1 d0) 4 = d4 ∧
    bit_of (sample_byte d7 d6 d5 d4 d3 d2 d1 d0) 3 = d3 ∧
    bit_of (sample_byte d7 d6 d5 d4 d3 d2 d1 d0) 2 = d2 ∧
    bit_of (sample_byte d7 d6 d5 d4 d3 d2 d1 d0) 1 = d1 ∧
    bit_of (sample_byte d7 d6 d5 d4 d3 d2 d1 d0) 0 = d0 := by
  rw [sample_byte_eq d7 d6 d5 d4 d3 d2 d1 d0 h7 h6 h5 h4 h3 h2 h1 h0]
  simp only [bit_of]
  norm_num
  omega

/-! ### The decode loop and the stream it decodes -/

theorem decode_loop_done (P : Peer σ) (a : Arch) (fuel : Nat) (data : List Nat) (n i : Nat)
    (s : State σ) (h : loop_guard a i data.length = false) :
    decode_loop P a fuel data n i s = .ok i s := by
  cases n <;> simp [decode_loop, h]

theorem exec_stream_odd (P : Peer σ) (fuel : Nat) (o ad d : Nat) (rest : List Nat)
    (s : State σ) (ho : o % 2 = 1) :
    exec_stream P fuel (o :: ad :: d :: rest) s
      = match write_cycle P fuel d (drive_addr P ad (drive_opcode P o s)) with
        | .ok _ s1 => exec_stream P fuel rest s1
        | .outOfFuel s1 => .outOfFuel s1
        | .fault i s1 => .fault i s1 := by
  simp [exec_stream, Nat.and_one_is_mod, ho]

theorem exec_stream_odd_end (P : Peer σ) (fuel : Nat) (o ad : Nat) (s : State σ)
    (ho : o % 2 = 1) :
    exec_stream P fuel [o, ad] s = .ok () (drive_addr P ad (drive_opcode P o s)) := by
  simp [exec_stream, Nat.and_one_is_mod, ho]

theorem exec_stream_even (P : Peer σ) (fuel : Nat) (o ad : Nat) (rest : List Nat)
    (s : State σ) (ho : o % 2 = 0) :
    exec_stream P fuel (o :: ad :: rest) s
      = match read_cycle P fuel (drive_addr P ad (drive_opcode P o s)) with
        | .ok _ s1 => exec_stream P fuel rest s1
        | .outOfFuel s1 => .outOfFuel s1
        | .fault i s1 => .fault i s1 := by
  cases rest with
  | nil =>
    simp only [exec_stream, Nat.and_one_is_mod, ho]
    cases read_cycle P fuel (drive_addr P ad (drive_opcode P o s)) <;> simp
  | cons d rest => simp [exec_stream, Nat.and_one_is_mod, ho]

/-- The decode loop over a cursor does what `exec_stream` does on the bytes from
the cursor on, for every stream of 1 to INT_MAX bytes and every outcome; the
iteration budget `n` is never what stops it. -/
theorem decode_loop_eq_exec (P : Peer σ) (a : Arch) (fuel : Nat) (data : List Nat)
    (hlen : data.length ≤ INT_MAX) (hpos : 1 ≤ data.length) :
    ∀ (n i : Nat) (s : State σ), i ≤ data.length → data.length ≤ n + i →
      (decode_loop P a fuel data n i s).void = exec_stream P fuel (data.drop i) s := by
  intro n
  induction n with
  | zero =>
    intro i s hi hn
    have : i = data.length := by omega
    subst this
    have hg : loop_guard a data.length data.length = false := by
      rw [loop_guard_eq a _ _ hlen hpos hlen]; simp
    simp [decode_loop, hg, Res.void, exec_stream]
  | succ n ih =>
    intro i s hi hn
    by_cases hg : i + 1 < data.length
    · have hgt : loop_guard a i data.length = true := by
        rw [loop_guard_eq a _ _ hlen hpos (by omega)]; simpa using hg
      have h0 : data[i]? = some data[i] := List.getElem?_eq_getElem (by omega)
      have h1 : data[i + 1]? = some data[i + 1] := List.getElem?_eq_getElem hg
      have hd : data.drop i = data[i] :: data[i + 1] :: data.drop (i + 2) := by
        rw [List.drop_eq_getElem_cons (by omega), List.drop_eq_getElem_cons hg]
      rw [hd]
      rcases Nat.mod_two_eq_zero_or_one data[i] with ho | ho
      · rw [exec_stream_even P fuel _ _ _ s ho]
        simp only [decode_loop, hgt, if_true, loop_body_read P a fuel data i _ _ s h0 h1 ho]
        cases read_cycle P fuel (drive_addr P data[i + 1] (drive_opcode P data[i] s)) with
        | ok u s1 => exact ih (i + 2) s1 (by omega) (by omega)
        | outOfFuel s1 => rfl
        | fault j s1 => rfl
      · by_cases h2 : i + 2 < data.length
        · have h2e : data[i + 2]? = some data[i + 2] := List.getElem?_eq_getElem h2
          rw [List.drop_eq_getElem_cons h2, exec_stream_odd P fuel _ _ _ _ s ho]
          simp only [decode_loop, hgt, if_true,
            loop_body_write P a fuel data i _ _ _ s hlen h0 h1 h2e ho]
          cases write_cycle P fuel data[i + 2]
              (drive_addr P data[i + 1] (drive_opcode P data[i] s)) with
          | ok u s1 => exact ih (i + 3) s1 (by omega) (by omega)
          | outOfFuel s1 => rfl
          | fault j s1 => rfl
        · have h2e : i + 2 = data.length := by omega
          have hg2 : loop_guard a (i + 2) data.length = false := by
            rw [loop_guard_eq a _ _ hlen hpos (by omega)]; simp; omega
          rw [List.drop_eq_nil_of_le (by omega), exec_stream_odd_end P fuel _ _ s ho]
          simp only [decode_loop, hgt, if_true,
            loop_body_trunc P a fuel data i _ _ s hlen h0 h1 h2e ho,
            decode_loop_done P a fuel data n (i + 2) _ hg2, Res.void]
    · have hgf : loop_guard a i data.length = false := by
        rw [loop_guard_eq a _ _ hlen hpos (by omega)]; simpa using hg
      rw [decode_loop_done P a fuel data (n + 1) i s hgf]
      have hshort : (data.drop i).length ≤ 1 := by simp; omega
      match hm : data.drop i, hshort with
      | [], _ => simp [Res.void, exec_stream]
      | [x], _ => simp [Res.void, exec_stream]

/-- On a stream of 1 to INT_MAX bytes `backplane_write`, once allocation and
copy have succeeded, is `exec_stream` on the stream, returning the length. -/
theorem backplane_write_eq_exec (P : Peer σ) (a : Arch) (fuel : Nat) (buf : List Nat)
    (s : State σ) (hlen : buf.length ≤ INT_MAX) (hpos : 1 ≤ buf.length) :
    backplane_write P a fuel true true buf s
      = (exec_stream P fuel buf s).setVal (buf.length : Int) := by
  have h := decode_loop_eq_exec P a fuel buf hlen hpos (buf.length + 1) 0 s (by omega) (by omega)
  rw [List.drop_zero] at h
  rw [← h]
  simp only [backplane_write]
  cases decode_loop P a fuel buf (buf.length + 1) 0 s <;> simp [Res.void, Res.setVal]

/-- A stream that starts with complete instructions is executed by executing
those and then the rest. -/
theorem exec_stream_append (P : Peer σ) (fuel : Nat) (rest : List Nat) :
    ∀ (n : Nat) (pre : List Nat) (s : State σ), pre.length ≤ n → whole pre = true →
      exec_stream P fuel (pre ++ rest) s
        = (exec_stream P fuel pre s).andThen (exec_stream P fuel rest) := by
  intro n
  induction n with
  | zero =>
    intro pre s hn _
    have : pre = [] := List.length_eq_zero.mp (by omega)
    subst this
    simp [exec_stream, Res.andThen]
  | succ n ih =>
    intro pre s hn hw
    match pre, hn, hw with
    | [], _, _ => simp [exec_stream, Res.andThen]
    | [x], _, hw => simp [whole] at hw
    | [o, ad], _, hw =>
      have ho : o % 2 = 0 := by simpa [whole] using hw
      rw [show [o, ad] ++ rest = o :: ad :: rest from rfl, exec_stream_even P fuel o ad rest s ho,
        exec_stream_even P fuel o ad [] s ho]
      cases read_cycle P fuel (drive_addr P ad (drive_opcode P o s)) <;>
        simp [exec_stream, Res.andThen]
    | o :: ad :: d :: tl, hn, hw =>
      rcases Nat.mod_two_eq_zero_or_one o with ho | ho
      · have hw2 : whole (d :: tl) = true := by simpa [whole, ho] using hw
        rw [show (o :: ad :: d :: tl) ++ rest = o :: ad :: ((d :: tl) ++ rest) from rfl,
          exec_stream_even P fuel o ad _ s ho, exec_stream_even P fuel o ad (d :: tl) s ho]
        cases read_cycle P fuel (drive_addr P ad (drive_opcode P o s)) with
        | ok u s1 => exact ih (d :: tl) s1 (by simp at hn ⊢; omega) hw2
        | outOfFuel s1 => rfl
        | fault j s1 => rfl
      · have hw2 : whole tl = true := by simpa [whole, ho] using hw
        rw [show (o :: ad :: d :: tl) ++ rest = o :: ad :: d :: (tl ++ rest) from rfl,
          exec_stream_odd P fuel o ad d _ s ho, exec_stream_odd P fuel o ad d tl s ho]
        cases write_cycle P fuel d (drive_addr P ad (drive_opcode P o s)) with
        | ok u s1 => exact ih tl s1 (by simp at hn ⊢; omega) hw2
        | outOfFuel s1 => rfl
        | fault j s1 => rfl

/-! ### C3 and C4: the line operations of one cycle -/

/-- C3 (write cycle). At a complete Write instruction (opcode `o` with bit 0 set,
address `ad`, data `d` at cursor `i`), an iteration of the decode loop that
completes its handshake has appended to the log exactly: WNR driven to 1;
ADDR7..ADDR0 driven to bits 7..0 of `ad`; DATA7..DATA0 made outputs driven to
bits 7..0 of `d`; REQ set to 1; a completed poll of ACK ending on a non-zero
read; REQ set to 0; a completed poll of ACK ending on a read of 0. Nothing else
is in the log, so no data line is sampled and no other line is touched. The
cursor has advanced by 3 and the record holds opcode 1, the address and the data. -/
theorem write_cycle_line_operations (P : Peer σ) (a : Arch) (fuel : Nat) (data : List Nat)
    (i o ad d j : Nat) (s s1 : State σ) (hlen : data.length ≤ INT_MAX)
    (h0 : data[i]? = some o) (h1 : data[i + 1]? = some ad) (h2 : data[i + 2]? = some d)
    (ho : o % 2 = 1) (hrun : loop_body P a fuel data i s = .ok j s1) :
    j = i + 3 ∧
    s1.bp_inst = { opcode := 1, addr := ad % 256, data := d % 256 } ∧
    ∃ p1 p2, polls_high p1 = true ∧ polls_low p2 = true ∧
      s1.log = s.log ++ (Op.dirOut WNR 1 :: (addr_ops ad ++ (data_out_ops d ++
        Op.dirOut REQ 1 :: (p1 ++ Op.dirOut REQ 0 :: p2)))) := by
  rw [loop_body_write P a fuel data i o ad d s hlen h0 h1 h2 ho] at hrun
  obtain ⟨hj, u, hw⟩ := setVal_eq_ok _ _ _ _ hrun
  obtain ⟨hi, -, p1, hp1, h⟩ := write_cycle_spec P fuel d (drive_addr P ad (drive_opcode P o s))
  rw [hw] at hi h
  simp only [state_ok, drive_addr_log, drive_opcode_log, drive_addr_inst, drive_opcode_inst,
    Res.isOk] at hi h
  have hb : bit_of o 0 = 1 := by simpa [bit_of] using ho
  refine ⟨hj, by simp [hi, hb], ?_⟩
  rcases h with ⟨hno, -⟩ | ⟨hh, p2, hp2, hl, hok⟩
  · simp at hno
  · refine ⟨p1, p2, hh, hok trivial, ?_⟩
    simp only [hl, hb, List.append_assoc, List.singleton_append, List.cons_append,
      List.nil_append]

/-- C4 (read cycle). At a Read instruction (opcode `o` with bit 0 clear, address
`ad` at cursor `i`), an iteration of the decode loop that completes its
handshake has appended to the log exactly: WNR driven to 0; ADDR7..ADDR0 driven
to bits 7..0 of `ad`; DATA7..DATA0 made inputs; REQ set to 1; a completed poll
of ACK ending on a non-zero read; DATA7 sampled first down to DATA0 last; REQ
set to 0; a completed poll of ACK ending on a read of 0. The held data byte is
the shift-and-add of the sampled values, a byte, and when the sampled values are
levels (0 or 1) its bit k is the level sampled on DATAk. -/
theorem read_cycle_line_operations (P : Peer σ) (a : Arch) (fuel : Nat) (data : List Nat)
    (i o ad j : Nat) (s s1 : State σ)
    (h0 : data[i]? = some o) (h1 : data[i + 1]? = some ad)
    (ho : o % 2 = 0) (hrun : loop_body P a fuel data i s = .ok j s1) :
    j = i + 2 ∧
    ∃ p1 d7 d6 d5 d4 d3 d2 d1 d0 p2, polls_high p1 = true ∧ polls_low p2 = true ∧
      s1.log = s.log ++ (Op.dirOut WNR 0 :: (addr_ops ad ++ (data_in_ops ++
        Op.dirOut REQ 1 :: (p1 ++ (data_get_ops d7 d6 d5 d4 d3 d2 d1 d0 ++
          Op.dirOut REQ 0 :: p2))))) ∧
      s1.bp_inst = { opcode := 0, addr := ad % 256,
                     data := sample_byte d7 d6 d5 d4 d3 d2 d1 d0 } ∧
      s1.bp_inst.data < 256 ∧
      (d7 ≤ 1 ∧ d6 ≤ 1 ∧ d5 ≤ 1 ∧ d4 ≤ 1 ∧ d3 ≤ 1 ∧ d2 ≤ 1 ∧ d1 ≤ 1 ∧ d0 ≤ 1 →
        bit_of s1.bp_inst.data 7 = d7 ∧ bit_of s1.bp_inst.data 6 = d6 ∧
        bit_of s1.bp_inst.data 5 = d5 ∧ bit_of s1.bp_inst.data 4 = d4 ∧
        bit_of s1.bp_inst.data 3 = d3 ∧ bit_of s1.bp_inst.data 2 = d2 ∧
        bit_of s1.bp_inst.data 1 = d1 ∧ bit_of s1.bp_inst.data 0 = d0) := by
  rw [loop_body_read P a fuel data i o ad s h0 h1 ho] at hrun
  obtain ⟨hj, u, hw⟩ := setVal_eq_ok _ _ _ _ hrun
  obtain ⟨-, p1, hp1, h⟩ := read_cycle_spec P fuel (drive_addr P ad (drive_opcode P o s))
  rw [hw] at h
  simp only [state_ok, drive_addr_log, drive_opcode_log, drive_addr_inst, drive_opcode_inst,
    Res.isOk] at h
  have hb : bit_of o 0 = 0 := by simpa [bit_of] using ho
  refine ⟨hj, ?_⟩
  rcases h with ⟨hno, -⟩ | ⟨hh, d7, d6, d5, d4, d3, d2, d1, d0, p2, hp2, hl, hi, hok⟩
  · simp at hno
  · refine ⟨p1, d7, d6, d5, d4, d3, d2, d1, d0, p2, hh, hok trivial, ?_, by simp [hi, hb], ?_, ?_⟩
    · simp only [hl, hb, List.append_assoc, List.singleton_append, List.cons_append,
        List.nil_append]
    · rw [hi]; exact sample_byte_lt _ _ _ _ _ _ _ _
    · rintro ⟨h7, h6, h5, h4, h3, h2, h1', h0'⟩
      rw [hi]
      exact sample_byte_bits d7 d6 d5 d4 d3 d2 d1 d0 h7 h6 h5 h4 h3 h2 h1' h0'

/-- Witness for C3: the stream `[1, 5, 0xAA]` against the latch-and-echo peer
with latency 1. -/
theorem write_cycle_line_operations_witness :
    3 = 0 + 3 ∧
    (loop_body echoPeer Arch.lp64 3 [1, 5, 0xAA] 0 (echoStart 1 0 (fun _ => 0))).state.bp_inst
      = { opcode := 1, addr := 5 % 256, data := 0xAA % 256 } ∧
    ∃ p1 p2, polls_high p1 = true ∧ polls_low p2 = true ∧
      (loop_body echoPeer Arch.lp64 3 [1, 5, 0xAA] 0 (echoStart 1 0 (fun _ => 0))).state.log
        = (echoStart 1 0 (fun _ => 0)).log ++ (Op.dirOut WNR 1 :: (addr_ops 5 ++
            (data_out_ops 0xAA ++ Op.dirOut REQ 1 :: (p1 ++ Op.dirOut REQ 0 :: p2)))) :=
  write_cycle_line_operations echoPeer Arch.lp64 3 [1, 5, 0xAA] 0 1 5 0xAA 3
    (echoStart 1 0 (fun _ => 0))
    (loop_body echoPeer Arch.lp64 3 [1, 5, 0xAA] 0 (echoStart 1 0 (fun _ => 0))).state
    (by decide) rfl rfl rfl rfl rfl

/-! ### Streams too short for an instruction, and faults -/

theorem backplane_write_nil (P : Peer σ) (a : Arch) (fuel : Nat) (s : State σ) :
    backplane_write P a fuel true true [] s = .fault 0 s := by
  have hg : loop_guard a 0 0 = true := loop_guard_zero_len a
  simp [backplane_write, decode_loop, hg, loop_body]

theorem andThen_eq_ok (r : Res σ Unit) (f : State σ → Res σ Unit) (u : Unit) (s1 : State σ)
    (h : r.andThen f = .ok u s1) : ∃ s0, r = .ok () s0 ∧ f s0 = .ok u s1 := by
  cases r with
  | ok v s0 => exact ⟨s0, rfl, h⟩
  | outOfFuel s0 => simp [Res.andThen] at h
  | fault i s0 => simp [Res.andThen] at h

/-- The state in which the bytes after a run of complete instructions `pre` are
decoded: the start state if `pre` is empty, else the state `backplane_write`
leaves on `pre`. -/
theorem exec_of_written (P : Peer σ) (a : Arch) (fuel : Nat) (pre : List Nat) (s s0 : State σ)
    (hlen : pre.length ≤ INT_MAX)
    (hpre : (pre = [] ∧ s0 = s) ∨
      backplane_write P a fuel true true pre s = .ok (pre.length : Int) s0) :
    exec_stream P fuel pre s = .ok () s0 := by
  rcases hpre with ⟨h1, h2⟩ | h
  · subst h1; subst h2; simp [exec_stream]
  · cases pre with
    | nil => simp [backplane_write_nil] at h
    | cons x tl =>
      rw [backplane_write_eq_exec P a fuel _ s hlen (by simp)] at h
      obtain ⟨-, u, hu⟩ := setVal_eq_ok _ _ _ _ h
      exact hu

/-- C7 (empty stream). On the empty stream (`len = 0`, allocation and copy
succeeding) the unsigned guard `0 < len - 1` holds on both data models, so
`backplane_write` enters the decode loop and its first action is the read of
`data[0]`, outside the zero-length staging buffer. -/
theorem empty_stream_enters_loop (P : Peer σ) (a : Arch) (fuel : Nat) (s : State σ) :
    loop_guard a 0 ([] : List Nat).length = true ∧
    len_minus_1 a 0 = SIZE_MOD a - 1 ∧
    backplane_write P a fuel true true [] s = .fault 0 s := by
  refine ⟨loop_guard_zero_len a, ?_, backplane_write_nil P a fuel s⟩
  cases a <;> decide

/-- C8 (stream of length 1). For every byte `b`, every peer and every polling
budget, `backplane_write` on `[b]` returns 1 and leaves the whole state as it
was: the log has not grown (no line driven, REQ not asserted, ACK not polled),
the peer has seen nothing and the held record is unchanged. -/
theorem one_byte_stream_no_transaction (P : Peer σ) (a : Arch) (fuel : Nat) (b : Nat)
    (s : State σ) : backplane_write P a fuel true true [b] s = .ok 1 s := by
  have hg : loop_guard a 0 1 = false := by cases a <;> decide
  simp [backplane_write, decode_loop, hg]

/-- C10 (allocation and transfer faults). When `kmalloc` fails `backplane_write`
returns `-ENOMEM` (-12), and when `copy_from_user` fails it returns `-EFAULT`
(-14); in both cases the state is exactly the state before the call: no line
operation in the log, the peer has seen nothing, the held record is unchanged. -/
theorem write_fault_atomic (P : Peer σ) (a : Arch) (fuel : Nat) (copyOk : Bool)
    (buf : List Nat) (s : State σ) :
    backplane_write P a fuel false copyOk buf s = .ok (-12) s ∧
    backplane_write P a fuel true false buf s = .ok (-14) s := by
  simp [backplane_write, ENOMEM, EFAULT]

/-! ### C9: a write opcode and address that end the stream -/

/-- C9 (truncated write). Let the stream be complete instructions `pre` followed
by a Write opcode `o` (bit 0 set) and an address `ad`, and let `s0` be the state
in which that last entry starts (the start state if `pre` is empty, else the
state `backplane_write` leaves on `pre`). Then `backplane_write` returns the
full stream length, and its final state is `s0` after the drive of WNR and of the
address bus only: the log has grown by WNR driven to 1 and ADDR7..ADDR0 driven to
the bits of `ad` and by nothing else (REQ not asserted, ACK not polled, no data
line configured, driven or sampled), and the held data byte is the one of `s0`. -/
theorem truncated_write_no_data_phase (P : Peer σ) (a : Arch) (fuel : Nat) (pre : List Nat)
    (o ad : Nat) (s s0 : State σ) (hw : whole pre = true) (ho : o % 2 = 1)
    (hlen : (pre ++ [o, ad]).length ≤ INT_MAX)
    (hpre : (pre = [] ∧ s0 = s) ∨
      backplane_write P a fuel true true pre s = .ok (pre.length : Int) s0) :
    backplane_write P a fuel true true (pre ++ [o, ad]) s
      = .ok ((pre ++ [o, ad]).length : Int) (drive_addr P ad (drive_opcode P o s0)) ∧
    (drive_addr P ad (drive_opcode P o s0)).log = s0.log ++ (Op.dirOut WNR 1 :: addr_ops ad) ∧
    (drive_addr P ad (drive_opcode P o s0)).bp_inst
      = { opcode := 1, addr := ad % 256, data := s0.bp_inst.data } := by
  have hb : bit_of o 0 = 1 := by simpa [bit_of] using ho
  have hl : pre.length ≤ INT_MAX := by simp at hlen; omega
  refine ⟨?_, ?_, ?_⟩
  · rw [backplane_write_eq_exec P a fuel _ s hlen (by simp),
      exec_stream_append P fuel [o, ad] pre.length pre s (le_refl _) hw,
      exec_of_written P a fuel pre s s0 hl hpre]
    simp [Res.andThen, exec_stream_odd_end P fuel o ad s0 ho, Res.setVal]
  · simp only [drive_addr_log, drive_opcode_log, hb, List.append_assoc, List.singleton_append]
  · simp [drive_addr_inst, drive_opcode_inst, hb]

/-- Witness for C9: the stream `[1, 5, 0xAA, 3, 9]` against the latch-and-echo
peer; the last entry is the Write opcode 3 with address 9 and no data byte. -/
theorem truncated_write_no_data_phase_witness :
    backplane_write echoPeer Arch.lp64 3 true true ([1, 5, 0xAA] ++ [3, 9])
        (echoStart 1 0 (fun _ => 0))
      = .ok (([1, 5, 0xAA] ++ [3, 9]).length : Int)
          (drive_addr echoPeer 9 (drive_opcode echoPeer 3
            (backplane_write echoPeer Arch.lp64 3 true true [1, 5, 0xAA]
              (echoStart 1 0 (fun _ => 0))).state)) ∧
    (drive_addr echoPeer 9 (drive_opcode echoPeer 3
      (backplane_write echoPeer Arch.lp64 3 true true [1, 5, 0xAA]
        (echoStart 1 0 (fun _ => 0))).state)).log
      = (backplane_write echoPeer Arch.lp64 3 true true [1, 5, 0xAA]
          (echoStart 1 0 (fun _ => 0))).state.log ++ (Op.dirOut WNR 1 :: addr_ops 9) ∧
    (drive_addr echoPeer 9 (drive_opcode echoPeer 3
      (backplane_write echoPeer Arch.lp64 3 true true [1, 5, 0xAA]
        (echoStart 1 0 (fun _ => 0))).state)).bp_inst
      = { opcode := 1, addr := 9 % 256,
          data := (backplane_write echoPeer Arch.lp64 3 true true [1, 5, 0xAA]
            (echoStart 1 0 (fun _ => 0))).state.bp_inst.data } :=
  truncated_write_no_data_phase echoPeer Arch.lp64 3 [1, 5, 0xAA] 3 9
    (echoStart 1 0 (fun _ => 0))
    (backplane_write echoPeer Arch.lp64 3 true true [1, 5, 0xAA]
      (echoStart 1 0 (fun _ => 0))).state
    (by decide) (by decide) (by decide) (Or.inr rfl)

/-! ### C1: what is handed back -/

/-- C1, counterexample. The stream `[Write(0x01,0xAA), Read(0x01), Write(0x02,0x55),
Read(0x02)]` against the latch-and-echo peer is processed to the end (the call
returns 10), and a hand-back of two bytes then returns 0x55 at position 0 and at
position 1 the byte `j1` the allocator left there: whatever the allocator left,
the bytes handed back are not `[0xAA, 0x55]`. -/
theorem read_back_counterexample :
    (backplane_write echoPeer Arch.lp64 2 true true [1, 0x01, 0xAA, 0, 0x01, 1, 0x02, 0x55, 0, 0x02]
      (echoStart 0 0 (fun _ => 0))).val? = some 10 ∧
    ∀ j0 j1 : Nat,
      (backplane_read (some [j0, j1]) true
        (backplane_write echoPeer Arch.lp64 2 true true
          [1, 0x01, 0xAA, 0, 0x01, 1, 0x02, 0x55, 0, 0x02]
          (echoStart 0 0 (fun _ => 0))).state).val? = some (2, some [0x55, j1]) ∧
      (backplane_read (some [j0, j1]) true
        (backplane_write echoPeer Arch.lp64 2 true true
          [1, 0x01, 0xAA, 0, 0x01, 1, 0x02, 0x55, 0, 0x02]
          (echoStart 0 0 (fun _ => 0))).state).val? ≠ some (2, some [0xAA, 0x55]) := by
  have hd : (backplane_write echoPeer Arch.lp64 2 true true
      [1, 0x01, 0xAA, 0, 0x01, 1, 0x02, 0x55, 0, 0x02]
      (echoStart 0 0 (fun _ => 0))).state.bp_inst.data = 0x55 := by decide
  refine ⟨by decide, fun j0 j1 => ?_⟩
  simp [backplane_read, Res.val?, hd]

/-- C1, amended. When the stream is complete instructions `pre` followed by a
Read instruction (opcode `o` with bit 0 clear, address `ad`) and the peer
completes each handshake, the log of `backplane_write` ends with the handshake
of that last Read: REQ raised, the poll for ACK high, the eight samples
DATA7..DATA0, REQ lowered, the poll for ACK low; and the hand-back done by
`backplane_read` (allocation and copy succeeding, at least one byte asked for)
returns at position 0 the byte assembled from those eight samples, that is the
byte sampled by the last Read transaction. -/
theorem read_back_is_last_sample (P : Peer σ) (a : Arch) (fuel : Nat) (pre : List Nat)
    (o ad : Nat) (s s1 : State σ) (ret : Int) (b0 : Nat) (rest : List Nat)
    (hw : whole pre = true) (ho : o % 2 = 0) (hlen : (pre ++ [o, ad]).length ≤ INT_MAX)
    (hrun : backplane_write P a fuel true true (pre ++ [o, ad]) s = .ok ret s1) :
    ∃ ops p1 d7 d6 d5 d4 d3 d2 d1 d0 p2, polls_high p1 = true ∧ polls_low p2 = true ∧
      s1.log = ops ++ (Op.dirOut REQ 1 :: (p1 ++ (data_get_ops d7 d6 d5 d4 d3 d2 d1 d0 ++
        Op.dirOut REQ 0 :: p2))) ∧
      backplane_read (some (b0 :: rest)) true s1
        = .ok (((rest.length + 1 : Nat) : Int),
            some (sample_byte d7 d6 d5 d4 d3 d2 d1 d0 :: rest)) s1 := by
  rw [backplane_write_eq_exec P a fuel _ s hlen (by simp),
    exec_stream_append P fuel [o, ad] pre.length pre s (le_refl _) hw] at hrun
  obtain ⟨-, u, hu⟩ := setVal_eq_ok _ _ _ _ hrun
  obtain ⟨s0, -, h2⟩ := andThen_eq_ok _ _ _ _ hu
  rw [exec_stream_even P fuel o ad [] s0 ho] at h2
  obtain ⟨-, p1, hp1, h⟩ := read_cycle_spec P fuel (drive_addr P ad (drive_opcode P o s0))
  cases hr : read_cycle P fuel (drive_addr P ad (drive_opcode P o s0)) with
  | ok v s2 =>
    rw [hr] at h h2
    have e : s2 = s1 := by simpa [exec_stream] using h2
    subst e
    rcases h with ⟨hno, -⟩ | ⟨hh, d7, d6, d5, d4, d3, d2, d1, d0, p2, hp2, hl, hi, hok⟩
    · simp [Res.isOk] at hno
    · refine ⟨(drive_addr P ad (drive_opcode P o s0)).log ++ data_in_ops, p1, d7, d6, d5, d4,
        d3, d2, d1, d0, p2, hh, hok rfl, ?_, ?_⟩
      · simpa only [state_ok, List.append_assoc] using hl
      · simp only [state_ok] at hi
        simp [backplane_read, hi]
  | outOfFuel s2 => rw [hr] at h2; simp at h2
  | fault j s2 => rw [hr] at h2; simp at h2

/-- Witness for C1 amended: the stream of the counterexample, split before its
last Read, with a hand-back buffer `[7, 8]`. -/
theorem read_back_is_last_sample_witness :
    ∃ ops p1 d7 d6 d5 d4 d3 d2 d1 d0 p2, polls_high p1 = true ∧ polls_low p2 = true ∧
      (backplane_write echoPeer Arch.lp64 2 true true ([1, 0x01, 0xAA, 0, 0x01, 1, 0x02, 0x55] ++
        [0, 0x02]) (echoStart 0 0 (fun _ => 0))).state.log
        = ops ++ (Op.dirOut REQ 1 :: (p1 ++ (data_get_ops d7 d6 d5 d4 d3 d2 d1 d0 ++
          Op.dirOut REQ 0 :: p2))) ∧
      backplane_read (some (7 :: [8])) true
          (backplane_write echoPeer Arch.lp64 2 true true
            ([1, 0x01, 0xAA, 0, 0x01, 1, 0x02, 0x55] ++ [0, 0x02])
            (echoStart 0 0 (fun _ => 0))).state
        = .ok ((([8].length + 1 : Nat) : Int),
            some (sample_byte d7 d6 d5 d4 d3 d2 d1 d0 :: [8]))
          (backplane_write echoPeer Arch.lp64 2 true true
            ([1, 0x01, 0xAA, 0, 0x01, 1, 0x02, 0x55] ++ [0, 0x02])
            (echoStart 0 0 (fun _ => 0))).state :=
  read_back_is_last_sample echoPeer Arch.lp64 2 [1, 0x01, 0xAA, 0, 0x01, 1, 0x02, 0x55] 0 0x02
    (echoStart 0 0 (fun _ => 0))
    (backplane_write echoPeer Arch.lp64 2 true true
      ([1, 0x01, 0xAA, 0, 0x01, 1, 0x02, 0x55] ++ [0, 0x02])
      (echoStart 0 0 (fun _ => 0))).state
    10 7 [8] (by decide) (by decide) (by decide) rfl

/-! ### The latch-and-echo peer -/

theorem echo_get_ack_settled (s : State EchoState) (h : s.peer.pending = 0) :
    gpio_get_value echoPeer ACK s
      = (s.peer.ack, { s with log := s.log ++ [Op.get ACK s.peer.ack] }) := by
  simp [gpio_get_value, echoPeer, h]

theorem echo_get_ack_pending (s : State EchoState) (h : s.peer.pending ≠ 0) :
    gpio_get_value echoPeer ACK s
      = (1 - s.peer.ack,
         { s with peer := { s.peer with pending := s.peer.pending - 1 },
                  log := s.log ++ [Op.get ACK (1 - s.peer.ack)] }) := by
  simp [gpio_get_value, echoPeer, h]

theorem echo_ndelay (s : State EchoState) : ndelay echoPeer s = s := rfl

theorem echo_settle (st : EchoState) (h : st.pending = 0) : { st with pending := 0 } = st := by
  cases st; simp_all

/-- A wait for ACK high against the latch-and-echo peer that is raising ACK
completes within `pending + 1` polls; the inner loop. -/
theorem echo_wait_high_inner (k : Nat) :
    ∀ (n : Nat) (s : State EchoState), s.peer.ack = 1 → s.peer.pending = k → k + 1 ≤ n →
      ∃ s1, wait_high_inner echoPeer n s = .ok () s1 ∧ s1.bp_inst = s.bp_inst ∧
        s1.peer = { s.peer with pending := 0 } := by
  induction k with
  | zero =>
    intro n s ha hp hn
    obtain ⟨m, rfl⟩ : ∃ m, n = m + 1 := ⟨n - 1, by omega⟩
    refine ⟨(gpio_get_value echoPeer ACK s).2, ?_, ?_, ?_⟩
    · simp [wait_high_inner, echo_get_ack_settled s hp, ha]
    · simp [echo_get_ack_settled s hp]
    · simp [echo_get_ack_settled s hp, echo_settle s.peer hp]
  | succ k ih =>
    intro n s ha hp hn
    obtain ⟨m, rfl⟩ : ∃ m, n = m + 1 := ⟨n - 1, by omega⟩
    have hne : s.peer.pending ≠ 0 := by omega
    have hg := echo_get_ack_pending s hne
    obtain ⟨s1, h1, h2, h3⟩ := ih m (gpio_get_value echoPeer ACK s).2
      (by rw [hg]; exact ha) (by rw [hg]; simp [hp]) (by omega)
    refine ⟨s1, ?_, ?_, ?_⟩
    · simp only [wait_high_inner, echo_ndelay]
      rw [if_pos (by rw [hg]; simp [ha])]
      exact h1
    · rw [h2, hg]
    · rw [h3, hg]

theorem echo_wait_high (n : Nat) (s : State EchoState) (ha : s.peer.ack = 1)
    (hn : s.peer.pending + 1 ≤ n) :
    ∃ s1, wait_high echoPeer n s = .ok () s1 ∧ s1.bp_inst = s.bp_inst ∧
      s1.peer = { s.peer with pending := 0 } := by
  obtain ⟨m, rfl⟩ : ∃ m, n = m + 1 := ⟨n - 1, by omega⟩
  by_cases hp : s.peer.pending = 0
  · refine ⟨(gpio_get_value echoPeer ACK s).2, ?_, ?_, ?_⟩
    · simp [wait_high, echo_get_ack_settled s hp, ha]
    · simp [echo_get_ack_settled s hp]
    · simp [echo_get_ack_settled s hp, echo_settle s.peer hp]
  · have hg := echo_get_ack_pending s hp
    obtain ⟨s1, h1, h2, h3⟩ := echo_wait_high_inner (s.peer.pending - 1) m
      (gpio_get_value echoPeer ACK s).2 (by rw [hg]; exact ha) (by rw [hg]) (by omega)
    obtain ⟨k, rfl⟩ : ∃ k, m = k + 1 := ⟨m - 1, by omega⟩
    have hp1 : s1.peer.pending = 0 := by rw [h3]
    have ha1 : s1.peer.ack = 1 := by rw [h3, hg]; exact ha
    refine ⟨(gpio_get_value echoPeer ACK s1).2, ?_, ?_, ?_⟩
    · simp only [wait_high]
      rw [if_pos (by rw [hg]; simp [ha]), h1]
      simp [wait_high, echo_get_ack_settled s1 hp1, ha1]
    · rw [echo_get_ack_settled s1 hp1, h2, hg]
    · rw [echo_get_ack_settled s1 hp1, h3, hg]

/-- A wait for ACK low against the latch-and-echo peer that is lowering ACK
completes within `pending + 1` polls; the inner loop. -/
theorem echo_wait_low_inner (k : Nat) :
    ∀ (n : Nat) (s : State EchoState), s.peer.ack = 0 → s.peer.pending = k → k + 1 ≤ n →
      ∃ s1, wait_low_inner echoPeer n s = .ok () s1 ∧ s1.bp_inst = s.bp_inst ∧
        s1.peer = { s.peer with pending := 0 } := by
  induction k with
  | zero =>
    intro n s ha hp hn
    obtain ⟨m, rfl⟩ : ∃ m, n = m + 1 := ⟨n - 1, by omega⟩
    refine ⟨(gpio_get_value echoPeer ACK s).2, ?_, ?_, ?_⟩
    · simp [wait_low_inner, echo_get_ack_settled s hp, ha]
    · simp [echo_get_ack_settled s hp]
    · simp [echo_get_ack_settled s hp, echo_settle s.peer hp]
  | succ k ih =>
    intro n s ha hp hn
    obtain ⟨m, rfl⟩ : ∃ m, n = m + 1 := ⟨n - 1, by omega⟩
    have hne : s.peer.pending ≠ 0 := by omega
    have hg := echo_get_ack_pending s hne
    obtain ⟨s1, h1, h2, h3⟩ := ih m (gpio_get_value echoPeer ACK s).2
      (by rw [hg]; exact ha) (by rw [hg]; simp [hp]) (by omega)
    refine ⟨s1, ?_, ?_, ?_⟩
    · simp only [wait_low_inner, echo_ndelay]
      rw [if_pos (by rw [hg]; simp [ha])]
      exact h1
    · rw [h2, hg]
    · rw [h3, hg]

theorem echo_wait_low (n : Nat) (s : State EchoState) (ha : s.peer.ack = 0)
    (hn : s.peer.pending + 1 ≤ n) :
    ∃ s1, wait_low echoPeer n s = .ok () s1 ∧ s1.bp_inst = s.bp_inst ∧
      s1.peer = { s.peer with pending := 0 } := by
  obtain ⟨m, rfl⟩ : ∃ m, n = m + 1 := ⟨n - 1, by omega⟩
  by_cases hp : s.peer.pending = 0
  · refine ⟨(gpio_get_value echoPeer ACK s).2, ?_, ?_, ?_⟩
    · simp [wait_low, echo_get_ack_settled s hp, ha]
    · simp [echo_get_ack_settled s hp]
    · simp [echo_get_ack_settled s hp, echo_settle s.peer hp]
  · have hg := echo_get_ack_pending s hp
    obtain ⟨s1, h1, h2, h3⟩ := echo_wait_low_inner (s.peer.pending - 1) m
      (gpio_get_value echoPeer ACK s).2 (by rw [hg]; exact ha) (by rw [hg]) (by omega)
    obtain ⟨k, rfl⟩ : ∃ k, m = k + 1 := ⟨m - 1, by omega⟩
    have hp1 : s1.peer.pending = 0 := by rw [h3]
    have ha1 : s1.peer.ack = 0 := by rw [h3, hg]; exact ha
    refine ⟨(gpio_get_value echoPeer ACK s1).2, ?_, ?_, ?_⟩
    · simp only [wait_low]
      rw [if_pos (by rw [hg]; simp [ha]), h1]
      simp [wait_low, echo_get_ack_settled s1 hp1, ha1]
    · rw [echo_get_ack_settled s1 hp1, h2, hg]
    · rw [echo_get_ack_settled s1 hp1, h3, hg]

theorem byte_of_bits (x : Nat) :
    (x % 256) >>> 7 % 2 * 128 + (x % 256) >>> 6 % 2 * 64 + (x % 256) >>> 5 % 2 * 32 +
      (x % 256) >>> 4 % 2 * 16 + (x % 256) >>> 3 % 2 * 8 + (x % 256) >>> 2 % 2 * 4 +
      (x % 256) >>> 1 % 2 * 2 + x % 256 % 2 = x % 256 := by
  simp only [Nat.shiftRight_eq_div_pow]
  norm_num
  omega

/-- What the latch-and-echo peer has seen after opcode and address were driven:
WNR carries bit 0 of the opcode, the address lines carry the address, and the
rest of the peer is as before. -/
theorem echo_after_addr (o ad : Nat) (s : State EchoState) :
    (drive_addr echoPeer ad (drive_opcode echoPeer o s)).peer.level WNR = o % 2 ∧
    bus_addr (drive_addr echoPeer ad (drive_opcode echoPeer o s)).peer.level = ad % 256 ∧
    (drive_addr echoPeer ad (drive_opcode echoPeer o s)).peer.mem = s.peer.mem ∧
    (drive_addr echoPeer ad (drive_opcode echoPeer o s)).peer.lat = s.peer.lat := by
  refine ⟨?_, ?_, ?_, ?_⟩
  · simp [drive_addr, drive_opcode, gpio_direction_output, echoPeer, set_level, REQ, WNR,
      ADDR7, ADDR6, ADDR5, ADDR4, ADDR3, ADDR2, ADDR1, ADDR0]
  · simp [drive_addr, drive_opcode, gpio_direction_output, echoPeer, set_level, REQ, WNR,
      ADDR7, ADDR6, ADDR5, ADDR4, ADDR3, ADDR2, ADDR1, ADDR0, bus_addr, bus_byte]
    exact byte_of_bits ad
  · simp [drive_addr, drive_opcode, gpio_direction_output, echoPeer, REQ, WNR,
      ADDR7, ADDR6, ADDR5, ADDR4, ADDR3, ADDR2, ADDR1, ADDR0]
  · simp [drive_addr, drive_opcode, gpio_direction_output, echoPeer, REQ, WNR,
      ADDR7, ADDR6, ADDR5, ADDR4, ADDR3, ADDR2, ADDR1, ADDR0]

/-- What the latch-and-echo peer has seen after the data bus was driven. -/
theorem echo_after_data (d : Nat) (s : State EchoState) :
    (drive_data echoPeer d s).peer.level WNR = s.peer.level WNR ∧
    bus_addr (drive_data echoPeer d s).peer.level = bus_addr s.peer.level ∧
    bus_data (drive_data echoPeer d s).peer.level = d % 256 ∧
    (drive_data echoPeer d s).peer.mem = s.peer.mem ∧
    (drive_data echoPeer d s).peer.lat = s.peer.lat := by
  refine ⟨?_, ?_, ?_, ?_, ?_⟩
  · simp [drive_data, gpio_direction_output, echoPeer, set_level, REQ, WNR,
      DATA7, DATA6, DATA5, DATA4, DATA3, DATA2, DATA1, DATA0]
  · simp [drive_data, gpio_direction_output, echoPeer, set_level, REQ, WNR,
      DATA7, DATA6, DATA5, DATA4, DATA3, DATA2, DATA1, DATA0, bus_addr, bus_byte,
      ADDR7, ADDR6, ADDR5, ADDR4, ADDR3, ADDR2, ADDR1, ADDR0]
  · simp [drive_data, gpio_direction_output, echoPeer, set_level, REQ, WNR,
      DATA7, DATA6, DATA5, DATA4, DATA3, DATA2, DATA1, DATA0, bus_data, bus_byte]
    exact byte_of_bits d
  · simp [drive_data, gpio_direction_output, echoPeer, REQ,
      DATA7, DATA6, DATA5, DATA4, DATA3, DATA2, DATA1, DATA0]
  · simp [drive_data, gpio_direction_output, echoPeer, REQ,
      DATA7, DATA6, DATA5, DATA4, DATA3, DATA2, DATA1, DATA0]

theorem echo_req_high_write (s : State EchoState) (hw : s.peer.level WNR ≠ 0) :
    (gpio_direction_output echoPeer REQ 1 s).peer
      = { s.peer with level := set_level s.peer.level REQ 1,
                      mem := set_level s.peer.mem (bus_addr s.peer.level) (bus_data s.peer.level),
                      ack := 1, pending := s.peer.lat } := by
  simp [gpio_direction_output, echoPeer, hw]

theorem echo_req_high_read (s : State EchoState) (hw : s.peer.level WNR = 0) :
    (gpio_direction_output echoPeer REQ 1 s).peer
      = { s.peer with level := set_level s.peer.level REQ 1,
                      dout := s.peer.mem (bus_addr s.peer.level),
                      ack := 1, pending := s.peer.lat } := by
  simp [gpio_direction_output, echoPeer, hw]

theorem echo_req_low (s : State EchoState) :
    (gpio_direction_output echoPeer REQ 0 s).peer
      = { s.peer with level := set_level s.peer.level REQ 0, ack := 0,
                      pending := s.peer.lat } := by
  simp [gpio_direction_output, echoPeer]

/-- Against the latch-and-echo peer a write handshake completes within
`lat + 1` polls per wait and latches the byte on the data lines at the address on
the address lines. -/
theorem echo_write_handshake (fuel : Nat) (s : State EchoState) (hw : s.peer.level WNR ≠ 0)
    (hf : s.peer.lat + 1 ≤ fuel) :
    ∃ s1, write_handshake echoPeer fuel s = .ok () s1 ∧ s1.bp_inst = s.bp_inst ∧
      s1.peer.mem = set_level s.peer.mem (bus_addr s.peer.level) (bus_data s.peer.level) ∧
      s1.peer.lat = s.peer.lat := by
  obtain ⟨s1, h1, hi1, hp1⟩ := echo_wait_high fuel (gpio_direction_output echoPeer REQ 1 s)
    (by rw [echo_req_high_write s hw]) (by rw [echo_req_high_write s hw]; exact hf)
  obtain ⟨s2, h2, hi2, hp2⟩ := echo_wait_low fuel (gpio_direction_output echoPeer REQ 0 s1)
    (by rw [echo_req_low s1])
    (by rw [echo_req_low s1, hp1, echo_req_high_write s hw]; exact hf)
  refine ⟨s2, by simp [write_handshake, h1, h2], ?_, ?_, ?_⟩
  · rw [hi2, out_inst, hi1, out_inst]
  · rw [hp2, echo_req_low s1, hp1, echo_req_high_write s hw]
  · rw [hp2, echo_req_low s1, hp1, echo_req_high_write s hw]

theorem echo_release_peer (s : State EchoState) : (release_data echoPeer s).peer = s.peer := rfl

theorem echo_sample (s : State EchoState) :
    (sample_data echoPeer s).bp_inst.data = s.peer.dout % 256 ∧
    (sample_data echoPeer s).peer = s.peer := by
  refine ⟨?_, ?_⟩
  · simp [sample_data, gpio_get_value, echoPeer, echo_bit, ACK, DATA7, DATA6, DATA5, DATA4,
      DATA3, DATA2, DATA1, DATA0, sample_byte, add_u8, shl1_u8, Nat.shiftLeft_eq,
      Nat.shiftRight_eq_div_pow]
    omega
  · simp [sample_data, gpio_get_value, echoPeer, ACK, DATA7, DATA6, DATA5, DATA4,
      DATA3, DATA2, DATA1, DATA0]

/-- Against the latch-and-echo peer a read cycle completes within `lat + 1`
polls per wait and samples the byte latched at the address on the address lines. -/
theorem echo_read_cycle (fuel : Nat) (s : State EchoState) (hw : s.peer.level WNR = 0)
    (hf : s.peer.lat + 1 ≤ fuel) :
    ∃ s1, read_cycle echoPeer fuel s = .ok () s1 ∧
      s1.bp_inst.data = s.peer.mem (bus_addr s.peer.level) % 256 ∧
      s1.peer.mem = s.peer.mem ∧ s1.peer.lat = s.peer.lat := by
  have hr : (release_data echoPeer s).peer.level WNR = 0 := by rw [echo_release_peer]; exact hw
  obtain ⟨s1, h1, hi1, hp1⟩ := echo_wait_high fuel
    (gpio_direction_output echoPeer REQ 1 (release_data echoPeer s))
    (by rw [echo_req_high_read _ hr])
    (by rw [echo_req_high_read _ hr, echo_release_peer]; exact hf)
  obtain ⟨hsd, hsp⟩ := echo_sample s1
  obtain ⟨s2, h2, hi2, hp2⟩ := echo_wait_low fuel
    (gpio_direction_output echoPeer REQ 0 (sample_data echoPeer s1))
    (by rw [echo_req_low])
    (by rw [echo_req_low, hsp, hp1, echo_req_high_read _ hr, echo_release_peer]; exact hf)
  refine ⟨s2, by simp [read_cycle, h1, h2], ?_, ?_, ?_⟩
  · rw [hi2, out_inst, hsd, hp1, echo_req_high_read _ hr, echo_release_peer]
  · rw [hp2, echo_req_low, hsp, hp1, echo_req_high_read _ hr, echo_release_peer]
  · rw [hp2, echo_req_low, hsp, hp1, echo_req_high_read _ hr, echo_release_peer]

/-! ### C2: round trip -/

/-- The samples the host takes from the latch-and-echo peer are the bits of the
byte the peer drives, DATA7 first; the peer is not changed by them. -/
theorem echo_sample_log (s : State EchoState) :
    (sample_data echoPeer s).log = s.log ++
      data_get_ops (bit_of s.peer.dout 7) (bit_of s.peer.dout 6) (bit_of s.peer.dout 5)
        (bit_of s.peer.dout 4) (bit_of s.peer.dout 3) (bit_of s.peer.dout 2)
        (bit_of s.peer.dout 1) (bit_of s.peer.dout 0) ∧
    (sample_data echoPeer s).bp_inst = { s.bp_inst with data :=
      (sample_byte (bit_of s.peer.dout 7) (bit_of s.peer.dout 6) (bit_of s.peer.dout 5)
        (bit_of s.peer.dout 4) (bit_of s.peer.dout 3) (bit_of s.peer.dout 2)
        (bit_of s.peer.dout 1) (bit_of s.peer.dout 0)) } := by
  refine ⟨?_, ?_⟩
  · simp [sample_data, gpio_get_value, echoPeer, echo_bit, ACK, DATA7, DATA6, DATA5, DATA4,
      DATA3, DATA2, DATA1, DATA0, data_get_ops, bit_of, Nat.shiftRight_eq_div_pow]
  · simp [sample_data, gpio_get_value, echoPeer, echo_bit, ACK, DATA7, DATA6, DATA5, DATA4,
      DATA3, DATA2, DATA1, DATA0, bit_of, Nat.shiftRight_eq_div_pow]

theorem sample_byte_of_bits (b : Nat) (hb : b < 256) :
    sample_byte (bit_of b 7) (bit_of b 6) (bit_of b 5) (bit_of b 4) (bit_of b 3) (bit_of b 2)
      (bit_of b 1) (bit_of b 0) = b := by
  have h : ∀ k, bit_of b k ≤ 1 := fun k => by unfold bit_of; omega
  rw [sample_byte_eq _ _ _ _ _ _ _ _ (h 7) (h 6) (h 5) (h 4) (h 3) (h 2) (h 1) (h 0)]
  simp only [bit_of]
  norm_num
  omega

/-- Against the latch-and-echo peer a read cycle completes within `lat + 1`
polls per wait; between the completed poll for ACK high and the fall of REQ its
log holds the eight samples, which are the bits of the byte latched at the
address on the address lines, and the held data byte is packed from them. -/
theorem echo_read_cycle_trace (fuel : Nat) (s : State EchoState) (hw : s.peer.level WNR = 0)
    (hf : s.peer.lat + 1 ≤ fuel) :
    ∃ s1 p1 p2, read_cycle echoPeer fuel s = .ok () s1 ∧
      polls_high p1 = true ∧ polls_low p2 = true ∧
      s1.log = s.log ++ (data_in_ops ++ Op.dirOut REQ 1 :: (p1 ++
        (data_get_ops (bit_of (s.peer.mem (bus_addr s.peer.level)) 7)
          (bit_of (s.peer.mem (bus_addr s.peer.level)) 6)
          (bit_of (s.peer.mem (bus_addr s.peer.level)) 5)
          (bit_of (s.peer.mem (bus_addr s.peer.level)) 4)
          (bit_of (s.peer.mem (bus_addr s.peer.level)) 3)
          (bit_of (s.peer.mem (bus_addr s.peer.level)) 2)
          (bit_of (s.peer.mem (bus_addr s.peer.level)) 1)
          (bit_of (s.peer.mem (bus_addr s.peer.level)) 0) ++ Op.dirOut REQ 0 :: p2))) ∧
      s1.bp_inst = { s.bp_inst with data :=
        (sample_byte (bit_of (s.peer.mem (bus_addr s.peer.level)) 7)
          (bit_of (s.peer.mem (bus_addr s.peer.level)) 6)
          (bit_of (s.peer.mem (bus_addr s.peer.level)) 5)
          (bit_of (s.peer.mem (bus_addr s.peer.level)) 4)
          (bit_of (s.peer.mem (bus_addr s.peer.level)) 3)
          (bit_of (s.peer.mem (bus_addr s.peer.level)) 2)
          (bit_of (s.peer.mem (bus_addr s.peer.level)) 1)
          (bit_of (s.peer.mem (bus_addr s.peer.level)) 0)) } ∧
      s1.peer.mem = s.peer.mem ∧ s1.peer.lat = s.peer.lat := by
  have hr : (release_data echoPeer s).peer.level WNR = 0 := by rw [echo_release_peer]; exact hw
  obtain ⟨s1, h1, hi1, hp1⟩ := echo_wait_high fuel
    (gpio_direction_output echoPeer REQ 1 (release_data echoPeer s))
    (by rw [echo_req_high_read _ hr])
    (by rw [echo_req_high_read _ hr, echo_release_peer]; exact hf)
  obtain ⟨p1, -, hl1, -, hok1, -⟩ :=
    wait_high_spec echoPeer fuel (gpio_direction_output echoPeer REQ 1 (release_data echoPeer s))
  rw [h1] at hl1 hok1
  obtain ⟨hsl, hsi⟩ := echo_sample_log s1
  obtain ⟨-, hsp⟩ := echo_sample s1
  obtain ⟨s2, h2, hi2, hp2⟩ := echo_wait_low fuel
    (gpio_direction_output echoPeer REQ 0 (sample_data echoPeer s1))
    (by rw [echo_req_low])
    (by rw [echo_req_low, hsp, hp1, echo_req_high_read _ hr, echo_release_peer]; exact hf)
  obtain ⟨p2, -, hl2, -, hok2, -⟩ :=
    wait_low_spec echoPeer fuel (gpio_direction_output echoPeer REQ 0 (sample_data echoPeer s1))
  rw [h2] at hl2 hok2
  have hd : s1.peer.dout = s.peer.mem (bus_addr s.peer.level) := by
    rw [hp1, echo_req_high_read _ hr, echo_release_peer]
  rw [hd] at hsl hsi
  simp only [state_ok, release_out_log, out_log] at hl1 hl2
  refine ⟨s2, p1, p2, by simp [read_cycle, h1, h2], by simpa using hok1 rfl,
    by simpa using hok2 rfl, ?_, ?_, ?_, ?_⟩
  · simp only [hl2, hsl, hl1, release_data_log, List.append_assoc, List.singleton_append,
      List.cons_append, List.nil_append]
  · rw [hi2, out_inst, hsi, hi1, out_inst, release_data_inst]
  · rw [hp2, echo_req_low, hsp, hp1, echo_req_high_read _ hr, echo_release_peer]
  · rw [hp2, echo_req_low, hsp, hp1, echo_req_high_read _ hr, echo_release_peer]

/-- A Write call of one instruction against the latch-and-echo peer returns 3
and leaves the data byte latched at the address. -/
theorem echo_write_call (a : Arch) (fuel : Nat) (s : State EchoState) (ow addr value : Nat)
    (hw : ow % 2 = 1) (ha : addr < 256) (hv : value < 256) (hf : s.peer.lat + 1 ≤ fuel) :
    ∃ s1, backplane_write echoPeer a fuel true true [ow, addr, value] s = .ok 3 s1 ∧
      s1.peer.mem = set_level s.peer.mem addr value ∧ s1.peer.lat = s.peer.lat := by
  obtain ⟨hw1, ha1, hm1, hl1⟩ := echo_after_addr ow addr s
  obtain ⟨hw2, ha2, hd2, hm2, hl2⟩ :=
    echo_after_data value (drive_addr echoPeer addr (drive_opcode echoPeer ow s))
  obtain ⟨s1, e1, -, hmem1, hlat1⟩ := echo_write_handshake fuel
    (drive_data echoPeer value (drive_addr echoPeer addr (drive_opcode echoPeer ow s)))
    (by rw [hw2, hw1, hw]; decide) (by rw [hl2, hl1]; exact hf)
  rw [ha2, ha1, hd2, hm2, hm1, Nat.mod_eq_of_lt ha, Nat.mod_eq_of_lt hv] at hmem1
  rw [hl2, hl1] at hlat1
  refine ⟨s1, ?_, hmem1, hlat1⟩
  rw [backplane_write_eq_exec echoPeer a fuel _ s (by simp [INT_MAX]) (by simp),
    exec_stream_odd echoPeer fuel ow addr value [] s hw]
  simp only [write_cycle] at *
  rw [e1]
  simp [exec_stream, Res.setVal]

/-- A Read call of one instruction against the latch-and-echo peer returns 2; its
log is the drive of WNR and of the address, the data lines made inputs, the rise
of REQ, a completed poll, the eight samples, which are the bits of the byte `v`
latched at the address, the fall of REQ and a completed poll; the held data byte
is packed from the samples. -/
theorem echo_read_call (a : Arch) (fuel : Nat) (s : State EchoState) (ord addr v : Nat)
    (hr : ord % 2 = 0) (ha : addr < 256) (hm : s.peer.mem addr = v)
    (hf : s.peer.lat + 1 ≤ fuel) :
    ∃ s2 p1 p2, backplane_write echoPeer a fuel true true [ord, addr] s = .ok 2 s2 ∧
      polls_high p1 = true ∧ polls_low p2 = true ∧
      s2.log = s.log ++ (Op.dirOut WNR 0 :: (addr_ops addr ++ (data_in_ops ++
        Op.dirOut REQ 1 :: (p1 ++ (data_get_ops (bit_of v 7) (bit_of v 6) (bit_of v 5)
          (bit_of v 4) (bit_of v 3) (bit_of v 2) (bit_of v 1) (bit_of v 0) ++
            Op.dirOut REQ 0 :: p2))))) ∧
      s2.bp_inst.data = sample_byte (bit_of v 7) (bit_of v 6) (bit_of v 5) (bit_of v 4)
        (bit_of v 3) (bit_of v 2) (bit_of v 1) (bit_of v 0) := by
  obtain ⟨hw3, ha3, hm3, hl3⟩ := echo_after_addr ord addr s
  obtain ⟨s2, p1, p2, e2, hp1, hp2, hlog, hinst, -, -⟩ := echo_read_cycle_trace fuel
    (drive_addr echoPeer addr (drive_opcode echoPeer ord s))
    (by rw [hw3, hr]) (by rw [hl3]; exact hf)
  rw [ha3, hm3, Nat.mod_eq_of_lt ha, hm] at hlog hinst
  refine ⟨s2, p1, p2, ?_, hp1, hp2, ?_, ?_⟩
  · rw [backplane_write_eq_exec echoPeer a fuel _ s (by simp [INT_MAX]) (by simp),
      exec_stream_even echoPeer fuel ord addr [] s hr, e2]
    simp [exec_stream, Res.setVal]
  · have hb : bit_of ord 0 = 0 := by simp [bit_of, hr]
    rw [hlog, drive_addr_log, drive_opcode_log, hb]
    simp only [List.append_assoc, List.singleton_append, List.cons_append, List.nil_append]
  · rw [hinst]

/-- C2 (round trip). Against the latch-and-echo peer in any state, with any
latency and a polling budget above it, for every address and value below 256,
every Write opcode `ow` (bit 0 set) and Read opcode `ord` (bit 0 clear):
`backplane_write` on `[ow, addr, value]` returns 3 and leaves `value` latched in
the peer at `addr`; `backplane_write` on `[ord, addr]` then returns 2, and the
eight samples it takes between the completed poll for ACK high and the fall of
REQ are the bits of `value`, DATA7 first, so that the sampled byte
`bp_inst.data` is `value`; the hand-back by `backplane_read` has `value` at
position 0. The result comes from the samples and not from the byte the Write
call left in `bp_inst.data`: it is the same whatever record `held` is in
`bp_inst` when the Read call starts. -/
theorem round_trip (a : Arch) (fuel : Nat) (s : State EchoState) (ow ord addr value : Nat)
    (hw : ow % 2 = 1) (hr : ord % 2 = 0) (ha : addr < 256) (hv : value < 256)
    (hf : s.peer.lat + 1 ≤ fuel) :
    ∃ s1 s2, backplane_write echoPeer a fuel true true [ow, addr, value] s = .ok 3 s1 ∧
      backplane_write echoPeer a fuel true true [ord, addr] s1 = .ok 2 s2 ∧
      s2.bp_inst.data = value ∧
      (∀ (b0 : Nat) (rest : List Nat),
        backplane_read (some (b0 :: rest)) true s2
          = .ok (((rest.length + 1 : Nat) : Int), some (value :: rest)) s2) ∧
      s1.peer.mem addr = value ∧
      (∃ p1 p2, polls_high p1 = true ∧ polls_low p2 = true ∧
        s2.log = s1.log ++ (Op.dirOut WNR 0 :: (addr_ops addr ++ (data_in_ops ++
          Op.dirOut REQ 1 :: (p1 ++ (data_get_ops (bit_of value 7) (bit_of value 6)
            (bit_of value 5) (bit_of value 4) (bit_of value 3) (bit_of value 2)
            (bit_of value 1) (bit_of value 0) ++ Op.dirOut REQ 0 :: p2)))))) ∧
      ∀ held : backplane_instructions,
        ∃ s3, backplane_write echoPeer a fuel true true [ord, addr] { s1 with bp_inst := held }
            = .ok 2 s3 ∧
          s3.bp_inst.data = value ∧
          ∀ (b0 : Nat) (rest : List Nat),
            backplane_read (some (b0 :: rest)) true s3
              = .ok (((rest.length + 1 : Nat) : Int), some (value :: rest)) s3 := by
  obtain ⟨s1, e1, hmem1, hlat1⟩ := echo_write_call a fuel s ow addr value hw ha hv hf
  have hm : s1.peer.mem addr = value := by rw [hmem1]; simp [set_level]
  obtain ⟨s2, p1, p2, e2, hp1, hp2, hlog, hdat⟩ :=
    echo_read_call a fuel s1 ord addr value hr ha hm (by rw [hlat1]; exact hf)
  rw [sample_byte_of_bits value hv] at hdat
  refine ⟨s1, s2, e1, e2, hdat, ?_, hm, ⟨p1, p2, hp1, hp2, hlog⟩, ?_⟩
  · intro b0 rest
    simp [backplane_read, hdat]
  · intro held
    obtain ⟨s3, -, -, e3, -, -, -, hdat3⟩ :=
      echo_read_call a fuel { s1 with bp_inst := held } ord addr value hr ha hm
        (by rw [hlat1]; exact hf)
    rw [sample_byte_of_bits value hv] at hdat3
    refine ⟨s3, e3, hdat3, ?_⟩
    intro b0 rest
    simp [backplane_read, hdat3]

/-- Witness for C2: address 0x42 and value 0x99 against a peer of latency 2. -/
theorem round_trip_witness :
    ∃ s1 s2, backplane_write echoPeer Arch.ilp32 3 true true [1, 0x42, 0x99]
        (echoStart 2 0 (fun _ => 0)) = .ok 3 s1 ∧
      backplane_write echoPeer Arch.ilp32 3 true true [0, 0x42] s1 = .ok 2 s2 ∧
      s2.bp_inst.data = 0x99 ∧
      (∀ (b0 : Nat) (rest : List Nat),
        backplane_read (some (b0 :: rest)) true s2
          = .ok (((rest.length + 1 : Nat) : Int), some (0x99 :: rest)) s2) ∧
      s1.peer.mem 0x42 = 0x99 ∧
      (∃ p1 p2, polls_high p1 = true ∧ polls_low p2 = true ∧
        s2.log = s1.log ++ (Op.dirOut WNR 0 :: (addr_ops 0x42 ++ (data_in_ops ++
          Op.dirOut REQ 1 :: (p1 ++ (data_get_ops (bit_of 0x99 7) (bit_of 0x99 6)
            (bit_of 0x99 5) (bit_of 0x99 4) (bit_of 0x99 3) (bit_of 0x99 2)
            (bit_of 0x99 1) (bit_of 0x99 0) ++ Op.dirOut REQ 0 :: p2)))))) ∧
      ∀ held : backplane_instructions,
        ∃ s3, backplane_write echoPeer Arch.ilp32 3 true true [0, 0x42]
            { s1 with bp_inst := held } = .ok 2 s3 ∧
          s3.bp_inst.data = 0x99 ∧
          ∀ (b0 : Nat) (rest : List Nat),
            backplane_read (some (b0 :: rest)) true s3
              = .ok (((rest.length + 1 : Nat) : Int), some (0x99 :: rest)) s3 :=
  round_trip Arch.ilp32 3 (echoStart 2 0 (fun _ => 0)) 1 0 0x42 0x99
    (by decide) (by decide) (by decide) (by decide) (by decide)

/-- Witness for C4: the stream `[0, 5]` against the latch-and-echo peer with
latency 1 that holds 0x3C at address 5. -/
theorem read_cycle_line_operations_witness :
    2 = 0 + 2 ∧
    ∃ p1 d7 d6 d5 d4 d3 d2 d1 d0 p2, polls_high p1 = true ∧ polls_low p2 = true ∧
      (loop_body echoPeer Arch.lp64 3 [0, 5] 0
        (echoStart 1 0 (fun x => if x = 5 then 0x3C else 0))).state.log
        = (echoStart 1 0 (fun x => if x = 5 then 0x3C else 0)).log ++
          (Op.dirOut WNR 0 :: (addr_ops 5 ++ (data_in_ops ++
            Op.dirOut REQ 1 :: (p1 ++ (data_get_ops d7 d6 d5 d4 d3 d2 d1 d0 ++
              Op.dirOut REQ 0 :: p2))))) ∧
      (loop_body echoPeer Arch.lp64 3 [0, 5] 0
        (echoStart 1 0 (fun x => if x = 5 then 0x3C else 0))).state.bp_inst
        = { opcode := 0, addr := 5 % 256, data := sample_byte d7 d6 d5 d4 d3 d2 d1 d0 } ∧
      (loop_body echoPeer Arch.lp64 3 [0, 5] 0
        (echoStart 1 0 (fun x => if x = 5 then 0x3C else 0))).state.bp_inst.data < 256 ∧
      (d7 ≤ 1 ∧ d6 ≤ 1 ∧ d5 ≤ 1 ∧ d4 ≤ 1 ∧ d3 ≤ 1 ∧ d2 ≤ 1 ∧ d1 ≤ 1 ∧ d0 ≤ 1 →
        bit_of (loop_body echoPeer Arch.lp64 3 [0, 5] 0
          (echoStart 1 0 (fun x => if x = 5 then 0x3C else 0))).state.bp_inst.data 7 = d7 ∧
        bit_of (loop_body echoPeer Arch.lp64 3 [0, 5] 0
          (echoStart 1 0 (fun x => if x = 5 then 0x3C else 0))).state.bp_inst.data 6 = d6 ∧
        bit_of (loop_body echoPeer Arch.lp64 3 [0, 5] 0
          (echoStart 1 0 (fun x => if x = 5 then 0x3C else 0))).state.bp_inst.data 5 = d5 ∧
        bit_of (loop_body echoPeer Arch.lp64 3 [0, 5] 0
          (echoStart 1 0 (fun x => if x = 5 then 0x3C else 0))).state.bp_inst.data 4 = d4 ∧
        bit_of (loop_body echoPeer Arch.lp64 3 [0, 5] 0
          (echoStart 1 0 (fun x => if x = 5 then 0x3C else 0))).state.bp_inst.data 3 = d3 ∧
        bit_of (loop_body echoPeer Arch.lp64 3 [0, 5] 0
          (echoStart 1 0 (fun x => if x = 5 then 0x3C else 0))).state.bp_inst.data 2 = d2 ∧
        bit_of (loop_body echoPeer Arch.lp64 3 [0, 5] 0
          (echoStart 1 0 (fun x => if x = 5 then 0x3C else 0))).state.bp_inst.data 1 = d1 ∧
        bit_of (loop_body echoPeer Arch.lp64 3 [0, 5] 0
          (echoStart 1 0 (fun x => if x = 5 then 0x3C else 0))).state.bp_inst.data 0 = d0) :=
  read_cycle_line_operations echoPeer Arch.lp64 3 [0, 5] 0 0 5 2
    (echoStart 1 0 (fun x => if x = 5 then 0x3C else 0))
    (loop_body echoPeer Arch.lp64 3 [0, 5] 0
      (echoStart 1 0 (fun x => if x = 5 then 0x3C else 0))).state
    rfl rfl rfl rfl

/-! ### C5: handshake phase ordering -/

theorem mon_run_append (m : Mon) (l1 l2 : List Op) :
    mon_run m (l1 ++ l2) = (mon_run m l1).bind (fun m1 => mon_run m1 l2) := by
  induction l1 generalizing m with
  | nil => simp [mon_run]
  | cons op l ih =>
    simp only [List.cons_append, mon_run]
    cases mon_step m op with
    | none => simp
    | some m1 => simpa using ih m1

theorem mon_wnr_addr (m : Mon) (b ad : Nat) :
    mon_run m (Op.dirOut WNR b :: addr_ops ad) = some { m with wnr := b } := by
  simp [mon_run, mon_step, addr_ops, data_lines, REQ, WNR, ADDR7, ADDR6, ADDR5, ADDR4, ADDR3,
    ADDR2, ADDR1, ADDR0, DATA7, DATA6, DATA5, DATA4, DATA3, DATA2, DATA1, DATA0]

theorem mon_wnr (m : Mon) (b : Nat) :
    mon_run m [Op.dirOut WNR b] = some { m with wnr := b } := by
  simp [mon_run, mon_step, REQ, WNR]

theorem mon_data_out (m : Mon) (d : Nat) :
    mon_run m (data_out_ops d)
      = some { m with driven := DATA0 :: DATA1 :: DATA2 :: DATA3 :: DATA4 :: DATA5 :: DATA6 ::
          DATA7 :: m.driven } := by
  simp [mon_run, mon_step, data_out_ops, data_lines, REQ, WNR, DATA7, DATA6, DATA5, DATA4,
    DATA3, DATA2, DATA1, DATA0]

theorem mon_data_in (m : Mon) (h : m.driven = []) : mon_run m data_in_ops = some m := by
  cases m
  simp_all [mon_run, mon_step, data_in_ops]

theorem mon_acks (p : List Op) (hp : ack_reads p = true) (m : Mon) :
    mon_run m p = some { m with acked := m.acked || (m.req && p.any reads_high) } := by
  induction p generalizing m with
  | nil => simp [mon_run]
  | cons op l ih =>
    have h1 : is_ack_read op = true := by simp [ack_reads] at hp; exact hp.1
    have h2 : ack_reads l = true := by simp [ack_reads] at hp ⊢; exact hp.2
    cases op with
    | dirOut x v => simp [is_ack_read] at h1
    | dirIn x => simp [is_ack_read] at h1
    | get x v =>
      have hx : x = ACK := by simpa [is_ack_read] using h1
      subst hx
      simp only [mon_run, mon_step, if_true]
      rw [ih h2]
      by_cases hv : v = 0 <;> cases hr : m.req <;> simp [hv, hr, reads_high]

theorem polls_high_any (p : List Op) (h : polls_high p = true) : p.any reads_high = true := by
  simp only [polls_high, Bool.and_eq_true] at h
  cases hl : p.getLast? with
  | none => simp [hl] at h
  | some x =>
    have hx : reads_high x = true := by simpa [hl] using h.2
    exact List.any_eq_true.mpr ⟨x, List.mem_of_getLast?_eq_some hl, hx⟩

theorem mon_data_get (m : Mon) (d7 d6 d5 d4 d3 d2 d1 d0 : Nat) (hr : m.req = true)
    (ha : m.acked = true) :
    mon_run m (data_get_ops d7 d6 d5 d4 d3 d2 d1 d0)
      = some { m with sampled := DATA0 :: DATA1 :: DATA2 :: DATA3 :: DATA4 :: DATA5 :: DATA6 ::
          DATA7 :: m.sampled } := by
  simp [mon_run, mon_step, data_get_ops, data_lines, hr, ha, ACK, DATA7, DATA6, DATA5, DATA4,
    DATA3, DATA2, DATA1, DATA0]

theorem mon_idle_iff (m : Mon) :
    mon_idle m = true ↔ m.req = false ∧ m.acked = false ∧ m.driven = [] ∧ m.sampled = [] := by
  simp [mon_idle, and_assoc]

theorem mon_then (m m1 : Mon) (l1 l2 : List Op) (h : mon_run m l1 = some m1) :
    mon_run m (l1 ++ l2) = mon_run m1 l2 := by
  rw [mon_run_append, h]; rfl

theorem mon_req_high (m : Mon) (l : List Op) :
    mon_run m (Op.dirOut REQ 1 :: l)
      = mon_run { m with req := true, acked := false, sampled := [] } l := by
  simp [mon_run, mon_step]

theorem mon_req_low_write (m : Mon) (l : List Op) (hr : m.req = true) (hw : m.wnr ≠ 0)
    (hd : data_lines.all (fun x => decide (x ∈ m.driven)) = true) :
    mon_run m (Op.dirOut REQ 0 :: l)
      = mon_run { m with req := false, acked := false, driven := [], sampled := [] } l := by
  have hc : (m.wnr = 0 ∧ data_lines.all (fun x => decide (x ∈ m.sampled)) = true) ∨
      (m.wnr ≠ 0 ∧ data_lines.all (fun x => decide (x ∈ m.driven)) = true) := Or.inr ⟨hw, hd⟩
  simp only [mon_run, mon_step, if_true, ne_eq, not_true_eq_false, if_false, hr,
    Bool.true_eq_false, if_pos hc]

theorem mon_req_low_read (m : Mon) (l : List Op) (hr : m.req = true) (hw : m.wnr = 0)
    (hd : data_lines.all (fun x => decide (x ∈ m.sampled)) = true) :
    mon_run m (Op.dirOut REQ 0 :: l)
      = mon_run { m with req := false, acked := false, driven := [], sampled := [] } l := by
  have hc : (m.wnr = 0 ∧ data_lines.all (fun x => decide (x ∈ m.sampled)) = true) ∨
      (m.wnr ≠ 0 ∧ data_lines.all (fun x => decide (x ∈ m.driven)) = true) := Or.inl ⟨hw, hd⟩
  simp only [mon_run, mon_step, if_true, ne_eq, not_true_eq_false, if_false, hr,
    Bool.true_eq_false, if_pos hc]

theorem all_data_lines_mem (l : List Nat) :
    data_lines.all (fun x => decide (x ∈ DATA0 :: DATA1 :: DATA2 :: DATA3 :: DATA4 :: DATA5 ::
      DATA6 :: DATA7 :: l)) = true := by
  simp [data_lines]

theorem mon_data_out_then (m : Mon) (d : Nat) (l : List Op) :
    mon_run m (data_out_ops d ++ l)
      = mon_run { m with driven := DATA0 :: DATA1 :: DATA2 :: DATA3 :: DATA4 :: DATA5 ::
          DATA6 :: DATA7 :: m.driven } l :=
  mon_then _ _ _ _ (mon_data_out m d)

theorem mon_data_in_then (m : Mon) (l : List Op) (h : m.driven = []) :
    mon_run m (data_in_ops ++ l) = mon_run m l :=
  mon_then _ _ _ _ (mon_data_in m h)

theorem mon_acks_then (p : List Op) (hp : ack_reads p = true) (m : Mon) (l : List Op) :
    mon_run m (p ++ l)
      = mon_run { m with acked := m.acked || (m.req && p.any reads_high) } l :=
  mon_then _ _ _ _ (mon_acks p hp m)

theorem mon_data_get_then (m : Mon) (d7 d6 d5 d4 d3 d2 d1 d0 : Nat) (l : List Op)
    (hr : m.req = true) (ha : m.acked = true) :
    mon_run m (data_get_ops d7 d6 d5 d4 d3 d2 d1 d0 ++ l)
      = mon_run { m with sampled := DATA0 :: DATA1 :: DATA2 :: DATA3 :: DATA4 :: DATA5 ::
          DATA6 :: DATA7 :: m.sampled } l :=
  mon_then _ _ _ _ (mon_data_get m d7 d6 d5 d4 d3 d2 d1 d0 hr ha)

/-- The write branch, in every outcome, extends the log by operations the
monitor accepts from a state in which WNR is high. -/
theorem write_cycle_accepts (P : Peer σ) (fuel d : Nat) (s : State σ) :
    ∃ ops, (write_cycle P fuel d s).state.log = s.log ++ ops ∧
      ∀ m : Mon, m.wnr ≠ 0 → ∃ m1, mon_run m ops = some m1 ∧
        ((write_cycle P fuel d s).isOk = true → mon_idle m1 = true) := by
  obtain ⟨-, -, p1, hp1, h⟩ := write_cycle_spec P fuel d s
  rcases h with ⟨hno, hl⟩ | ⟨hh, p2, hp2, hl, -⟩
  · refine ⟨_, hl, fun m hw => ?_⟩
    rw [mon_data_out_then, mon_req_high, mon_acks p1 hp1]
    exact ⟨_, rfl, by simp [hno]⟩
  · refine ⟨_, hl, fun m hw => ?_⟩
    have ha := polls_high_any p1 hh
    rw [mon_data_out_then, mon_req_high, mon_acks_then p1 hp1, mon_req_low_write,
      mon_acks p2 hp2]
    · exact ⟨_, rfl, fun _ => by simp [mon_idle]⟩
    · rfl
    · exact hw
    · exact all_data_lines_mem _

/-- The read branch, in every outcome, extends the log by operations the
monitor accepts from an idle state in which WNR is low. -/
theorem read_cycle_accepts (P : Peer σ) (fuel : Nat) (s : State σ) :
    ∃ ops, (read_cycle P fuel s).state.log = s.log ++ ops ∧
      ∀ m : Mon, mon_idle m = true → m.wnr = 0 → ∃ m1, mon_run m ops = some m1 ∧
        ((read_cycle P fuel s).isOk = true → mon_idle m1 = true) := by
  obtain ⟨-, p1, hp1, h⟩ := read_cycle_spec P fuel s
  rcases h with ⟨hno, -, hl⟩ | ⟨hh, d7, d6, d5, d4, d3, d2, d1, d0, p2, hp2, hl, -, -⟩
  · refine ⟨_, hl, fun m hm hw => ?_⟩
    obtain ⟨-, -, h3, -⟩ := (mon_idle_iff m).mp hm
    rw [mon_data_in_then m _ h3, mon_req_high, mon_acks p1 hp1]
    exact ⟨_, rfl, by simp [hno]⟩
  · have ha := polls_high_any p1 hh
    refine ⟨_, hl, fun m hm hw => ?_⟩
    obtain ⟨-, -, h3, -⟩ := (mon_idle_iff m).mp hm
    rw [mon_data_in_then m _ h3, mon_req_high, mon_acks_then p1 hp1, mon_data_get_then,
      mon_req_low_read, mon_acks p2 hp2]
    · exact ⟨_, rfl, fun _ => by simp [mon_idle]⟩
    · rfl
    · exact hw
    · exact all_data_lines_mem _
    · rfl
    · simp [ha]

theorem mon_idle_wnr (m : Mon) (v : Nat) (h : mon_idle m = true) :
    mon_idle { m with wnr := v } = true := by
  simpa [mon_idle] using h

/-- The branch after opcode and address, in every outcome, extends the log by
operations the monitor accepts when WNR carries the opcode bit. -/
theorem dispatch_accepts (P : Peer σ) (a : Arch) (fuel : Nat) (data : List Nat) (i : Nat)
    (s : State σ) :
    ∃ ops, (dispatch P a fuel data i s).state.log = s.log ++ ops ∧
      ∀ m : Mon, mon_idle m = true → m.wnr = s.bp_inst.opcode →
        ∃ m1, mon_run m ops = some m1 ∧
          ((dispatch P a fuel data i s).isOk = true → mon_idle m1 = true) := by
  unfold dispatch
  split_ifs with h1 h2
  · cases hd : data[i]? with
    | none => exact ⟨[], by simp [Res.state], fun m hm _ => ⟨m, rfl, fun _ => hm⟩⟩
    | some b2 =>
      obtain ⟨ops, hl, hacc⟩ := write_cycle_accepts P fuel b2 s
      refine ⟨ops, ?_, fun m _ hw => ?_⟩
      · cases hc : write_cycle P fuel b2 s <;> simp [hc, Res.state] at hl ⊢ <;> exact hl
      · obtain ⟨m1, hr, hok⟩ := hacc m (by rw [hw]; exact h1.1)
        refine ⟨m1, hr, ?_⟩
        cases hc : write_cycle P fuel b2 s <;> simp [hc, Res.isOk] at hok ⊢
        exact hok
  · obtain ⟨ops, hl, hacc⟩ := read_cycle_accepts P fuel s
    refine ⟨ops, ?_, fun m hm hw => ?_⟩
    · cases hc : read_cycle P fuel s <;> simp [hc, Res.state] at hl ⊢ <;> exact hl
    · obtain ⟨m1, hr, hok⟩ := hacc m hm (by rw [hw]; exact h2)
      refine ⟨m1, hr, ?_⟩
      cases hc : read_cycle P fuel s <;> simp [hc, Res.isOk] at hok ⊢
      exact hok
  · exact ⟨[], by simp [Res.state], fun m hm _ => ⟨m, rfl, fun _ => hm⟩⟩

/-- One iteration of the decode loop, in every outcome, extends the log by
operations the monitor accepts from an idle state, and leaves it idle when the
iteration completes. -/
theorem loop_body_accepts (P : Peer σ) (a : Arch) (fuel : Nat) (data : List Nat) (i : Nat)
    (s : State σ) :
    ∃ ops, (loop_body P a fuel data i s).state.log = s.log ++ ops ∧
      Accepts ops (loop_body P a fuel data i s).isOk := by
  unfold loop_body
  cases h0 : data[i]? with
  | none => exact ⟨[], by simp [Res.state], fun m hm => ⟨m, rfl, fun _ => hm⟩⟩
  | some b0 =>
    cases h1 : data[i + 1]? with
    | none =>
      refine ⟨[Op.dirOut WNR (bit_of b0 0)], by simp [Res.state, drive_opcode_log],
        fun m _ => ⟨_, mon_wnr m _, by simp [Res.isOk]⟩⟩
    | some b1 =>
      simp only []
      have hop : (drive_addr P b1 (drive_opcode P b0 s)).bp_inst.opcode = bit_of b0 0 := by
        simp [drive_addr_inst, drive_opcode_inst]
      have hlog : (drive_addr P b1 (drive_opcode P b0 s)).log
          = s.log ++ (Op.dirOut WNR (bit_of b0 0) :: addr_ops b1) := by
        simp only [drive_addr_log, drive_opcode_log, List.append_assoc, List.singleton_append]
      obtain ⟨ops, hl, hacc⟩ := dispatch_accepts P a fuel data (i + 2)
        (drive_addr P b1 (drive_opcode P b0 s))
      refine ⟨(Op.dirOut WNR (bit_of b0 0) :: addr_ops b1) ++ ops, ?_, fun m hm => ?_⟩
      · rw [hl, hlog, List.append_assoc]
      · obtain ⟨m1, hr, hok⟩ := hacc { m with wnr := bit_of b0 0 } (mon_idle_wnr m _ hm)
          hop.symm
        exact ⟨m1, by rw [mon_then _ _ _ _ (mon_wnr_addr m _ _), hr], hok⟩

/-- The decode loop, in every outcome, extends the log by operations the
monitor accepts from an idle state. -/
theorem decode_loop_accepts (P : Peer σ) (a : Arch) (fuel : Nat) (data : List Nat) :
    ∀ (n i : Nat) (s : State σ),
      ∃ ops, (decode_loop P a fuel data n i s).state.log = s.log ++ ops ∧
        Accepts ops (decode_loop P a fuel data n i s).isOk := by
  intro n
  induction n with
  | zero =>
    intro i s
    refine ⟨[], ?_, fun m hm => ⟨m, rfl, fun _ => hm⟩⟩
    simp only [decode_loop]
    split_ifs <;> simp [Res.state]
  | succ n ih =>
    intro i s
    simp only [decode_loop]
    split_ifs with hg
    · obtain ⟨ops1, hl1, hacc1⟩ := loop_body_accepts P a fuel data i s
      cases hb : loop_body P a fuel data i s with
      | ok j s1 =>
        rw [hb] at hl1 hacc1
        obtain ⟨ops2, hl2, hacc2⟩ := ih j s1
        refine ⟨ops1 ++ ops2, ?_, fun m hm => ?_⟩
        · simp only [state_ok] at hl1
          rw [hl2, hl1, List.append_assoc]
        · obtain ⟨m1, hr1, hok1⟩ := hacc1 m hm
          obtain ⟨m2, hr2, hok2⟩ := hacc2 m1 (hok1 rfl)
          exact ⟨m2, by rw [mon_then _ _ _ _ hr1, hr2], hok2⟩
      | outOfFuel s1 =>
        rw [hb] at hl1 hacc1
        exact ⟨ops1, hl1, hacc1⟩
      | fault j s1 =>
        rw [hb] at hl1 hacc1
        exact ⟨ops1, hl1, hacc1⟩
    · exact ⟨[], by simp [Res.state], fun m hm => ⟨m, rfl, fun _ => hm⟩⟩

/-- C5 (handshake phase ordering). For every stream, every peer, every polling
budget and every outcome of `backplane_write` (completed, still waiting on ACK
when the budget ran out, or faulted), the log of line operations, read from a
start with REQ low, never violates the phase ordering checked by `mon_step`: a
data line is sampled only while REQ is asserted and after ACK was read non-zero
in that cycle, and REQ is deasserted only after all eight data lines were
sampled (Read cycle) or driven (Write cycle). -/
theorem handshake_phase_ordering (P : Peer σ) (a : Arch) (fuel : Nat)
    (kmallocOk copyOk : Bool) (buf : List Nat) (inst : backplane_instructions) (peer : σ) :
    ∃ m, mon_run mon_init
      (backplane_write P a fuel kmallocOk copyOk buf
        { bp_inst := inst, peer := peer, log := [] }).state.log = some m := by
  unfold backplane_write
  split_ifs
  · exact ⟨_, rfl⟩
  · exact ⟨_, rfl⟩
  · obtain ⟨ops, hl, hacc⟩ := decode_loop_accepts P a fuel buf (buf.length + 1) 0
      { bp_inst := inst, peer := peer, log := [] }
    obtain ⟨m1, hr, -⟩ := hacc mon_init rfl
    refine ⟨m1, ?_⟩
    cases hd : decode_loop P a fuel buf (buf.length + 1) 0
        { bp_inst := inst, peer := peer, log := [] } <;>
      simp [hd, Res.state] at hl ⊢ <;> rw [hl] <;> exact hr

/-- The monitor rejects a sample of a data line taken before ACK was read high,
a deassertion of REQ in a Read cycle before all data lines were sampled, and a
deassertion of REQ in a Write cycle before all data lines were driven. -/
theorem monitor_rejects :
    mon_run mon_init [Op.dirOut REQ 1, Op.get ACK 0, Op.get DATA7 1] = none ∧
    mon_run mon_init (Op.dirOut WNR 0 :: (data_in_ops ++
      [Op.dirOut REQ 1, Op.get ACK 1, Op.get DATA7 1, Op.dirOut REQ 0])) = none ∧
    mon_run mon_init [Op.dirOut WNR 1, Op.dirOut DATA7 1, Op.dirOut REQ 1, Op.get ACK 1,
      Op.dirOut REQ 0] = none := by
  decide

/-! ### C6: the transactions on the bus are the reference decode -/

theorem polls_high_acks (p : List Op) (h : polls_high p = true) : ack_reads p = true := by
  simp only [polls_high, Bool.and_eq_true] at h
  exact h.1

theorem polls_low_acks (p : List Op) (h : polls_low p = true) : ack_reads p = true := by
  simp only [polls_low, Bool.and_eq_true] at h
  exact h.1

theorem bus_txns_append (l1 l2 : List Op) (lv : Nat → Nat) :
    bus_txns lv (l1 ++ l2) = bus_txns lv l1 ++ bus_txns (levels_after lv l1) l2 := by
  induction l1 generalizing lv with
  | nil => rfl
  | cons op q ih =>
    cases op with
    | dirOut x v =>
      simp only [List.cons_append, bus_txns, levels_after]
      split_ifs <;> simp [ih]
    | dirIn x => simpa [bus_txns, levels_after] using ih lv
    | get x v => simpa [bus_txns, levels_after] using ih lv

theorem levels_after_append (l1 l2 : List Op) (lv : Nat → Nat) :
    levels_after lv (l1 ++ l2) = levels_after (levels_after lv l1) l2 := by
  induction l1 generalizing lv with
  | nil => rfl
  | cons op q ih => cases op <;> simp [levels_after, ih]

theorem bus_txns_acks (p : List Op) (hp : ack_reads p = true) (lv : Nat → Nat) :
    bus_txns lv p = [] ∧ levels_after lv p = lv := by
  induction p with
  | nil => exact ⟨rfl, rfl⟩
  | cons op q ih =>
    have h1 : is_ack_read op = true := by simp [ack_reads] at hp; exact hp.1
    have h2 : ack_reads q = true := by simp [ack_reads] at hp ⊢; exact hp.2
    cases op with
    | dirOut x v => simp [is_ack_read] at h1
    | dirIn x => simp [is_ack_read] at h1
    | get x v => simpa [bus_txns, levels_after] using ih h2

theorem bus_txns_data_in (lv : Nat → Nat) :
    bus_txns lv data_in_ops = [] ∧ levels_after lv data_in_ops = lv := by
  simp [data_in_ops, bus_txns, levels_after]

theorem bus_txns_data_get (lv : Nat → Nat) (d7 d6 d5 d4 d3 d2 d1 d0 : Nat) :
    bus_txns lv (data_get_ops d7 d6 d5 d4 d3 d2 d1 d0) = [] ∧
      levels_after lv (data_get_ops d7 d6 d5 d4 d3 d2 d1 d0) = lv := by
  simp [data_get_ops, bus_txns, levels_after]

/-- No transaction while WNR and the address bus are driven, and the levels
after it. -/
theorem bus_txns_wnr_addr (lv : Nat → Nat) (b ad : Nat) (ha : ad < 256) :
    bus_txns lv (Op.dirOut WNR b :: addr_ops ad) = [] ∧
    levels_after lv (Op.dirOut WNR b :: addr_ops ad) WNR = b ∧
    bus_addr (levels_after lv (Op.dirOut WNR b :: addr_ops ad)) = ad ∧
    bus_data (levels_after lv (Op.dirOut WNR b :: addr_ops ad)) = bus_data lv := by
  refine ⟨?_, ?_, ?_, ?_⟩
  · simp [addr_ops, bus_txns, REQ, WNR, ADDR7, ADDR6, ADDR5, ADDR4, ADDR3, ADDR2, ADDR1, ADDR0]
  · simp [addr_ops, levels_after, set_level, WNR, ADDR7, ADDR6, ADDR5, ADDR4, ADDR3, ADDR2,
      ADDR1, ADDR0]
  · simp only [addr_ops, levels_after, bus_addr, bus_byte, set_level, WNR, ADDR7, ADDR6, ADDR5,
      ADDR4, ADDR3, ADDR2, ADDR1, ADDR0, bit_of]
    norm_num
    omega
  · simp [addr_ops, levels_after, bus_data, bus_byte, set_level, WNR, ADDR7, ADDR6, ADDR5,
      ADDR4, ADDR3, ADDR2, ADDR1, ADDR0, DATA7, DATA6, DATA5, DATA4, DATA3, DATA2, DATA1, DATA0]

/-- No transaction while the data bus is driven, and the levels after it. -/
theorem bus_txns_data_out (lv : Nat → Nat) (d : Nat) (hd : d < 256) :
    bus_txns lv (data_out_ops d) = [] ∧
    levels_after lv (data_out_ops d) WNR = lv WNR ∧
    bus_addr (levels_after lv (data_out_ops d)) = bus_addr lv ∧
    bus_data (levels_after lv (data_out_ops d)) = d := by
  refine ⟨?_, ?_, ?_, ?_⟩
  · simp [data_out_ops, bus_txns, REQ, DATA7, DATA6, DATA5, DATA4, DATA3, DATA2, DATA1, DATA0]
  · simp [data_out_ops, levels_after, set_level, WNR, DATA7, DATA6, DATA5, DATA4, DATA3, DATA2,
      DATA1, DATA0]
  · simp [data_out_ops, levels_after, bus_addr, bus_byte, set_level, ADDR7, ADDR6, ADDR5,
      ADDR4, ADDR3, ADDR2, ADDR1, ADDR0, DATA7, DATA6, DATA5, DATA4, DATA3, DATA2, DATA1, DATA0]
  · simp only [data_out_ops, levels_after, bus_data, bus_byte, set_level, DATA7, DATA6, DATA5,
      DATA4, DATA3, DATA2, DATA1, DATA0, bit_of]
    norm_num
    omega

/-- The handshake part of a cycle shows one transaction, read off the levels
before it. -/
theorem bus_txns_handshake (lv : Nat → Nat) (p1 mid p2 : List Op) (hp1 : ack_reads p1 = true)
    (hmid : bus_txns (set_level lv REQ 1) mid = [] ∧
      levels_after (set_level lv REQ 1) mid = set_level lv REQ 1)
    (hp2 : ack_reads p2 = true) :
    bus_txns lv (Op.dirOut REQ 1 :: (p1 ++ (mid ++ Op.dirOut REQ 0 :: p2)))
      = [if lv WNR ≠ 0 then Txn.write (bus_addr lv) (bus_data lv)
         else Txn.read (bus_addr lv)] := by
  have e1 := bus_txns_acks p1 hp1 (set_level lv REQ 1)
  have e2 := fun l => bus_txns_acks p2 hp2 l
  simp only [bus_txns, true_and, ne_eq, one_ne_zero, not_false_eq_true, if_true,
    bus_txns_append, levels_after_append, e1.1, e1.2, hmid.1, hmid.2, List.nil_append,
    not_true_eq_false, and_false, if_false, (e2 _).1]

theorem bus_txns_write_ops (lv : Nat → Nat) (ad d : Nat) (p1 p2 : List Op) (ha : ad < 256)
    (hd : d < 256) (hp1 : ack_reads p1 = true) (hp2 : ack_reads p2 = true) :
    bus_txns lv (Op.dirOut WNR 1 :: (addr_ops ad ++ (data_out_ops d ++
      Op.dirOut REQ 1 :: (p1 ++ Op.dirOut REQ 0 :: p2)))) = [Txn.write ad d] := by
  obtain ⟨a1, a2, a3, a4⟩ := bus_txns_wnr_addr lv 1 ad ha
  obtain ⟨b1, b2, b3, b4⟩ :=
    bus_txns_data_out (levels_after lv (Op.dirOut WNR 1 :: addr_ops ad)) d hd
  have h := bus_txns_handshake
    (levels_after (levels_after lv (Op.dirOut WNR 1 :: addr_ops ad)) (data_out_ops d))
    p1 [] p2 hp1 ⟨rfl, rfl⟩ hp2
  rw [← List.cons_append, bus_txns_append, a1, bus_txns_append, b1]
  simp only [List.nil_append] at h ⊢
  rw [h, b2, a2, b3, a3, b4]
  simp

theorem bus_txns_read_ops (lv : Nat → Nat) (ad : Nat) (p1 p2 : List Op)
    (d7 d6 d5 d4 d3 d2 d1 d0 : Nat) (ha : ad < 256)
    (hp1 : ack_reads p1 = true) (hp2 : ack_reads p2 = true) :
    bus_txns lv (Op.dirOut WNR 0 :: (addr_ops ad ++ (data_in_ops ++
      Op.dirOut REQ 1 :: (p1 ++ (data_get_ops d7 d6 d5 d4 d3 d2 d1 d0 ++
        Op.dirOut REQ 0 :: p2))))) = [Txn.read ad] := by
  obtain ⟨a1, a2, a3, a4⟩ := bus_txns_wnr_addr lv 0 ad ha
  obtain ⟨b1, b2⟩ := bus_txns_data_in (levels_after lv (Op.dirOut WNR 0 :: addr_ops ad))
  have h := bus_txns_handshake (levels_after lv (Op.dirOut WNR 0 :: addr_ops ad))
    p1 (data_get_ops d7 d6 d5 d4 d3 d2 d1 d0) p2 hp1 (bus_txns_data_get _ _ _ _ _ _ _ _ _) hp2
  rw [← List.cons_append, bus_txns_append, a1, bus_txns_append, b1, b2]
  simp only [List.nil_append]
  rw [h, a2, a3]
  simp

/-- The transactions that the log of a completed run of `exec_stream` shows on
the bus are the reference decode of the stream. -/
theorem exec_stream_txns (P : Peer σ) (fuel : Nat) :
    ∀ (n : Nat) (buf : List Nat) (s s1 : State σ) (u : Unit), buf.length ≤ n →
      (∀ x ∈ buf, x < 256) → exec_stream P fuel buf s = .ok u s1 →
      ∃ ops, s1.log = s.log ++ ops ∧ ∀ lv, bus_txns lv ops = ref_decode buf := by
  intro n
  induction n with
  | zero =>
    intro buf s s1 u hn _ hrun
    have : buf = [] := List.length_eq_zero.mp (by omega)
    subst this
    simp only [exec_stream, Res.ok.injEq, true_and] at hrun
    subst hrun
    exact ⟨[], by simp, fun lv => rfl⟩
  | succ n ih =>
    intro buf s s1 u hn hb hrun
    match buf, hn, hb, hrun with
    | [], _, _, hrun =>
      simp only [exec_stream, Res.ok.injEq, true_and] at hrun
      subst hrun
      exact ⟨[], by simp, fun lv => rfl⟩
    | [x], _, _, hrun =>
      simp only [exec_stream, Res.ok.injEq, true_and] at hrun
      subst hrun
      exact ⟨[], by simp, fun lv => rfl⟩
    | o :: ad :: rest, hn, hb, hrun =>
      have hadlt : ad < 256 := hb ad (by simp)
      have hlog : (drive_addr P ad (drive_opcode P o s)).log
          = s.log ++ (Op.dirOut WNR (bit_of o 0) :: addr_ops ad) := by
        simp only [drive_addr_log, drive_opcode_log, List.append_assoc, List.singleton_append]
      rcases Nat.mod_two_eq_zero_or_one o with ho | ho
      · have hbit : bit_of o 0 = 0 := by simpa [bit_of] using ho
        rw [exec_stream_even P fuel o ad rest s ho] at hrun
        obtain ⟨-, p1, hp1, h⟩ := read_cycle_spec P fuel (drive_addr P ad (drive_opcode P o s))
        cases hc : read_cycle P fuel (drive_addr P ad (drive_opcode P o s)) with
        | ok v s2 =>
          rw [hc] at hrun h
          simp only [state_ok, Res.isOk] at h
          rcases h with ⟨hno, -⟩ | ⟨hh, d7, d6, d5, d4, d3, d2, d1, d0, p2, hp2, hl, -, -⟩
          · simp at hno
          · obtain ⟨ops2, hl2, ht2⟩ := ih rest s2 s1 u (by simp at hn ⊢; omega)
              (fun x hx => hb x (by simp [hx])) hrun
            refine ⟨(Op.dirOut WNR 0 :: (addr_ops ad ++ (data_in_ops ++
              Op.dirOut REQ 1 :: (p1 ++ (data_get_ops d7 d6 d5 d4 d3 d2 d1 d0 ++
                Op.dirOut REQ 0 :: p2))))) ++ ops2, ?_, fun lv => ?_⟩
            · rw [hl2, hl, hlog, hbit]
              simp only [List.append_assoc, List.cons_append]
            · rw [bus_txns_append, bus_txns_read_ops lv ad p1 p2 _ _ _ _ _ _ _ _ hadlt hp1 hp2,
                ht2]
              cases rest with
              | nil => simp [ref_decode, ho]
              | cons d tl => simp [ref_decode, ho]
        | outOfFuel s2 => rw [hc] at hrun; simp at hrun
        | fault j s2 => rw [hc] at hrun; simp at hrun
      · have hbit : bit_of o 0 = 1 := by simpa [bit_of] using ho
        cases rest with
        | nil =>
          rw [exec_stream_odd_end P fuel o ad s ho] at hrun
          simp only [Res.ok.injEq, true_and] at hrun
          subst hrun
          refine ⟨Op.dirOut WNR 1 :: addr_ops ad, by rw [hlog, hbit], fun lv => ?_⟩
          rw [(bus_txns_wnr_addr lv 1 ad hadlt).1]
          simp [ref_decode, ho]
        | cons d tl =>
          have hdlt : d < 256 := hb d (by simp)
          rw [exec_stream_odd P fuel o ad d tl s ho] at hrun
          obtain ⟨-, -, p1, hp1, h⟩ :=
            write_cycle_spec P fuel d (drive_addr P ad (drive_opcode P o s))
          cases hc : write_cycle P fuel d (drive_addr P ad (drive_opcode P o s)) with
          | ok v s2 =>
            rw [hc] at hrun h
            simp only [state_ok, Res.isOk] at h
            rcases h with ⟨hno, -⟩ | ⟨hh, p2, hp2, hl, -⟩
            · simp at hno
            · obtain ⟨ops2, hl2, ht2⟩ := ih tl s2 s1 u (by simp at hn ⊢; omega)
                (fun x hx => hb x (by simp [hx])) hrun
              refine ⟨(Op.dirOut WNR 1 :: (addr_ops ad ++ (data_out_ops d ++
                Op.dirOut REQ 1 :: (p1 ++ Op.dirOut REQ 0 :: p2)))) ++ ops2, ?_, fun lv => ?_⟩
              · rw [hl2, hl, hlog, hbit]
                simp only [List.append_assoc, List.cons_append]
              · rw [bus_txns_append, bus_txns_write_ops lv ad d p1 p2 hadlt hdlt hp1 hp2, ht2]
                simp [ref_decode, ho]
          | outOfFuel s2 => rw [hc] at hrun; simp at hrun
          | fault j s2 => rw [hc] at hrun; simp at hrun

theorem drive_opcode_mask (P : Peer σ) (o : Nat) (s : State σ) :
    drive_opcode P (o % 2) s = drive_opcode P o s := by
  simp [drive_opcode, Nat.and_one_is_mod]

/-- Clearing bits 1..7 of the opcode bytes changes neither the length of the
stream nor any outcome of its execution. -/
theorem exec_stream_mask (P : Peer σ) (fuel : Nat) :
    ∀ (n : Nat) (buf : List Nat) (s : State σ), buf.length ≤ n →
      (mask_opcodes buf).length = buf.length ∧
      exec_stream P fuel (mask_opcodes buf) s = exec_stream P fuel buf s := by
  intro n
  induction n with
  | zero =>
    intro buf s hn
    have : buf = [] := List.length_eq_zero.mp (by omega)
    subst this
    exact ⟨rfl, rfl⟩
  | succ n ih =>
    intro buf s hn
    match buf, hn with
    | [], _ => exact ⟨rfl, rfl⟩
    | [x], _ => exact ⟨rfl, rfl⟩
    | [o, ad], _ =>
      refine ⟨rfl, ?_⟩
      simp [mask_opcodes, exec_stream, drive_opcode_mask, Nat.and_one_is_mod]
    | o :: ad :: d :: tl, hn =>
      rcases Nat.mod_two_eq_zero_or_one o with ho | ho
      · have hm : mask_opcodes (o :: ad :: d :: tl) = (o % 2) :: ad :: mask_opcodes (d :: tl) := by
          simp [mask_opcodes, ho]
        have hi := fun s2 => ih (d :: tl) s2 (by simp at hn ⊢; omega)
        refine ⟨by rw [hm]; simp [(hi s).1], ?_⟩
        rw [hm, exec_stream_even P fuel (o % 2) ad _ s (by omega),
          exec_stream_even P fuel o ad _ s ho, drive_opcode_mask]
        cases read_cycle P fuel (drive_addr P ad (drive_opcode P o s)) with
        | ok v s2 => exact (hi s2).2
        | outOfFuel s2 => rfl
        | fault j s2 => rfl
      · have hm : mask_opcodes (o :: ad :: d :: tl) = (o % 2) :: ad :: d :: mask_opcodes tl := by
          simp [mask_opcodes, ho]
        have hi := fun s2 => ih tl s2 (by simp at hn ⊢; omega)
        refine ⟨by rw [hm]; simp [(hi s).1], ?_⟩
        rw [hm, exec_stream_odd P fuel (o % 2) ad d _ s (by omega),
          exec_stream_odd P fuel o ad d _ s ho, drive_opcode_mask]
        cases write_cycle P fuel d (drive_addr P ad (drive_opcode P o s)) with
        | ok v s2 => exact (hi s2).2
        | outOfFuel s2 => rfl
        | fault j s2 => rfl

/-- C6 (decoder correctness and order). For every stream of 1 to INT_MAX bytes
and every peer that completes each handshake (the call returns), the operations
that `backplane_write` appended to the log show on the bus, whatever the levels
were before, exactly the transactions of the reference decode of the stream, in
order: a transaction is an assertion of REQ, read off the levels on WNR, the
address lines and the data lines at that moment. Bits 1..7 of the opcode bytes
have no influence: the stream with those bits cleared gives the same outcome. -/
theorem decoder_correct (P : Peer σ) (a : Arch) (fuel : Nat) (buf : List Nat) (s s1 : State σ)
    (ret : Int) (hpos : 1 ≤ buf.length) (hlen : buf.length ≤ INT_MAX)
    (hb : ∀ x ∈ buf, x < 256)
    (hrun : backplane_write P a fuel true true buf s = .ok ret s1) :
    (∃ ops, s1.log = s.log ++ ops ∧ ∀ lv, bus_txns lv ops = ref_decode buf) ∧
    backplane_write P a fuel true true (mask_opcodes buf) s
      = backplane_write P a fuel true true buf s := by
  obtain ⟨hml, hme⟩ := exec_stream_mask P fuel buf.length buf s (le_refl _)
  refine ⟨?_, ?_⟩
  · rw [backplane_write_eq_exec P a fuel buf s hlen hpos] at hrun
    obtain ⟨-, u, hu⟩ := setVal_eq_ok _ _ _ _ hrun
    exact exec_stream_txns P fuel buf.length buf s s1 u (le_refl _) hb hu
  · rw [backplane_write_eq_exec P a fuel buf s hlen hpos,
      backplane_write_eq_exec P a fuel _ s (by rw [hml]; exact hlen) (by rw [hml]; exact hpos),
      hme, hml]

/-- Witness for C6: a stream with two Writes, two Reads and a lone trailing
byte, with opcode bytes 7 and 4 that carry bits above bit 0. -/
theorem decoder_correct_witness :
    (∃ ops, (backplane_write echoPeer Arch.lp64 3 true true
        [7, 1, 0xAA, 4, 1, 1, 2, 0x55, 0, 2, 1] (echoStart 1 0 (fun _ => 0))).state.log
          = (echoStart 1 0 (fun _ => 0)).log ++ ops ∧
        ∀ lv, bus_txns lv ops = ref_decode [7, 1, 0xAA, 4, 1, 1, 2, 0x55, 0, 2, 1]) ∧
    backplane_write echoPeer Arch.lp64 3 true true
        (mask_opcodes [7, 1, 0xAA, 4, 1, 1, 2, 0x55, 0, 2, 1]) (echoStart 1 0 (fun _ => 0))
      = backplane_write echoPeer Arch.lp64 3 true true
        [7, 1, 0xAA, 4, 1, 1, 2, 0x55, 0, 2, 1] (echoStart 1 0 (fun _ => 0)) :=
  decoder_correct echoPeer Arch.lp64 3 [7, 1, 0xAA, 4, 1, 1, 2, 0x55, 0, 2, 1]
    (echoStart 1 0 (fun _ => 0))
    (backplane_write echoPeer Arch.lp64 3 true true
      [7, 1, 0xAA, 4, 1, 1, 2, 0x55, 0, 2, 1] (echoStart 1 0 (fun _ => 0))).state
    11 (by decide) (by decide) (by decide) rfl

/-! ### C11: the hand-back path when the allocation fails -/

/-- C11 (allocation failure in `backplane_read`). When `kmalloc` returns NULL,
and also when it returns a buffer of length 0, `backplane_read` does not reach
its NULL test: the store `data[0] = bp_inst.data` of line 163 comes first and
is an access at index 0 of a buffer that is absent or empty. The `-ENOMEM` path
of lines 164-168 is never taken. -/
theorem read_store_before_null_test (copyOk : Bool) (s : State σ) :
    backplane_read none copyOk s = .fault 0 s ∧
    backplane_read (some []) copyOk s = .fault 0 s ∧
    (backplane_read none copyOk s).val? ≠ some (-ENOMEM, none) := by
  simp [backplane_read, Res.val?]

/-! ### C12: exclusivity -/

theorem sessions_invariant (cs : List Call) :
    ∀ st : Sessions, st.active = (if st.mutex = true then 1 else 0) →
      calls_ok st cs = true →
      (run_calls st cs).active = (if (run_calls st cs).mutex = true then 1 else 0) := by
  induction cs with
  | nil => intro st h _; exact h
  | cons c cs ih =>
    intro st h hok
    cases c with
    | acquire =>
      refine ih _ ?_ (by simpa [calls_ok] using hok)
      cases hm : st.mutex <;>
        simp [call_step, backplane_open, mutex_trylock, hm, h, SUCCESS, EBUSY]
    | release =>
      simp only [calls_ok, Bool.and_eq_true, decide_eq_true_eq] at hok
      refine ih _ ?_ hok.2
      cases hm : st.mutex
      · rw [h, hm] at hok; simp at hok
      · simp [call_step, backplane_release, mutex_unlock, h, hm]

theorem calls_ok_take (cs : List Call) :
    ∀ (st : Sessions) (k : Nat), calls_ok st cs = true → calls_ok st (cs.take k) = true := by
  induction cs with
  | nil => intro st k h; simp [calls_ok]
  | cons c cs ih =>
    intro st k h
    cases k with
    | zero => simp [calls_ok]
    | succ k =>
      cases c with
      | acquire => simpa [calls_ok] using ih _ k (by simpa [calls_ok] using h)
      | release =>
        simp only [calls_ok, Bool.and_eq_true, decide_eq_true_eq, List.take_succ_cons] at h ⊢
        exact ⟨h.1, ih _ k h.2⟩

/-- C12 (exclusivity). `backplane_open` on a held mutex returns `-EBUSY` (-16)
and leaves the mutex held; on a free mutex it returns 0 and the mutex is held;
after `backplane_release` of a held mutex a `backplane_open` returns 0. Along
every sequence of calls from the initial state in which each release is made
while a Session is active, after every number `k` of calls at most one Session
is active, and one is active exactly when the mutex is held. -/
theorem session_exclusive (cs : List Call) (k : Nat)
    (h : calls_ok sessions_init cs = true) :
    backplane_open true = (-16, true) ∧
    backplane_open false = (0, true) ∧
    backplane_open (backplane_release true).2 = (0, true) ∧
    (run_calls sessions_init (cs.take k)).active ≤ 1 ∧
    ((run_calls sessions_init (cs.take k)).active = 1 ↔
      (run_calls sessions_init (cs.take k)).mutex = true) := by
  have hi := sessions_invariant (cs.take k) sessions_init rfl
    (calls_ok_take cs sessions_init k h)
  refine ⟨by decide, by decide, by decide, ?_, ?_⟩
  · rw [hi]; split_ifs <;> simp
  · rw [hi]; split_ifs with hm <;> simp [hm]

/-- Witness for C12: open, a second open that is refused, release, open. -/
theorem session_exclusive_witness :
    backplane_open true = (-16, true) ∧
    backplane_open false = (0, true) ∧
    backplane_open (backplane_release true).2 = (0, true) ∧
    (run_calls sessions_init
      ([Call.acquire, Call.acquire, Call.release, Call.acquire].take 2)).active ≤ 1 ∧
    ((run_calls sessions_init
      ([Call.acquire, Call.acquire, Call.release, Call.acquire].take 2)).active = 1 ↔
      (run_calls sessions_init
        ([Call.acquire, Call.acquire, Call.release, Call.acquire].take 2)).mutex = true) :=
  session_exclusive [Call.acquire, Call.acquire, Call.release, Call.acquire] 2 (by decide)

/-! ### C15: MSB-first bus packing -/

theorem bit_of_le_one (x k : Nat) : bit_of x k ≤ 1 := by
  unfold bit_of
  omega

theorem byte_of_bit_of (b : Nat) (hb : b < 256) :
    bit_of b 7 * 128 + bit_of b 6 * 64 + bit_of b 5 * 32 + bit_of b 4 * 16 + bit_of b 3 * 8 +
      bit_of b 2 * 4 + bit_of b 1 * 2 + bit_of b 0 = b := by
  simp only [bit_of]
  norm_num
  omega

/-- C15 (MSB-first bus packing). For every byte `b` the drive of the address bus
appends to the log the drive of ADDR7 with bit 7 of `b` first, down to ADDR0 with
bit 0 last, and the drive of the data bus does the same on DATA7..DATA0. For
sampled levels `d7..d0` that are 0 or 1 the shift-and-add of the read cycle is
the sum of `d_k * 2^k`, equals the same computation done without truncation to
8 bits, and that value is below 256 (no overflow). Hence sampling the levels
driven for `b` gives `b` back. -/
theorem msb_first_packing (P : Peer σ) (s : State σ) (b d7 d6 d5 d4 d3 d2 d1 d0 : Nat)
    (hb : b < 256) (h7 : d7 ≤ 1) (h6 : d6 ≤ 1) (h5 : d5 ≤ 1) (h4 : d4 ≤ 1) (h3 : d3 ≤ 1)
    (h2 : d2 ≤ 1) (h1 : d1 ≤ 1) (h0 : d0 ≤ 1) :
    (drive_addr P b s).log = s.log ++
      [Op.dirOut ADDR7 (bit_of b 7), Op.dirOut ADDR6 (bit_of b 6), Op.dirOut ADDR5 (bit_of b 5),
       Op.dirOut ADDR4 (bit_of b 4), Op.dirOut ADDR3 (bit_of b 3), Op.dirOut ADDR2 (bit_of b 2),
       Op.dirOut ADDR1 (bit_of b 1), Op.dirOut ADDR0 (bit_of b 0)] ∧
    (drive_data P b s).log = s.log ++
      [Op.dirOut DATA7 (bit_of b 7), Op.dirOut DATA6 (bit_of b 6), Op.dirOut DATA5 (bit_of b 5),
       Op.dirOut DATA4 (bit_of b 4), Op.dirOut DATA3 (bit_of b 3), Op.dirOut DATA2 (bit_of b 2),
       Op.dirOut DATA1 (bit_of b 1), Op.dirOut DATA0 (bit_of b 0)] ∧
    sample_byte d7 d6 d5 d4 d3 d2 d1 d0
      = d7 * 2 ^ 7 + d6 * 2 ^ 6 + d5 * 2 ^ 5 + d4 * 2 ^ 4 + d3 * 2 ^ 3 + d2 * 2 ^ 2 + d1 * 2 ^ 1
        + d0 * 2 ^ 0 ∧
    sample_byte d7 d6 d5 d4 d3 d2 d1 d0 = sample_wide d7 d6 d5 d4 d3 d2 d1 d0 ∧
    sample_wide d7 d6 d5 d4 d3 d2 d1 d0 < 256 ∧
    sample_byte (bit_of b 7) (bit_of b 6) (bit_of b 5) (bit_of b 4) (bit_of b 3) (bit_of b 2)
      (bit_of b 1) (bit_of b 0) = b := by
  refine ⟨drive_addr_log P b s, drive_data_log P b s, ?_, ?_, ?_, ?_⟩
  · rw [sample_byte_eq d7 d6 d5 d4 d3 d2 d1 d0 h7 h6 h5 h4 h3 h2 h1 h0]; norm_num
  · rw [sample_byte_eq d7 d6 d5 d4 d3 d2 d1 d0 h7 h6 h5 h4 h3 h2 h1 h0]
    simp only [sample_wide]; omega
  · simp only [sample_wide]; omega
  · rw [sample_byte_eq _ _ _ _ _ _ _ _ (bit_of_le_one b 7) (bit_of_le_one b 6)
      (bit_of_le_one b 5) (bit_of_le_one b 4) (bit_of_le_one b 3) (bit_of_le_one b 2)
      (bit_of_le_one b 1) (bit_of_le_one b 0)]
    exact byte_of_bit_of b hb

/-- Witness for C15: the byte 0xA5 and the levels 1,0,1,0,0,1,0,1. -/
theorem msb_first_packing_witness :
    (drive_addr echoPeer 0xA5 (echoStart 0 0 (fun _ => 0))).log
      = (echoStart 0 0 (fun _ => 0)).log ++
      [Op.dirOut ADDR7 (bit_of 0xA5 7), Op.dirOut ADDR6 (bit_of 0xA5 6),
       Op.dirOut ADDR5 (bit_of 0xA5 5), Op.dirOut ADDR4 (bit_of 0xA5 4),
       Op.dirOut ADDR3 (bit_of 0xA5 3), Op.dirOut ADDR2 (bit_of 0xA5 2),
       Op.dirOut ADDR1 (bit_of 0xA5 1), Op.dirOut ADDR0 (bit_of 0xA5 0)] ∧
    (drive_data echoPeer 0xA5 (echoStart 0 0 (fun _ => 0))).log
      = (echoStart 0 0 (fun _ => 0)).log ++
      [Op.dirOut DATA7 (bit_of 0xA5 7), Op.dirOut DATA6 (bit_of 0xA5 6),
       Op.dirOut DATA5 (bit_of 0xA5 5), Op.dirOut DATA4 (bit_of 0xA5 4),
       Op.dirOut DATA3 (bit_of 0xA5 3), Op.dirOut DATA2 (bit_of 0xA5 2),
       Op.dirOut DATA1 (bit_of 0xA5 1), Op.dirOut DATA0 (bit_of 0xA5 0)] ∧
    sample_byte 1 0 1 0 0 1 0 1
      = 1 * 2 ^ 7 + 0 * 2 ^ 6 + 1 * 2 ^ 5 + 0 * 2 ^ 4 + 0 * 2 ^ 3 + 1 * 2 ^ 2 + 0 * 2 ^ 1
        + 1 * 2 ^ 0 ∧
    sample_byte 1 0 1 0 0 1 0 1 = sample_wide 1 0 1 0 0 1 0 1 ∧
    sample_wide 1 0 1 0 0 1 0 1 < 256 ∧
    sample_byte (bit_of 0xA5 7) (bit_of 0xA5 6) (bit_of 0xA5 5) (bit_of 0xA5 4) (bit_of 0xA5 3)
      (bit_of 0xA5 2) (bit_of 0xA5 1) (bit_of 0xA5 0) = 0xA5 :=
  msb_first_packing echoPeer (echoStart 0 0 (fun _ => 0)) 0xA5 1 0 1 0 0 1 0 1
    (by decide) (by decide) (by decide) (by decide) (by decide) (by decide) (by decide)
    (by decide) (by decide)

/-! ### C14: the value returned -/

theorem exec_stream_no_fault (P : Peer σ) (fuel : Nat) :
    ∀ (n : Nat) (buf : List Nat) (s : State σ), buf.length ≤ n →
      ∀ i s1, exec_stream P fuel buf s ≠ .fault i s1 := by
  intro n
  induction n with
  | zero =>
    intro buf s hn i s1
    have : buf = [] := List.length_eq_zero.mp (by omega)
    subst this
    simp [exec_stream]
  | succ n ih =>
    intro buf s hn i s1
    match buf, hn with
    | [], _ => simp [exec_stream]
    | [x], _ => simp [exec_stream]
    | o :: ad :: rest, hn =>
      rcases Nat.mod_two_eq_zero_or_one o with ho | ho
      · rw [exec_stream_even P fuel o ad rest s ho]
        have hf := (read_cycle_spec P fuel (drive_addr P ad (drive_opcode P o s))).1
        cases hc : read_cycle P fuel (drive_addr P ad (drive_opcode P o s)) with
        | ok v s2 => exact ih rest s2 (by simp at hn ⊢; omega) i s1
        | outOfFuel s2 => simp
        | fault j s2 => exact absurd hc (hf j s2)
      · cases rest with
        | nil => rw [exec_stream_odd_end P fuel o ad s ho]; simp
        | cons d tl =>
          rw [exec_stream_odd P fuel o ad d tl s ho]
          have hf := (write_cycle_spec P fuel d (drive_addr P ad (drive_opcode P o s))).2.1
          cases hc : write_cycle P fuel d (drive_addr P ad (drive_opcode P o s)) with
          | ok v s2 => exact ih tl s2 (by simp at hn ⊢; omega) i s1
          | outOfFuel s2 => simp
          | fault j s2 => exact absurd hc (hf j s2)

/-- Against the latch-and-echo peer every stream is executed to the end when
the polling budget is above the latency. -/
theorem echo_exec_stream_ok (fuel : Nat) :
    ∀ (n : Nat) (buf : List Nat) (s : State EchoState), buf.length ≤ n →
      s.peer.lat + 1 ≤ fuel →
      ∃ s1, exec_stream echoPeer fuel buf s = .ok () s1 ∧ s1.peer.lat = s.peer.lat := by
  intro n
  induction n with
  | zero =>
    intro buf s hn _
    have : buf = [] := List.length_eq_zero.mp (by omega)
    subst this
    exact ⟨s, by simp [exec_stream], rfl⟩
  | succ n ih =>
    intro buf s hn hf
    match buf, hn with
    | [], _ => exact ⟨s, by simp [exec_stream], rfl⟩
    | [x], _ => exact ⟨s, by simp [exec_stream], rfl⟩
    | o :: ad :: rest, hn =>
      obtain ⟨hw1, -, -, hl1⟩ := echo_after_addr o ad s
      rcases Nat.mod_two_eq_zero_or_one o with ho | ho
      · rw [exec_stream_even echoPeer fuel o ad rest s ho]
        obtain ⟨s2, e2, -, -, hl2⟩ := echo_read_cycle fuel
          (drive_addr echoPeer ad (drive_opcode echoPeer o s)) (by rw [hw1, ho])
          (by rw [hl1]; exact hf)
        rw [e2]
        obtain ⟨s1, e1, hl3⟩ := ih rest s2 (by simp at hn ⊢; omega) (by rw [hl2, hl1]; exact hf)
        exact ⟨s1, e1, by rw [hl3, hl2, hl1]⟩
      · cases rest with
        | nil =>
          rw [exec_stream_odd_end echoPeer fuel o ad s ho]
          exact ⟨_, rfl, hl1⟩
        | cons d tl =>
          rw [exec_stream_odd echoPeer fuel o ad d tl s ho]
          obtain ⟨hw2, -, -, -, hl2⟩ :=
            echo_after_data d (drive_addr echoPeer ad (drive_opcode echoPeer o s))
          obtain ⟨s2, e2, -, -, hl3⟩ := echo_write_handshake fuel
            (drive_data echoPeer d (drive_addr echoPeer ad (drive_opcode echoPeer o s)))
            (by rw [hw2, hw1, ho]; decide) (by rw [hl2, hl1]; exact hf)
          simp only [write_cycle]
          rw [e2]
          obtain ⟨s1, e1, hl4⟩ := ih tl s2 (by simp at hn ⊢; omega)
            (by rw [hl3, hl2, hl1]; exact hf)
          exact ⟨s1, e1, by rw [hl4, hl3, hl2, hl1]⟩

/-- C14 (return length). On the empty stream `backplane_write` does not return
the length 0: it faults on `data[0]` (the defect of C7). On every stream of 1 to
INT_MAX bytes, with allocation and copy succeeding: whenever the call returns,
it returns exactly the stream length, whatever the stream contains (Writes only,
a lone trailing byte, a Write opcode and address without data); it never faults,
so the only way not to return is a wait on ACK that the peer does not complete;
and against the latch-and-echo peer, which completes every handshake within its
latency, the call does return the stream length. -/
theorem return_length (P : Peer σ) (a : Arch) (fuel : Nat) (buf : List Nat) (s : State σ)
    (se : State EchoState) (hpos : 1 ≤ buf.length) (hlen : buf.length ≤ INT_MAX)
    (hf : se.peer.lat + 1 ≤ fuel) :
    backplane_write P a fuel true true [] s = .fault 0 s ∧
    (∀ ret s1, backplane_write P a fuel true true buf s = .ok ret s1 →
      ret = (buf.length : Int)) ∧
    (∀ i s1, backplane_write P a fuel true true buf s ≠ .fault i s1) ∧
    (∃ s1, backplane_write echoPeer a fuel true true buf se = .ok (buf.length : Int) s1) := by
  refine ⟨backplane_write_nil P a fuel s, ?_, ?_, ?_⟩
  · intro ret s1 h
    rw [backplane_write_eq_exec P a fuel buf s hlen hpos] at h
    exact (setVal_eq_ok _ _ _ _ h).1
  · intro i s1 h
    rw [backplane_write_eq_exec P a fuel buf s hlen hpos] at h
    cases hc : exec_stream P fuel buf s with
    | ok v s2 => simp [hc, Res.setVal] at h
    | outOfFuel s2 => simp [hc, Res.setVal] at h
    | fault j s2 => exact exec_stream_no_fault P fuel buf.length buf s (le_refl _) j s2 hc
  · obtain ⟨s1, e1, -⟩ := echo_exec_stream_ok fuel buf.length buf se (le_refl _) hf
    exact ⟨s1, by rw [backplane_write_eq_exec echoPeer a fuel buf se hlen hpos, e1]; rfl⟩

/-- Witness for C14: a stream of two Writes followed by a Write opcode and
address without data, against the latch-and-echo peer with latency 1. -/
theorem return_length_witness :
    backplane_write echoPeer Arch.lp64 2 true true [] (echoStart 1 0 (fun _ => 0))
      = .fault 0 (echoStart 1 0 (fun _ => 0)) ∧
    (∀ ret s1, backplane_write echoPeer Arch.lp64 2 true true [1, 1, 0xAA, 1, 2, 0x55, 1, 3]
        (echoStart 1 0 (fun _ => 0)) = .ok ret s1 →
      ret = (([1, 1, 0xAA, 1, 2, 0x55, 1, 3] : List Nat).length : Int)) ∧
    (∀ i s1, backplane_write echoPeer Arch.lp64 2 true true [1, 1, 0xAA, 1, 2, 0x55, 1, 3]
        (echoStart 1 0 (fun _ => 0)) ≠ .fault i s1) ∧
    (∃ s1, backplane_write echoPeer Arch.lp64 2 true true [1, 1, 0xAA, 1, 2, 0x55, 1, 3]
        (echoStart 1 0 (fun _ => 0))
      = .ok (([1, 1, 0xAA, 1, 2, 0x55, 1, 3] : List Nat).length : Int) s1) :=
  return_length echoPeer Arch.lp64 2 [1, 1, 0xAA, 1, 2, 0x55, 1, 3]
    (echoStart 1 0 (fun _ => 0)) (echoStart 1 0 (fun _ => 0)) (by decide) (by decide)
    (by decide)

/-! ### C16: the held data byte -/

theorem no_data_sample_append (p q : List Op) :
    no_data_sample (p ++ q) = (no_data_sample p && no_data_sample q) := by
  simp [no_data_sample]

theorem no_data_sample_acks (p : List Op) (hp : ack_reads p = true) :
    no_data_sample p = true := by
  induction p with
  | nil => rfl
  | cons op q ih =>
    have h1 : is_ack_read op = true := by simp [ack_reads] at hp; exact hp.1
    have h2 : ack_reads q = true := by simp [ack_reads] at hp ⊢; exact hp.2
    cases op with
    | dirOut x v => simp [is_ack_read] at h1
    | dirIn x => simp [is_ack_read] at h1
    | get x v =>
      have hx : x = ACK := by simpa [is_ack_read] using h1
      have := ih h2
      simp only [no_data_sample, List.all_cons, Bool.and_eq_true] at this ⊢
      refine ⟨?_, this⟩
      subst hx
      decide

theorem no_data_sample_wnr_addr (b ad : Nat) :
    no_data_sample (Op.dirOut WNR b :: addr_ops ad) = true := by
  simp [no_data_sample, addr_ops]

theorem ref_decode_even (o ad : Nat) (rest : List Nat) (ho : o % 2 = 0) :
    ref_decode (o :: ad :: rest) = Txn.read ad :: ref_decode rest := by
  cases rest <;> simp [ref_decode, ho]

theorem ref_decode_odd (o ad d : Nat) (rest : List Nat) (ho : o % 2 = 1) :
    ref_decode (o :: ad :: d :: rest) = Txn.write ad d :: ref_decode rest := by
  simp [ref_decode, ho]

theorem getLast?_cons_of_ne {α : Type} (t : α) (l : List α) (h : l ≠ []) :
    (t :: l).getLast? = l.getLast? := by
  cases l with
  | nil => exact absurd rfl h
  | cons x xs => simp [List.getLast?_cons_cons]

/-- What a completed run of `exec_stream` leaves in `bp_inst.data`, by the last
transaction of the reference decode. -/
theorem exec_stream_held (P : Peer σ) (fuel : Nat) :
    ∀ (n : Nat) (buf : List Nat) (s s1 : State σ) (u : Unit), buf.length ≤ n →
      exec_stream P fuel buf s = .ok u s1 →
      (∃ ops, s1.log = s.log ++ ops ∧
        (ref_decode buf = [] → s1.bp_inst.data = s.bp_inst.data ∧ no_data_sample ops = true)) ∧
      (∀ ad d, (ref_decode buf).getLast? = some (Txn.write ad d) →
        s1.bp_inst.data = d % 256) ∧
      (∀ ad, (ref_decode buf).getLast? = some (Txn.read ad) →
        ∃ pre d7 d6 d5 d4 d3 d2 d1 d0 post,
          s1.log = s.log ++ (pre ++ (data_get_ops d7 d6 d5 d4 d3 d2 d1 d0 ++ post)) ∧
          no_data_sample post = true ∧
          s1.bp_inst.data = sample_byte d7 d6 d5 d4 d3 d2 d1 d0) := by
  intro n
  induction n with
  | zero =>
    intro buf s s1 u hn hrun
    have : buf = [] := List.length_eq_zero.mp (by omega)
    subst this
    simp only [exec_stream, Res.ok.injEq, true_and] at hrun
    subst hrun
    exact ⟨⟨[], by simp, fun _ => ⟨rfl, rfl⟩⟩, by simp [ref_decode], by simp [ref_decode]⟩
  | succ n ih =>
    intro buf s s1 u hn hrun
    match buf, hn, hrun with
    | [], _, hrun =>
      simp only [exec_stream, Res.ok.injEq, true_and] at hrun
      subst hrun
      exact ⟨⟨[], by simp, fun _ => ⟨rfl, rfl⟩⟩, by simp [ref_decode], by simp [ref_decode]⟩
    | [x], _, hrun =>
      simp only [exec_stream, Res.ok.injEq, true_and] at hrun
      subst hrun
      exact ⟨⟨[], by simp, fun _ => ⟨rfl, rfl⟩⟩, by simp [ref_decode], by simp [ref_decode]⟩
    | o :: ad :: rest, hn, hrun =>
      have hlog : (drive_addr P ad (drive_opcode P o s)).log
          = s.log ++ (Op.dirOut WNR (bit_of o 0) :: addr_ops ad) := by
        simp only [drive_addr_log, drive_opcode_log, List.append_assoc, List.singleton_append]
      have hdat : (drive_addr P ad (drive_opcode P o s)).bp_inst.data = s.bp_inst.data := by
        simp [drive_addr_inst, drive_opcode_inst]
      rcases Nat.mod_two_eq_zero_or_one o with ho | ho
      · rw [exec_stream_even P fuel o ad rest s ho] at hrun
        rw [ref_decode_even o ad rest ho]
        obtain ⟨-, p1, hp1, h⟩ := read_cycle_spec P fuel (drive_addr P ad (drive_opcode P o s))
        cases hc : read_cycle P fuel (drive_addr P ad (drive_opcode P o s)) with
        | ok v s2 =>
          rw [hc] at hrun h
          simp only [state_ok, Res.isOk] at h
          rcases h with ⟨hno, -⟩ | ⟨hh, d7, d6, d5, d4, d3, d2, d1, d0, p2, hp2, hl, hi, -⟩
          · simp at hno
          · obtain ⟨⟨ops2, hl2, hnone⟩, hwr, hrd⟩ :=
              ih rest s2 s1 u (by simp at hn ⊢; omega) hrun
            obtain ⟨pre0, hl'⟩ : ∃ pre0, s2.log = s.log ++ (pre0 ++
                (data_get_ops d7 d6 d5 d4 d3 d2 d1 d0 ++ Op.dirOut REQ 0 :: p2)) :=
              ⟨Op.dirOut WNR (bit_of o 0) :: addr_ops ad ++
                (data_in_ops ++ Op.dirOut REQ 1 :: p1), by
                rw [hl, hlog]; simp only [List.append_assoc, List.cons_append]⟩
            refine ⟨⟨_, by rw [hl2, hl', List.append_assoc], by simp⟩, ?_, ?_⟩
            · intro a' d' hlast
              by_cases hR : ref_decode rest = []
              · simp [hR] at hlast
              · rw [getLast?_cons_of_ne _ _ hR] at hlast
                exact hwr a' d' hlast
            · intro a' hlast
              by_cases hR : ref_decode rest = []
              · obtain ⟨hd, hns⟩ := hnone hR
                refine ⟨pre0, d7, d6, d5, d4, d3, d2, d1, d0, Op.dirOut REQ 0 :: (p2 ++ ops2),
                  ?_, ?_, ?_⟩
                · rw [hl2, hl']; simp only [List.append_assoc, List.cons_append]
                · have := no_data_sample_acks p2 hp2
                  simp only [no_data_sample, List.all_cons, List.all_append,
                    Bool.and_eq_true] at this hns ⊢
                  exact ⟨trivial, this, hns⟩
                · rw [hd, hi]
              · rw [getLast?_cons_of_ne _ _ hR] at hlast
                obtain ⟨pre, e7, e6, e5, e4, e3, e2, e1, e0, post, hl3, hns, hd⟩ := hrd a' hlast
                refine ⟨(pre0 ++ (data_get_ops d7 d6 d5 d4 d3 d2 d1 d0 ++ Op.dirOut REQ 0 :: p2))
                  ++ pre, e7, e6, e5, e4, e3, e2, e1, e0, post, ?_, hns, hd⟩
                rw [hl3, hl']
                simp only [List.append_assoc]
        | outOfFuel s2 => rw [hc] at hrun; simp at hrun
        | fault j s2 => rw [hc] at hrun; simp at hrun
      · cases rest with
        | nil =>
          rw [exec_stream_odd_end P fuel o ad s ho] at hrun
          simp only [Res.ok.injEq, true_and] at hrun
          subst hrun
          refine ⟨⟨_, hlog, fun _ => ⟨hdat, no_data_sample_wnr_addr _ _⟩⟩, ?_, ?_⟩
          · simp [ref_decode, ho]
          · simp [ref_decode, ho]
        | cons d tl =>
          rw [exec_stream_odd P fuel o ad d tl s ho] at hrun
          rw [ref_decode_odd o ad d tl ho]
          obtain ⟨hi, -, p1, hp1, h⟩ :=
            write_cycle_spec P fuel d (drive_addr P ad (drive_opcode P o s))
          cases hc : write_cycle P fuel d (drive_addr P ad (drive_opcode P o s)) with
          | ok v s2 =>
            rw [hc] at hrun h hi
            simp only [state_ok, Res.isOk] at h hi
            rcases h with ⟨hno, -⟩ | ⟨hh, p2, hp2, hl, -⟩
            · simp at hno
            · obtain ⟨⟨ops2, hl2, hnone⟩, hwr, hrd⟩ :=
                ih tl s2 s1 u (by simp at hn ⊢; omega) hrun
              obtain ⟨pre0, hl'⟩ : ∃ pre0, s2.log = s.log ++ pre0 :=
                ⟨Op.dirOut WNR (bit_of o 0) :: addr_ops ad ++
                  (data_out_ops d ++ Op.dirOut REQ 1 :: (p1 ++ Op.dirOut REQ 0 :: p2)), by
                  rw [hl, hlog]; simp only [List.append_assoc, List.cons_append]⟩
              refine ⟨⟨_, by rw [hl2, hl', List.append_assoc], by simp⟩, ?_, ?_⟩
              · intro a' d' hlast
                by_cases hR : ref_decode tl = []
                · obtain ⟨hd, -⟩ := hnone hR
                  simp only [hR, List.getLast?_singleton, Option.some.injEq, Txn.write.injEq]
                    at hlast
                  rw [hd, hi, ← hlast.2]
                · rw [getLast?_cons_of_ne _ _ hR] at hlast
                  exact hwr a' d' hlast
              · intro a' hlast
                by_cases hR : ref_decode tl = []
                · simp [hR] at hlast
                · rw [getLast?_cons_of_ne _ _ hR] at hlast
                  obtain ⟨pre, e7, e6, e5, e4, e3, e2, e1, e0, post, hl3, hns, hd⟩ :=
                    hrd a' hlast
                  refine ⟨pre0 ++ pre, e7, e6, e5, e4, e3, e2, e1, e0, post, ?_, hns, hd⟩
                  rw [hl3, hl']
                  simp only [List.append_assoc]
          | outOfFuel s2 => rw [hc] at hrun; simp at hrun
          | fault j s2 => rw [hc] at hrun; simp at hrun

/-- C16 (held result record). After `backplane_write` has returned on a stream
of at most INT_MAX bytes, the held byte `bp_inst.data` is decided by the last
transaction of the reference decode of the stream: if there is none (a stream of
length 1, or only a Write opcode and address without data) it is the byte held
before the call; if it is a Write it is the data byte written; if it is a Read
it is the byte assembled from the last eight samples of the data lines in the
log (no data line is sampled after them), so the bytes of earlier Reads are not
retained. `backplane_read` hands that held byte back at position 0. -/
theorem held_result_record (P : Peer σ) (a : Arch) (fuel : Nat) (buf : List Nat)
    (s s1 : State σ) (ret : Int) (hlen : buf.length ≤ INT_MAX)
    (hrun : backplane_write P a fuel true true buf s = .ok ret s1) :
    ((ref_decode buf).getLast? = none → s1.bp_inst.data = s.bp_inst.data) ∧
    (∀ ad d, (ref_decode buf).getLast? = some (Txn.write ad d) → s1.bp_inst.data = d % 256) ∧
    (∀ ad, (ref_decode buf).getLast? = some (Txn.read ad) →
      ∃ pre d7 d6 d5 d4 d3 d2 d1 d0 post,
        s1.log = s.log ++ (pre ++ (data_get_ops d7 d6 d5 d4 d3 d2 d1 d0 ++ post)) ∧
        no_data_sample post = true ∧
        s1.bp_inst.data = sample_byte d7 d6 d5 d4 d3 d2 d1 d0) ∧
    (∀ (b0 : Nat) (rest : List Nat),
      backplane_read (some (b0 :: rest)) true s1
        = .ok (((rest.length + 1 : Nat) : Int), some (s1.bp_inst.data :: rest)) s1) := by
  have hpos : 1 ≤ buf.length := by
    cases buf with
    | nil => simp [backplane_write_nil] at hrun
    | cons x tl => simp
  rw [backplane_write_eq_exec P a fuel buf s hlen hpos] at hrun
  obtain ⟨-, u, hu⟩ := setVal_eq_ok _ _ _ _ hrun
  obtain ⟨⟨ops, -, hnone⟩, hwr, hrd⟩ :=
    exec_stream_held P fuel buf.length buf s s1 u (le_refl _) hu
  refine ⟨fun h => (hnone (List.getLast?_eq_none_iff.mp h)).1, hwr, hrd, ?_⟩
  intro b0 rest
  simp [backplane_read]

/-- Witness for C16: a stream whose last transaction is a Read, followed by a
Write opcode and address without data. -/
theorem held_result_record_witness :
    ((ref_decode [1, 1, 0xAA, 0, 1, 1, 9]).getLast? = none →
      (backplane_write echoPeer Arch.lp64 2 true true [1, 1, 0xAA, 0, 1, 1, 9]
        (echoStart 1 7 (fun _ => 0))).state.bp_inst.data
        = (echoStart 1 7 (fun _ => 0)).bp_inst.data) ∧
    (∀ ad d, (ref_decode [1, 1, 0xAA, 0, 1, 1, 9]).getLast? = some (Txn.write ad d) →
      (backplane_write echoPeer Arch.lp64 2 true true [1, 1, 0xAA, 0, 1, 1, 9]
        (echoStart 1 7 (fun _ => 0))).state.bp_inst.data = d % 256) ∧
    (∀ ad, (ref_decode [1, 1, 0xAA, 0, 1, 1, 9]).getLast? = some (Txn.read ad) →
      ∃ pre d7 d6 d5 d4 d3 d2 d1 d0 post,
        (backplane_write echoPeer Arch.lp64 2 true true [1, 1, 0xAA, 0, 1, 1, 9]
          (echoStart 1 7 (fun _ => 0))).state.log
          = (echoStart 1 7 (fun _ => 0)).log ++
            (pre ++ (data_get_ops d7 d6 d5 d4 d3 d2 d1 d0 ++ post)) ∧
        no_data_sample post = true ∧
        (backplane_write echoPeer Arch.lp64 2 true true [1, 1, 0xAA, 0, 1, 1, 9]
          (echoStart 1 7 (fun _ => 0))).state.bp_inst.data
          = sample_byte d7 d6 d5 d4 d3 d2 d1 d0) ∧
    (∀ (b0 : Nat) (rest : List Nat),
      backplane_read (some (b0 :: rest)) true
          (backplane_write echoPeer Arch.lp64 2 true true [1, 1, 0xAA, 0, 1, 1, 9]
            (echoStart 1 7 (fun _ => 0))).state
        = .ok (((rest.length + 1 : Nat) : Int),
            some ((backplane_write echoPeer Arch.lp64 2 true true [1, 1, 0xAA, 0, 1, 1, 9]
              (echoStart 1 7 (fun _ => 0))).state.bp_inst.data :: rest))
          (backplane_write echoPeer Arch.lp64 2 true true [1, 1, 0xAA, 0, 1, 1, 9]
            (echoStart 1 7 (fun _ => 0))).state) :=
  held_result_record echoPeer Arch.lp64 2 [1, 1, 0xAA, 0, 1, 1, 9]
    (echoStart 1 7 (fun _ => 0))
    (backplane_write echoPeer Arch.lp64 2 true true [1, 1, 0xAA, 0, 1, 1, 9]
      (echoStart 1 7 (fun _ => 0))).state
    7 (by decide) rfl

/-! ### C18: cursor safety and progress -/

/-- One iteration at a cursor where the guard holds: it never faults, and if it
completes the cursor has advanced by 3 at a Write opcode with a data byte left
and by 2 otherwise, and is at most the stream length. -/
theorem loop_body_progress (P : Peer σ) (a : Arch) (fuel : Nat) (data : List Nat) (i : Nat)
    (s : State σ) (hlen : data.length ≤ INT_MAX) (hi : i + 1 < data.length) :
    (∀ k s1, loop_body P a fuel data i s ≠ .fault k s1) ∧
    (∀ j s1, loop_body P a fuel data i s = .ok j s1 →
      (j = i + 2 ∨ j = i + 3) ∧
      (j = i + 3 ↔ (data[i]?.getD 0 % 2 = 1 ∧ i + 2 < data.length)) ∧
      j ≤ data.length) := by
  have h0 : data[i]? = some data[i] := List.getElem?_eq_getElem (by omega)
  have h1 : data[i + 1]? = some data[i + 1] := List.getElem?_eq_getElem hi
  rcases Nat.mod_two_eq_zero_or_one data[i] with ho | ho
  · rw [loop_body_read P a fuel data i _ _ s h0 h1 ho]
    have hf := (read_cycle_spec P fuel
      (drive_addr P data[i + 1] (drive_opcode P data[i] s))).1
    refine ⟨?_, ?_⟩
    · intro k s1 h
      cases hc : read_cycle P fuel (drive_addr P data[i + 1] (drive_opcode P data[i] s)) with
      | ok v s2 => simp [hc, Res.setVal] at h
      | outOfFuel s2 => simp [hc, Res.setVal] at h
      | fault j s2 => exact hf j s2 hc
    · intro j s1 h
      have hj := (setVal_eq_ok _ _ _ _ h).1
      subst hj
      refine ⟨Or.inl rfl, ?_, by omega⟩
      simp [h0, ho]
  · by_cases h2 : i + 2 < data.length
    · have h2e : data[i + 2]? = some data[i + 2] := List.getElem?_eq_getElem h2
      rw [loop_body_write P a fuel data i _ _ _ s hlen h0 h1 h2e ho]
      have hf := (write_cycle_spec P fuel data[i + 2]
        (drive_addr P data[i + 1] (drive_opcode P data[i] s))).2.1
      refine ⟨?_, ?_⟩
      · intro k s1 h
        cases hc : write_cycle P fuel data[i + 2]
            (drive_addr P data[i + 1] (drive_opcode P data[i] s)) with
        | ok v s2 => simp [hc, Res.setVal] at h
        | outOfFuel s2 => simp [hc, Res.setVal] at h
        | fault j s2 => exact hf j s2 hc
      · intro j s1 h
        have hj := (setVal_eq_ok _ _ _ _ h).1
        subst hj
        refine ⟨Or.inr rfl, ?_, by omega⟩
        simp [h0, ho, h2]
    · rw [loop_body_trunc P a fuel data i _ _ s hlen h0 h1 (by omega) ho]
      refine ⟨by simp, ?_⟩
      intro j s1 h
      simp only [Res.ok.injEq] at h
      obtain ⟨hj, -⟩ := h
      subst hj
      refine ⟨Or.inl rfl, ?_, by omega⟩
      simp [h2]

/-- The decode loop needs no more iterations than half of what remains of the
stream (rounded up, less the last byte): any larger budget gives the same
outcome. -/
theorem decode_loop_budget (P : Peer σ) (a : Arch) (fuel : Nat) (data : List Nat)
    (hlen : data.length ≤ INT_MAX) (hpos : 1 ≤ data.length) :
    ∀ (n m i : Nat) (s : State σ), i ≤ data.length → data.length ≤ 2 * n + i + 1 → n ≤ m →
      decode_loop P a fuel data m i s = decode_loop P a fuel data n i s := by
  intro n
  induction n with
  | zero =>
    intro m i s hi hn _
    have hg : loop_guard a i data.length = false := by
      rw [loop_guard_eq a _ _ hlen hpos (by omega)]; simp; omega
    rw [decode_loop_done P a fuel data m i s hg, decode_loop_done P a fuel data 0 i s hg]
  | succ n ih =>
    intro m i s hi hn hm
    obtain ⟨m', rfl⟩ : ∃ m', m = m' + 1 := ⟨m - 1, by omega⟩
    by_cases hg : i + 1 < data.length
    · have hgt : loop_guard a i data.length = true := by
        rw [loop_guard_eq a _ _ hlen hpos (by omega)]; simpa using hg
      obtain ⟨-, hp⟩ := loop_body_progress P a fuel data i s hlen hg
      simp only [decode_loop, hgt, if_true]
      cases hb : loop_body P a fuel data i s with
      | ok j s1 =>
        obtain ⟨hj, -, hjl⟩ := hp j s1 hb
        exact ih m' j s1 hjl (by omega) (by omega)
      | outOfFuel s1 => rfl
      | fault j s1 => rfl
    · have hgf : loop_guard a i data.length = false := by
        rw [loop_guard_eq a _ _ hlen hpos (by omega)]; simpa using hg
      rw [decode_loop_done P a fuel data _ i s hgf, decode_loop_done P a fuel data _ i s hgf]

/-- The decode loop never faults and its final cursor is at most the stream
length. -/
theorem decode_loop_safe (P : Peer σ) (a : Arch) (fuel : Nat) (data : List Nat)
    (hlen : data.length ≤ INT_MAX) (hpos : 1 ≤ data.length) :
    ∀ (n i : Nat) (s : State σ), i ≤ data.length →
      (∀ k s1, decode_loop P a fuel data n i s ≠ .fault k s1) ∧
      (∀ j s1, decode_loop P a fuel data n i s = .ok j s1 → j ≤ data.length) := by
  intro n
  induction n with
  | zero =>
    intro i s hi
    simp only [decode_loop]
    split_ifs
    · simp
    · refine ⟨by simp, ?_⟩
      intro j s1 h
      simp only [Res.ok.injEq] at h
      omega
  | succ n ih =>
    intro i s hi
    by_cases hg : i + 1 < data.length
    · have hgt : loop_guard a i data.length = true := by
        rw [loop_guard_eq a _ _ hlen hpos (by omega)]; simpa using hg
      obtain ⟨hnf, hp⟩ := loop_body_progress P a fuel data i s hlen hg
      simp only [decode_loop, hgt, if_true]
      cases hb : loop_body P a fuel data i s with
      | ok j s1 => exact ih j s1 (hp j s1 hb).2.2
      | outOfFuel s1 => simp
      | fault j s1 => exact absurd hb (hnf j s1)
    · have hgf : loop_guard a i data.length = false := by
        rw [loop_guard_eq a _ _ hlen hpos (by omega)]; simpa using hg
      rw [decode_loop_done P a fuel data _ i s hgf]
      refine ⟨by simp, ?_⟩
      intro j s1 h
      simp only [Res.ok.injEq] at h
      omega

/-- C18 (cursor safety and progress). For every stream of 1 to INT_MAX bytes:
at every cursor `i` up to the length where the loop guard holds, the two bytes
read first are in bounds (`i + 1 < len`), the third byte is read only in bounds
(`i < len` after the two increments), the iteration never reads outside the
buffer (no fault), and if the peer completes the handshake the cursor has
advanced by exactly 3 (a Write opcode with a data byte left) or exactly 2
(otherwise) and is at most `len`. The loop as a whole never faults, ends with a
cursor of at most `len`, and uses at most `len / 2` iterations: a budget of
`len / 2` iterations gives the same outcome as any larger one, in particular as
the `len + 1` that `backplane_write` allows. -/
theorem cursor_safety (P : Peer σ) (a : Arch) (fuel : Nat) (data : List Nat) (s : State σ)
    (hpos : 1 ≤ data.length) (hlen : data.length ≤ INT_MAX) :
    (∀ (i : Nat) (s0 : State σ), i ≤ data.length → loop_guard a i data.length = true →
      i + 1 < data.length ∧
      (has_data_byte a (i + 2) data.length = true → i + 2 < data.length) ∧
      (∀ k s1, loop_body P a fuel data i s0 ≠ .fault k s1) ∧
      (∀ j s1, loop_body P a fuel data i s0 = .ok j s1 →
        (j = i + 2 ∨ j = i + 3) ∧
        (j = i + 3 ↔ (data[i]?.getD 0 % 2 = 1 ∧ i + 2 < data.length)) ∧
        j ≤ data.length)) ∧
    (∀ n, data.length / 2 ≤ n →
      decode_loop P a fuel data n 0 s = decode_loop P a fuel data (data.length / 2) 0 s) ∧
    (∀ k s1, decode_loop P a fuel data (data.length / 2) 0 s ≠ .fault k s1) ∧
    (∀ j s1, decode_loop P a fuel data (data.length / 2) 0 s = .ok j s1 → j ≤ data.length) ∧
    (∀ k s1, backplane_write P a fuel true true data s ≠ .fault k s1) := by
  have hsafe := decode_loop_safe P a fuel data hlen hpos
  refine ⟨?_, ?_, (hsafe _ 0 s (by omega)).1, (hsafe _ 0 s (by omega)).2, ?_⟩
  · intro i s0 hi hg
    have hg' : i + 1 < data.length := by
      rw [loop_guard_eq a _ _ hlen hpos (by omega)] at hg; simpa using hg
    refine ⟨hg', ?_, loop_body_progress P a fuel data i s0 hlen hg'⟩
    intro hd
    rw [has_data_byte_eq a _ _ hlen (by omega)] at hd
    simpa using hd
  · intro n hn
    exact decode_loop_budget P a fuel data hlen hpos (data.length / 2) n 0 s (by omega)
      (by omega) hn
  · intro k s1 h
    simp only [backplane_write, Bool.true_eq_false, if_false] at h
    cases hd : decode_loop P a fuel data (data.length + 1) 0 s with
    | ok j s2 => simp [hd] at h
    | outOfFuel s2 => simp [hd] at h
    | fault j s2 => exact (hsafe _ 0 s (by omega)).1 j s2 hd

/-- Witness for C18: a stream of a Write, a Read and a lone trailing byte. -/
theorem cursor_safety_witness :
    (∀ (i : Nat) (s0 : State EchoState), i ≤ [1, 5, 0xAA, 0, 5, 7].length →
      loop_guard Arch.ilp32 i [1, 5, 0xAA, 0, 5, 7].length = true →
      i + 1 < [1, 5, 0xAA, 0, 5, 7].length ∧
      (has_data_byte Arch.ilp32 (i + 2) [1, 5, 0xAA, 0, 5, 7].length = true →
        i + 2 < [1, 5, 0xAA, 0, 5, 7].length) ∧
      (∀ k s1, loop_body echoPeer Arch.ilp32 2 [1, 5, 0xAA, 0, 5, 7] i s0 ≠ .fault k s1) ∧
      (∀ j s1, loop_body echoPeer Arch.ilp32 2 [1, 5, 0xAA, 0, 5, 7] i s0 = .ok j s1 →
        (j = i + 2 ∨ j = i + 3) ∧
        (j = i + 3 ↔ (([1, 5, 0xAA, 0, 5, 7] : List Nat)[i]?.getD 0 % 2 = 1 ∧
          i + 2 < [1, 5, 0xAA, 0, 5, 7].length)) ∧
        j ≤ [1, 5, 0xAA, 0, 5, 7].length)) ∧
    (∀ n, [1, 5, 0xAA, 0, 5, 7].length / 2 ≤ n →
      decode_loop echoPeer Arch.ilp32 2 [1, 5, 0xAA, 0, 5, 7] n 0 (echoStart 1 0 (fun _ => 0))
        = decode_loop echoPeer Arch.ilp32 2 [1, 5, 0xAA, 0, 5, 7]
            ([1, 5, 0xAA, 0, 5, 7].length / 2) 0 (echoStart 1 0 (fun _ => 0))) ∧
    (∀ k s1, decode_loop echoPeer Arch.ilp32 2 [1, 5, 0xAA, 0, 5, 7]
      ([1, 5, 0xAA, 0, 5, 7].length / 2) 0 (echoStart 1 0 (fun _ => 0)) ≠ .fault k s1) ∧
    (∀ j s1, decode_loop echoPeer Arch.ilp32 2 [1, 5, 0xAA, 0, 5, 7]
      ([1, 5, 0xAA, 0, 5, 7].length / 2) 0 (echoStart 1 0 (fun _ => 0)) = .ok j s1 →
      j ≤ [1, 5, 0xAA, 0, 5, 7].length) ∧
    (∀ k s1, backplane_write echoPeer Arch.ilp32 2 true true [1, 5, 0xAA, 0, 5, 7]
      (echoStart 1 0 (fun _ => 0)) ≠ .fault k s1) :=
  cursor_safety echoPeer Arch.ilp32 2 [1, 5, 0xAA, 0, 5, 7] (echoStart 1 0 (fun _ => 0))
    (by decide) (by decide)

/-! ### The shape of every log -/

theorem bit_of_zero_cases (x : Nat) : bit_of x 0 = 0 ∨ bit_of x 0 = 1 := by
  unfold bit_of
  omega

/-- Every outcome of one iteration of the decode loop appends one of the shapes
of `IterOps` to the log. -/
theorem loop_body_ops (P : Peer σ) (a : Arch) (fuel : Nat) (data : List Nat) (i : Nat)
    (s : State σ) :
    ∃ ops, (loop_body P a fuel data i s).state.log = s.log ++ ops ∧
      IterOps (loop_body P a fuel data i s).isOk ops := by
  unfold loop_body
  cases h0 : data[i]? with
  | none => exact ⟨[], by simp [Res.state], IterOps.fault_opcode⟩
  | some b0 =>
    cases h1 : data[i + 1]? with
    | none =>
      exact ⟨[Op.dirOut WNR (bit_of b0 0)], by simp [Res.state, drive_opcode_log],
        IterOps.fault_addr _⟩
    | some b1 =>
      simp only []
      have hop : (drive_addr P b1 (drive_opcode P b0 s)).bp_inst.opcode = bit_of b0 0 := by
        simp [drive_addr_inst, drive_opcode_inst]
      have hlog : (drive_addr P b1 (drive_opcode P b0 s)).log
          = s.log ++ (Op.dirOut WNR (bit_of b0 0) :: addr_ops b1) := by
        simp only [drive_addr_log, drive_opcode_log, List.append_assoc, List.singleton_append]
      unfold dispatch
      split_ifs with hw hr
      · have hb : bit_of b0 0 = 1 := by
          rcases bit_of_zero_cases b0 with h | h
          · exact absurd (hop.trans h) hw.1
          · exact h
        cases hd : data[i + 2]? with
        | none =>
          exact ⟨Op.dirOut WNR (bit_of b0 0) :: addr_ops b1, by simpa [Res.state] using hlog,
            IterOps.fault_data _ _⟩
        | some b2 =>
          simp only []
          obtain ⟨-, hnf, p1, hp1, h⟩ :=
            write_cycle_spec P fuel b2 (drive_addr P b1 (drive_opcode P b0 s))
          rw [hlog, hb] at h
          cases hc : write_cycle P fuel b2 (drive_addr P b1 (drive_opcode P b0 s)) with
          | ok v s2 =>
            rw [hc] at h
            simp only [state_ok, Res.isOk] at h ⊢
            rcases h with ⟨hno, -⟩ | ⟨hh, p2, hp2, hl, hok⟩
            · simp at hno
            · refine ⟨_, ?_, IterOps.write b1 b2 p1 p2 hh (hok trivial)⟩
              rw [hl]; simp only [List.append_assoc, List.cons_append]
          | outOfFuel s2 =>
            rw [hc] at h
            simp only [state_outOfFuel, Res.isOk] at h ⊢
            rcases h with ⟨-, hl⟩ | ⟨hh, p2, hp2, hl, -⟩
            · refine ⟨_, ?_, IterOps.write_wait_high b1 b2 p1 hp1⟩
              rw [hl]; simp only [List.append_assoc, List.cons_append]
            · refine ⟨_, ?_, IterOps.write_wait_low b1 b2 p1 p2 hh hp2⟩
              rw [hl]; simp only [List.append_assoc, List.cons_append]
          | fault j s2 => exact absurd hc (hnf j s2)
      · have hb : bit_of b0 0 = 0 := by rw [← hop]; exact hr
        obtain ⟨hnf, p1, hp1, h⟩ :=
          read_cycle_spec P fuel (drive_addr P b1 (drive_opcode P b0 s))
        rw [hlog, hb] at h
        cases hc : read_cycle P fuel (drive_addr P b1 (drive_opcode P b0 s)) with
        | ok v s2 =>
          rw [hc] at h
          simp only [state_ok, Res.isOk] at h ⊢
          rcases h with ⟨hno, -⟩ | ⟨hh, d7, d6, d5, d4, d3, d2, d1, d0, p2, hp2, hl, -, hok⟩
          · simp at hno
          · refine ⟨_, ?_, IterOps.read b1 p1 d7 d6 d5 d4 d3 d2 d1 d0 p2 hh (hok trivial)⟩
            rw [hl]; simp only [List.append_assoc, List.cons_append]
        | outOfFuel s2 =>
          rw [hc] at h
          simp only [state_outOfFuel, Res.isOk] at h ⊢
          rcases h with ⟨-, -, hl⟩ | ⟨hh, d7, d6, d5, d4, d3, d2, d1, d0, p2, hp2, hl, -, -⟩
          · refine ⟨_, ?_, IterOps.read_wait_high b1 p1 hp1⟩
            rw [hl]; simp only [List.append_assoc, List.cons_append]
          · refine ⟨_, ?_, IterOps.read_wait_low b1 p1 d7 d6 d5 d4 d3 d2 d1 d0 p2 hh hp2⟩
            rw [hl]; simp only [List.append_assoc, List.cons_append]
        | fault j s2 => exact absurd hc (hnf j s2)
      · exact ⟨Op.dirOut WNR (bit_of b0 0) :: addr_ops b1, by simpa [Res.state] using hlog,
          IterOps.skip _ _⟩

/-- Every outcome of the decode loop appends a `Trace` to the log. -/
theorem decode_loop_trace (P : Peer σ) (a : Arch) (fuel : Nat) (data : List Nat) :
    ∀ (n i : Nat) (s : State σ),
      ∃ ops, (decode_loop P a fuel data n i s).state.log = s.log ++ ops ∧
        Trace (decode_loop P a fuel data n i s).isOk ops := by
  intro n
  induction n with
  | zero =>
    intro i s
    simp only [decode_loop]
    split_ifs
    · exact ⟨[], by simp [Res.state], Trace.stop⟩
    · exact ⟨[], by simp [Res.state], Trace.done⟩
  | succ n ih =>
    intro i s
    simp only [decode_loop]
    split_ifs with hg
    · obtain ⟨ops1, hl1, ht1⟩ := loop_body_ops P a fuel data i s
      cases hb : loop_body P a fuel data i s with
      | ok j s1 =>
        rw [hb] at hl1 ht1
        obtain ⟨ops2, hl2, ht2⟩ := ih j s1
        simp only [state_ok] at hl1
        exact ⟨ops1 ++ ops2, by rw [hl2, hl1, List.append_assoc],
          Trace.iter ops1 ops2 _ ht1 ht2⟩
      | outOfFuel s1 =>
        rw [hb] at hl1 ht1
        exact ⟨ops1, hl1, Trace.last ops1 ht1⟩
      | fault j s1 =>
        rw [hb] at hl1 ht1
        exact ⟨ops1, hl1, Trace.last ops1 ht1⟩
    · exact ⟨[], by simp [Res.state], Trace.done⟩

/-- Every outcome of `backplane_write` appends a `Trace` to the log. -/
theorem backplane_write_trace (P : Peer σ) (a : Arch) (fuel : Nat) (kmallocOk copyOk : Bool)
    (buf : List Nat) (s : State σ) :
    ∃ ops, (backplane_write P a fuel kmallocOk copyOk buf s).state.log = s.log ++ ops ∧
      Trace (backplane_write P a fuel kmallocOk copyOk buf s).isOk ops := by
  unfold backplane_write
  split_ifs
  · exact ⟨[], by simp [Res.state], Trace.done⟩
  · exact ⟨[], by simp [Res.state], Trace.done⟩
  · obtain ⟨ops, hl, ht⟩ := decode_loop_trace P a fuel buf (buf.length + 1) 0 s
    cases hd : decode_loop P a fuel buf (buf.length + 1) 0 s with
    | ok j s1 => rw [hd] at hl ht; exact ⟨ops, hl, ht⟩
    | outOfFuel s1 => rw [hd] at hl ht; exact ⟨ops, hl, ht⟩
    | fault j s1 => rw [hd] at hl ht; exact ⟨ops, hl, ht⟩

theorem run_mon_append {μ : Type} (step : μ → Op → Option μ) (m : μ) (l1 l2 : List Op) :
    run_mon step m (l1 ++ l2) = (run_mon step m l1).bind (fun m1 => run_mon step m1 l2) := by
  induction l1 generalizing m with
  | nil => simp [run_mon]
  | cons op l ih =>
    simp only [List.cons_append, run_mon]
    cases step m op with
    | none => simp
    | some m1 => simpa using ih m1

theorem run_mon_then {μ : Type} (step : μ → Op → Option μ) (m m1 : μ) (l1 l2 : List Op)
    (h : run_mon step m l1 = some m1) :
    run_mon step m (l1 ++ l2) = run_mon step m1 l2 := by
  rw [run_mon_append, h]; rfl

theorem polls_low_any (p : List Op) (h : polls_low p = true) : p.any reads_low = true := by
  simp only [polls_low, Bool.and_eq_true] at h
  cases hl : p.getLast? with
  | none => simp [hl] at h
  | some x =>
    have hx : reads_low x = true := by simpa [hl] using h.2
    exact List.any_eq_true.mpr ⟨x, List.mem_of_getLast?_eq_some hl, hx⟩

/-! ### C17: bus stability during a handshake -/

theorem stab_wnr_addr_then (m : Stab) (b ad : Nat) (l : List Op) (hb : m.busy = false) :
    run_mon stab_step m (Op.dirOut WNR b :: (addr_ops ad ++ l)) = run_mon stab_step m l := by
  simp [run_mon, stab_step, addr_ops, hb, REQ, WNR, ADDR7, ADDR6, ADDR5, ADDR4, ADDR3, ADDR2,
    ADDR1, ADDR0]

theorem stab_data_out_then (m : Stab) (d : Nat) (l : List Op) (hb : m.busy = false) :
    run_mon stab_step m (data_out_ops d ++ l) = run_mon stab_step m l := by
  simp [run_mon, stab_step, data_out_ops, hb, REQ, DATA7, DATA6, DATA5, DATA4, DATA3, DATA2,
    DATA1, DATA0]

theorem stab_data_in_then (m : Stab) (l : List Op) (hb : m.busy = false) :
    run_mon stab_step m (data_in_ops ++ l) = run_mon stab_step m l := by
  simp [run_mon, stab_step, data_in_ops, hb]

theorem stab_data_get_then (m : Stab) (d7 d6 d5 d4 d3 d2 d1 d0 : Nat) (l : List Op) :
    run_mon stab_step m (data_get_ops d7 d6 d5 d4 d3 d2 d1 d0 ++ l) = run_mon stab_step m l := by
  simp [run_mon, stab_step, data_get_ops, ACK, DATA7, DATA6, DATA5, DATA4, DATA3, DATA2,
    DATA1, DATA0]

theorem stab_req_high (m : Stab) (l : List Op) (hb : m.busy = false) :
    run_mon stab_step m (Op.dirOut REQ 1 :: l)
      = run_mon stab_step { req := 1, busy := true } l := by
  simp [run_mon, stab_step, hb]

theorem stab_req_low (m : Stab) (l : List Op) :
    run_mon stab_step m (Op.dirOut REQ 0 :: l) = run_mon stab_step { m with req := 0 } l := by
  simp [run_mon, stab_step]

theorem stab_acks (p : List Op) (hp : ack_reads p = true) (m : Stab) :
    run_mon stab_step m p
      = some { m with busy := m.busy && !(decide (m.req = 0) && p.any reads_low) } := by
  induction p generalizing m with
  | nil => simp [run_mon]
  | cons op l ih =>
    have h1 : is_ack_read op = true := by simp [ack_reads] at hp; exact hp.1
    have h2 : ack_reads l = true := by simp [ack_reads] at hp ⊢; exact hp.2
    cases op with
    | dirOut x v => simp [is_ack_read] at h1
    | dirIn x => simp [is_ack_read] at h1
    | get x v =>
      have hx : x = ACK := by simpa [is_ack_read] using h1
      subst hx
      simp only [run_mon, stab_step, true_and]
      split_ifs with hc
      · simp [ih h2, hc.1, hc.2, reads_low]
      · by_cases hv : v = 0
        · have hr : m.req ≠ 0 := fun h => hc ⟨hv, h⟩
          simp [ih h2, hr]
        · simp [ih h2, hv, reads_low]

theorem stab_acks_then (p : List Op) (hp : ack_reads p = true) (m : Stab) (l : List Op) :
    run_mon stab_step m (p ++ l)
      = run_mon stab_step
          { m with busy := m.busy && !(decide (m.req = 0) && p.any reads_low) } l :=
  run_mon_then _ _ _ _ _ (stab_acks p hp m)

/-- A completed iteration takes the stability monitor from idle to idle. -/
theorem stab_iter_done (ops : List Op) (h : IterOps true ops) (m : Stab)
    (hr : m.req = 0) (hb : m.busy = false) :
    ∃ m1, run_mon stab_step m ops = some m1 ∧ m1.req = 0 ∧ m1.busy = false := by
  cases h with
  | write ad d p1 p2 h1 h2 =>
    rw [stab_wnr_addr_then _ _ _ _ hb, stab_data_out_then _ _ _ hb, stab_req_high _ _ hb,
      stab_acks_then p1 (polls_high_acks p1 h1), stab_req_low,
      stab_acks p2 (polls_low_acks p2 h2)]
    exact ⟨_, rfl, rfl, by simp [polls_low_any p2 h2]⟩
  | read ad p1 d7 d6 d5 d4 d3 d2 d1 d0 p2 h1 h2 =>
    rw [stab_wnr_addr_then _ _ _ _ hb, stab_data_in_then _ _ hb, stab_req_high _ _ hb,
      stab_acks_then p1 (polls_high_acks p1 h1), stab_data_get_then, stab_req_low,
      stab_acks p2 (polls_low_acks p2 h2)]
    exact ⟨_, rfl, rfl, by simp [polls_low_any p2 h2]⟩
  | skip b ad =>
    have := stab_wnr_addr_then m b ad [] hb
    rw [List.append_nil] at this
    rw [this]
    exact ⟨m, rfl, hr, hb⟩

/-- An iteration that did not complete is accepted by the stability monitor. -/
theorem stab_iter_open (ops : List Op) (h : IterOps false ops) (m : Stab)
    (hb : m.busy = false) : ∃ m1, run_mon stab_step m ops = some m1 := by
  cases h with
  | write_wait_high ad d p1 h1 =>
    rw [stab_wnr_addr_then _ _ _ _ hb, stab_data_out_then _ _ _ hb, stab_req_high _ _ hb,
      stab_acks p1 h1]
    exact ⟨_, rfl⟩
  | write_wait_low ad d p1 p2 h1 h2 =>
    rw [stab_wnr_addr_then _ _ _ _ hb, stab_data_out_then _ _ _ hb, stab_req_high _ _ hb,
      stab_acks_then p1 (polls_high_acks p1 h1), stab_req_low, stab_acks p2 h2]
    exact ⟨_, rfl⟩
  | read_wait_high ad p1 h1 =>
    rw [stab_wnr_addr_then _ _ _ _ hb, stab_data_in_then _ _ hb, stab_req_high _ _ hb,
      stab_acks p1 h1]
    exact ⟨_, rfl⟩
  | read_wait_low ad p1 d7 d6 d5 d4 d3 d2 d1 d0 p2 h1 h2 =>
    rw [stab_wnr_addr_then _ _ _ _ hb, stab_data_in_then _ _ hb, stab_req_high _ _ hb,
      stab_acks_then p1 (polls_high_acks p1 h1), stab_data_get_then, stab_req_low,
      stab_acks p2 h2]
    exact ⟨_, rfl⟩
  | fault_opcode => exact ⟨m, rfl⟩
  | fault_addr b => exact ⟨m, by simp [run_mon, stab_step, hb, REQ, WNR]⟩
  | fault_data b ad =>
    have := stab_wnr_addr_then m b ad [] hb
    rw [List.append_nil] at this
    exact ⟨m, this⟩

/-- Every `Trace` is accepted by the stability monitor from idle, and a
completed one leaves it idle. -/
theorem stab_trace (ok : Bool) (ops : List Op) (t : Trace ok ops) :
    ∀ m : Stab, m.req = 0 → m.busy = false →
      ∃ m1, run_mon stab_step m ops = some m1 ∧ (ok = true → m1.req = 0 ∧ m1.busy = false) := by
  induction t with
  | done => intro m hr hb; exact ⟨m, rfl, fun _ => ⟨hr, hb⟩⟩
  | stop => intro m hr hb; exact ⟨m, rfl, by simp⟩
  | iter ops rest ok h _ ih =>
    intro m hr hb
    obtain ⟨m1, e1, hr1, hb1⟩ := stab_iter_done ops h m hr hb
    obtain ⟨m2, e2, h2⟩ := ih m1 hr1 hb1
    exact ⟨m2, by rw [run_mon_then _ _ _ _ _ e1, e2], h2⟩
  | last ops h =>
    intro m _ hb
    obtain ⟨m1, e1⟩ := stab_iter_open ops h m hb
    exact ⟨m1, e1, by simp⟩

/-- C17 (bus stability during a handshake). For every stream, every peer, every
polling budget and every outcome of `backplane_write`, the log read from a start
with REQ low is accepted by the stability monitor `stab_step`: from the moment
REQ is set to 1 until ACK is read 0 after REQ was set back to 0, no line other
than REQ is driven or given a direction (WNR, the address lines and the data
lines are untouched) and REQ is not asserted a second time, so each handshake
holds exactly one assertion of REQ and the lines of the next instruction are
driven only after the release. When `backplane_write` returns, REQ is 0 and no
handshake is in progress. -/
theorem bus_stable_during_handshake (P : Peer σ) (a : Arch) (fuel : Nat)
    (kmallocOk copyOk : Bool) (buf : List Nat) (inst : backplane_instructions) (peer : σ) :
    ∃ m, run_mon stab_step stab_init
        (backplane_write P a fuel kmallocOk copyOk buf
          { bp_inst := inst, peer := peer, log := [] }).state.log = some m ∧
      ((backplane_write P a fuel kmallocOk copyOk buf
          { bp_inst := inst, peer := peer, log := [] }).isOk = true →
        m.req = 0 ∧ m.busy = false) := by
  obtain ⟨ops, hl, ht⟩ := backplane_write_trace P a fuel kmallocOk copyOk buf
    { bp_inst := inst, peer := peer, log := [] }
  rw [hl]
  exact stab_trace _ ops ht stab_init rfl rfl

/-- The stability monitor rejects a drive of an address line, a change of
direction of a data line and a second assertion of REQ during a handshake, and a
drive of WNR before ACK was read 0. -/
theorem stab_monitor_rejects :
    run_mon stab_step stab_init [Op.dirOut REQ 1, Op.get ACK 1, Op.dirOut ADDR0 1] = none ∧
    run_mon stab_step stab_init [Op.dirOut REQ 1, Op.get ACK 1, Op.dirIn DATA3] = none ∧
    run_mon stab_step stab_init [Op.dirOut REQ 1, Op.get ACK 1, Op.dirOut REQ 0,
      Op.dirOut REQ 1] = none ∧
    run_mon stab_step stab_init [Op.dirOut REQ 1, Op.get ACK 1, Op.dirOut REQ 0, Op.get ACK 1,
      Op.dirOut WNR 0] = none := by
  decide

/-! ### C13: direction discipline -/

theorem dir_wnr_addr_then (m : DirMon) (b ad : Nat) (l : List Op) :
    run_mon dir_step m (Op.dirOut WNR b :: (addr_ops ad ++ l))
      = run_mon dir_step { m with wnr := b } l := by
  simp [run_mon, dir_step, addr_ops, data_lines, REQ, ACK, WNR, ADDR7, ADDR6, ADDR5, ADDR4,
    ADDR3, ADDR2, ADDR1, ADDR0, DATA7, DATA6, DATA5, DATA4, DATA3, DATA2, DATA1, DATA0]

theorem dir_data_out_then (m : DirMon) (d : Nat) (l : List Op) (hb : m.busy = false) :
    run_mon dir_step m (data_out_ops d ++ l)
      = run_mon dir_step { m with conf := (DATA0, true) :: (DATA1, true) :: (DATA2, true) ::
          (DATA3, true) :: (DATA4, true) :: (DATA5, true) :: (DATA6, true) :: (DATA7, true) ::
          m.conf } l := by
  simp [run_mon, dir_step, data_out_ops, data_lines, hb, REQ, ACK, WNR, DATA7, DATA6, DATA5,
    DATA4, DATA3, DATA2, DATA1, DATA0]

theorem dir_data_in_then (m : DirMon) (l : List Op) (hb : m.busy = false) :
    run_mon dir_step m (data_in_ops ++ l)
      = run_mon dir_step { m with conf := (DATA0, false) :: (DATA1, false) :: (DATA2, false) ::
          (DATA3, false) :: (DATA4, false) :: (DATA5, false) :: (DATA6, false) ::
          (DATA7, false) :: m.conf } l := by
  simp [run_mon, dir_step, data_in_ops, data_lines, addr_lines, hb, REQ, WNR, ADDR7, ADDR6,
    ADDR5, ADDR4, ADDR3, ADDR2, ADDR1, ADDR0, DATA7, DATA6, DATA5, DATA4, DATA3, DATA2, DATA1,
    DATA0]

theorem dir_data_get_then (m : DirMon) (d7 d6 d5 d4 d3 d2 d1 d0 : Nat) (l : List Op) :
    run_mon dir_step m (data_get_ops d7 d6 d5 d4 d3 d2 d1 d0 ++ l) = run_mon dir_step m l := by
  simp [run_mon, dir_step, data_get_ops, ACK, DATA7, DATA6, DATA5, DATA4, DATA3, DATA2,
    DATA1, DATA0]

theorem data_dir_is_after (c : List (Nat × Bool)) (d : Bool) :
    data_dir_is ((DATA0, d) :: (DATA1, d) :: (DATA2, d) :: (DATA3, d) :: (DATA4, d) ::
      (DATA5, d) :: (DATA6, d) :: (DATA7, d) :: c) d = true := by
  simp [data_dir_is, data_lines, line_dir, DATA7, DATA6, DATA5, DATA4, DATA3, DATA2, DATA1,
    DATA0]

theorem dir_req_high_write (m : DirMon) (l : List Op) (hw : m.wnr ≠ 0)
    (hd : data_dir_is m.conf true = true) :
    run_mon dir_step m (Op.dirOut REQ 1 :: l)
      = run_mon dir_step { m with req := 1, busy := true, kind := true } l := by
  have hc : (m.wnr ≠ 0 ∧ data_dir_is m.conf true = true) ∨
      (m.wnr = 0 ∧ data_dir_is m.conf false = true) := Or.inl ⟨hw, hd⟩
  simp [run_mon, dir_step, REQ, ACK, hc, hw, hd]

theorem dir_req_high_read (m : DirMon) (l : List Op) (hw : m.wnr = 0)
    (hd : data_dir_is m.conf false = true) :
    run_mon dir_step m (Op.dirOut REQ 1 :: l)
      = run_mon dir_step { m with req := 1, busy := true, kind := false } l := by
  have hc : (m.wnr ≠ 0 ∧ data_dir_is m.conf true = true) ∨
      (m.wnr = 0 ∧ data_dir_is m.conf false = true) := Or.inr ⟨hw, hd⟩
  simp [run_mon, dir_step, REQ, ACK, hc, hw, hd]

theorem dir_req_low (m : DirMon) (l : List Op) :
    run_mon dir_step m (Op.dirOut REQ 0 :: l) = run_mon dir_step { m with req := 0 } l := by
  simp [run_mon, dir_step, REQ, ACK]

theorem dir_acks (p : List Op) (hp : ack_reads p = true) (m : DirMon) :
    run_mon dir_step m p
      = some { m with busy := m.busy && !(decide (m.req = 0) && p.any reads_low) } := by
  induction p generalizing m with
  | nil => simp [run_mon]
  | cons op l ih =>
    have h1 : is_ack_read op = true := by simp [ack_reads] at hp; exact hp.1
    have h2 : ack_reads l = true := by simp [ack_reads] at hp ⊢; exact hp.2
    cases op with
    | dirOut x v => simp [is_ack_read] at h1
    | dirIn x => simp [is_ack_read] at h1
    | get x v =>
      have hx : x = ACK := by simpa [is_ack_read] using h1
      subst hx
      simp only [run_mon, dir_step, true_and]
      split_ifs with hc
      · simp [ih h2, hc.1, hc.2, reads_low]
      · by_cases hv : v = 0
        · have hr : m.req ≠ 0 := fun h => hc ⟨hv, h⟩
          simp [ih h2, hr]
        · simp [ih h2, hv, reads_low]

theorem dir_acks_then (p : List Op) (hp : ack_reads p = true) (m : DirMon) (l : List Op) :
    run_mon dir_step m (p ++ l)
      = run_mon dir_step
          { m with busy := m.busy && !(decide (m.req = 0) && p.any reads_low) } l :=
  run_mon_then _ _ _ _ _ (dir_acks p hp m)

/-- A completed iteration takes the direction monitor from "no cycle in
progress" to "no cycle in progress". -/
theorem dir_iter_done (ops : List Op) (h : IterOps true ops) (m : DirMon)
    (hb : m.busy = false) :
    ∃ m1, run_mon dir_step m ops = some m1 ∧ m1.busy = false := by
  cases h with
  | write ad d p1 p2 h1 h2 =>
    rw [dir_wnr_addr_then, dir_data_out_then { m with wnr := 1 } _ _ hb,
      dir_req_high_write _ _ (by simp) (data_dir_is_after _ _),
      dir_acks_then p1 (polls_high_acks p1 h1), dir_req_low,
      dir_acks p2 (polls_low_acks p2 h2)]
    exact ⟨_, rfl, by simp [polls_low_any p2 h2]⟩
  | read ad p1 d7 d6 d5 d4 d3 d2 d1 d0 p2 h1 h2 =>
    rw [dir_wnr_addr_then, dir_data_in_then { m with wnr := 0 } _ hb,
      dir_req_high_read _ _ rfl (data_dir_is_after _ _),
      dir_acks_then p1 (polls_high_acks p1 h1), dir_data_get_then, dir_req_low,
      dir_acks p2 (polls_low_acks p2 h2)]
    exact ⟨_, rfl, by simp [polls_low_any p2 h2]⟩
  | skip b ad =>
    have := dir_wnr_addr_then m b ad []
    rw [List.append_nil] at this
    rw [this]
    exact ⟨_, rfl, hb⟩

/-- An iteration that did not complete is accepted by the direction monitor. -/
theorem dir_iter_open (ops : List Op) (h : IterOps false ops) (m : DirMon)
    (hb : m.busy = false) : ∃ m1, run_mon dir_step m ops = some m1 := by
  cases h with
  | write_wait_high ad d p1 h1 =>
    rw [dir_wnr_addr_then, dir_data_out_then { m with wnr := 1 } _ _ hb,
      dir_req_high_write _ _ (by simp) (data_dir_is_after _ _), dir_acks p1 h1]
    exact ⟨_, rfl⟩
  | write_wait_low ad d p1 p2 h1 h2 =>
    rw [dir_wnr_addr_then, dir_data_out_then { m with wnr := 1 } _ _ hb,
      dir_req_high_write _ _ (by simp) (data_dir_is_after _ _),
      dir_acks_then p1 (polls_high_acks p1 h1), dir_req_low, dir_acks p2 h2]
    exact ⟨_, rfl⟩
  | read_wait_high ad p1 h1 =>
    rw [dir_wnr_addr_then, dir_data_in_then { m with wnr := 0 } _ hb,
      dir_req_high_read _ _ rfl (data_dir_is_after _ _), dir_acks p1 h1]
    exact ⟨_, rfl⟩
  | read_wait_low ad p1 d7 d6 d5 d4 d3 d2 d1 d0 p2 h1 h2 =>
    rw [dir_wnr_addr_then, dir_data_in_then { m with wnr := 0 } _ hb,
      dir_req_high_read _ _ rfl (data_dir_is_after _ _),
      dir_acks_then p1 (polls_high_acks p1 h1), dir_data_get_then, dir_req_low,
      dir_acks p2 h2]
    exact ⟨_, rfl⟩
  | fault_opcode => exact ⟨m, rfl⟩
  | fault_addr b => exact ⟨{ m with wnr := b }, by simp [run_mon, dir_step, REQ, ACK, WNR]⟩
  | fault_data b ad =>
    have := dir_wnr_addr_then m b ad []
    rw [List.append_nil] at this
    exact ⟨_, this⟩

/-- Every `Trace` is accepted by the direction monitor when no cycle is in
progress at its start. -/
theorem dir_trace (ok : Bool) (ops : List Op) (t : Trace ok ops) :
    ∀ m : DirMon, m.busy = false →
      ∃ m1, run_mon dir_step m ops = some m1 ∧ (ok = true → m1.busy = false) := by
  induction t with
  | done => intro m hb; exact ⟨m, rfl, fun _ => hb⟩
  | stop => intro m hb; exact ⟨m, rfl, by simp⟩
  | iter ops rest ok h _ ih =>
    intro m hb
    obtain ⟨m1, e1, hb1⟩ := dir_iter_done ops h m hb
    obtain ⟨m2, e2, h2⟩ := ih m1 hb1
    exact ⟨m2, by rw [run_mon_then _ _ _ _ _ e1, e2], h2⟩
  | last ops h =>
    intro m hb
    obtain ⟨m1, e1⟩ := dir_iter_open ops h m hb
    exact ⟨m1, e1, by simp⟩

theorem backplane_init_log (P : Peer σ) (s : State σ) :
    (backplane_init P s).log = s.log ++ [Op.dirOut REQ 0, Op.dirIn ACK] := by
  simp [backplane_init, gpio_direction_input, gpio_direction_output]

/-- C13 (direction discipline). For every stream, every peer, every polling
budget and every outcome of `backplane_write`, the log of the line operations of
`backplane_init` followed by those of `backplane_write` is accepted by the
direction monitor `dir_step`: whenever REQ is asserted with WNR high all eight
data lines have last been made outputs, and none is made an input before the
cycle ends (ACK read 0 after REQ was lowered); whenever REQ is asserted with WNR
low all eight have last been made inputs, and none is made an output before the
cycle ends; and no operation makes REQ, WNR or an address line an input or ACK
an output. -/
theorem direction_discipline (P : Peer σ) (a : Arch) (fuel : Nat)
    (kmallocOk copyOk : Bool) (buf : List Nat) (inst : backplane_instructions) (peer : σ) :
    ∃ m, run_mon dir_step dir_init
      (backplane_write P a fuel kmallocOk copyOk buf
        (backplane_init P { bp_inst := inst, peer := peer, log := [] })).state.log
      = some m := by
  obtain ⟨ops, hl, ht⟩ := backplane_write_trace P a fuel kmallocOk copyOk buf
    (backplane_init P { bp_inst := inst, peer := peer, log := [] })
  rw [hl, backplane_init_log, List.nil_append]
  obtain ⟨m1, e1, -⟩ := dir_trace _ ops ht dir_init rfl
  have e0 : run_mon dir_step dir_init [Op.dirOut REQ 0, Op.dirIn ACK] = some dir_init := by
    decide
  exact ⟨m1, by rw [run_mon_then _ _ _ _ _ e0, e1]⟩

/-- The direction monitor rejects an assertion of REQ in a Write cycle with a
data line that is not an output, a data line made an input during a Write cycle,
a data line made an output during a Read cycle, an address line made an input
and ACK made an output. -/
theorem dir_monitor_rejects :
    run_mon dir_step dir_init [Op.dirOut WNR 1, Op.dirOut DATA7 1, Op.dirOut REQ 1] = none ∧
    run_mon dir_step dir_init (Op.dirOut WNR 1 :: (data_out_ops 0 ++
      [Op.dirOut REQ 1, Op.dirIn DATA3])) = none ∧
    run_mon dir_step dir_init (Op.dirOut WNR 0 :: (data_in_ops ++
      [Op.dirOut REQ 1, Op.get ACK 1, Op.dirOut REQ 0, Op.dirOut DATA0 1])) = none ∧
    run_mon dir_step dir_init [Op.dirIn ADDR4] = none ∧
    run_mon dir_step dir_init [Op.dirOut ACK 0] = none := by
  decide

end Backplane
